import Mathlib

/-!
# FreeRTOS partner-supported ports: context-switch substrate

Shallow embedding of the port layers for
* Infineon AURIX TC3xx (`Tasking/AURIX_TC3xx/port.c`),
* TI C2000 C29x (`CCS/C2000_C29x_F29H85x/port.c`, `portmacro.h`),
* Renesas RH850 U2x (`GHS/U2x/port.c`, `portmacro.h`).

Machine words are natural numbers reduced modulo `2 ^ 32` wherever the C code
can overflow.  A C function that can stop in `configASSERT` or in a hardware
trap returns an `Outcome`.
-/

namespace Port

/-- The number of values of a 32-bit machine word. -/
def WORD : Nat := 2 ^ 32

/-- How a call of a port function ends: it runs to its closing brace and
hands its result `v` and the machine state `s` back to its caller, or it stops
in a failed `configASSERT`, or it stops in a hardware trap.  In the last two
cases `s` is the machine state at the point where execution left the
function, and the caller receives nothing. -/
inductive Outcome (σ : Type) (α : Type) where
  | returned (v : α) (s : σ) : Outcome σ α
  | asserted (s : σ) : Outcome σ α
  | trapped (s : σ) : Outcome σ α

namespace Outcome

/-- Sequencing of calls: the next call runs only if the previous one returned. -/
def bind {σ α β : Type} (o : Outcome σ α) (f : α → σ → Outcome σ β) : Outcome σ β :=
  match o with
  | returned v s => f v s
  | asserted s => asserted s
  | trapped s => trapped s

/-- The machine state in which the call ended. -/
def state {σ α : Type} : Outcome σ α → σ
  | returned _ s => s
  | asserted s => s
  | trapped s => s

/-- True exactly for the outcome in which control comes back to the caller. -/
def isReturned {σ α : Type} : Outcome σ α → Bool
  | returned _ _ => true
  | _ => false

end Outcome

/-- Modelled from the spec: the `configASSERT` macro comes from the
application's `FreeRTOSConfig.h`, which is not among the sources.  Section 7
of the specification makes a protocol violation fatal ("the design
deliberately halts"): a false condition stops the function in the state it
has reached, a true one lets it continue. -/
def configASSERT {σ : Type} (cond : Bool) (s : σ) : Outcome σ Unit :=
  if cond then Outcome.returned () s else Outcome.asserted s

/-- The two critical-section entry points of a port. -/
inductive CritCall where
  | enter : CritCall
  | exit : CritCall
  deriving DecidableEq, Repr

/-- A sequence of critical-section calls made on top of the depth at which it
starts, with the depth staying below `bound`: no prefix has more exits than
enters, and in every prefix the enters exceed the exits by less than `bound`.
The prefixes of `cs` are the lists `cs.take k`. -/
def NestedBelow (bound : Nat) (cs : List CritCall) : Prop :=
  ∀ k, k ≤ cs.length →
    (cs.take k).count CritCall.exit ≤ (cs.take k).count CritCall.enter ∧
    (cs.take k).count CritCall.enter - (cs.take k).count CritCall.exit < bound

instance (bound : Nat) (cs : List CritCall) : Decidable (NestedBelow bound cs) := by
  unfold NestedBelow; infer_instance

/-- Memory as a map from the address of a 32-bit word to the word stored there. -/
abbrev Mem (α : Type) := α → Nat

/-- Store of one word. -/
def Mem.write {α : Type} [DecidableEq α] (m : Mem α) (a : α) (v : Nat) : Mem α :=
  fun x => if x = a then v else m x

end Port

/-! ## AURIX TC3xx -/

namespace AURIX

open Port

def portINITIAL_SYSTEM_PSW : Nat := 0x000008FF
def portCSA_FCX_MASK : Nat := 0x000FFFFF
def portINITIAL_LOWER_PCXI : Nat := 0x00300000
def portINITIAL_UPPER_PCXI : Nat := 0x00200000
def portNUM_WORDS_IN_CSA : Nat := 16

/-- Machine state seen by `port.c`.  `mem a` is the 32-bit word at byte address
`a` (all accesses of the port are word accesses through `uint32_t *`);
`FCX` and `PCXI` are the core registers read with `__mfcr` and written with
`__mtcr`; `IE` is the global interrupt enable bit switched by `__disable` and
`__enable`; `inISR` records whether the core is executing an interrupt service
routine, which is what `portASSERT_IF_IN_ISR` inspects; `pxCurrentTCB` is the
address of the current task control block, whose first word is the task's
stored top of stack.  The last three fields are read by the instruction
`svlcx` only: `LCX` is the core register naming the area at which the free
list counts as depleted, `CCPN` is the current priority number held in `ICR`,
and `lowerContext i`, for `i` from 1 to 15, is the register that a saved lower
context holds in its word `i` (A11, A2, A3, D0 to D3, A4 to A7, D4 to D7). -/
structure State where
  mem : Mem Nat
  FCX : Nat
  PCXI : Nat
  IE : Bool
  inISR : Bool
  uxCriticalNesting : Nat
  pxCurrentTCB : Nat
  LCX : Nat := 0
  CCPN : Nat := 0
  lowerContext : Nat → Nat := fun _ => 0

/-- Boot value: `static UBaseType_t uxCriticalNesting = 0xaaaaaaaa;`. -/
def uxCriticalNestingInitial : Nat := 0xaaaaaaaa

/-- The intrinsic `__disable()`. -/
def disable (s : State) : State := { s with IE := false }

/-- The intrinsic `__enable()`. -/
def enable (s : State) : State := { s with IE := true }

/-- Modelled from the spec: `portDISABLE_INTERRUPTS` is defined in the port's
`portmacro.h`, which is not among the sources.  Section 4.1: "`Disable()` masks
all maskable interrupts unconditionally (idempotent)". -/
def portDISABLE_INTERRUPTS (s : State) : State := disable s

/-- Modelled from the spec: `portENABLE_INTERRUPTS` is defined in the port's
`portmacro.h`, which is not among the sources.  Section 4.1: "`Enable()`
unmasks them unconditionally". -/
def portENABLE_INTERRUPTS (s : State) : State := enable s

/-- Modelled from the spec: `portASSERT_IF_IN_ISR` is defined in the port's
`portmacro.h`, which is not among the sources.  By the comment at its call
site it asserts when the caller runs in interrupt context. -/
def portASSERT_IF_IN_ISR (s : State) : Outcome State Unit :=
  configASSERT (!s.inISR) s

/-- `vPortEnterCritical` of `Tasking/AURIX_TC3xx/port.c`. -/
def vPortEnterCritical (s : State) : Outcome State Unit :=
  let s1 := portDISABLE_INTERRUPTS s
  let s2 := { s1 with uxCriticalNesting := (s1.uxCriticalNesting + 1) % WORD }
  if s2.uxCriticalNesting = 1 then portASSERT_IF_IN_ISR s2 else Outcome.returned () s2

/-- `vPortExitCritical` of `Tasking/AURIX_TC3xx/port.c`. -/
def vPortExitCritical (s : State) : Outcome State Unit :=
  (configASSERT (s.uxCriticalNesting != 0) s).bind fun _ s1 =>
    let s2 := { s1 with uxCriticalNesting := (s1.uxCriticalNesting + WORD - 1) % WORD }
    if s2.uxCriticalNesting = 0 then Outcome.returned () (portENABLE_INTERRUPTS s2)
    else Outcome.returned () s2

/-- One critical-section call. -/
def critStep : CritCall → State → Outcome State Unit
  | CritCall.enter, s => vPortEnterCritical s
  | CritCall.exit, s => vPortExitCritical s

/-- A sequence of critical-section calls, made one after the other. -/
def critRun : List CritCall → State → Outcome State Unit
  | [], s => Outcome.returned () s
  | c :: cs, s => (critStep c s).bind fun _ t => critRun cs t

/-- The intrinsic `__extru( x, pos, width )`: the `width` bits of `x` from bit
`pos` upwards, zero-extended. -/
def __extru (x pos width : Nat) : Nat := (x >>> pos) &&& (2 ^ width - 1)

/-- The intrinsic `__insert( a, b, pos, width )`: `a` with its `width` bits
from bit `pos` upwards replaced by the low `width` bits of `b`. -/
def __insert (a b pos width : Nat) : Nat :=
  (a &&& (0xFFFFFFFF ^^^ ((2 ^ width - 1) <<< pos))) ||| ((b &&& (2 ^ width - 1)) <<< pos)

/-- `pxPortCsaToAddress` of `Tasking/AURIX_TC3xx/port.c`: the address of the
context save area named by a link word. -/
def pxPortCsaToAddress (xCsa : Nat) : Nat :=
  let pxCsa := (__extru xCsa 16 4 <<< 28) % WORD
  __insert pxCsa xCsa 6 16

/-- The null pointer. -/
def NULL : Nat := 0

/-- `p--` on a `uint32_t *`: four bytes down, in 32-bit address arithmetic. -/
def ptrDec (p : Nat) : Nat := (p + WORD - 4) % WORD

/-- `p++` on a `uint32_t *`: four bytes up, in 32-bit address arithmetic. -/
def ptrInc (p : Nat) : Nat := (p + 4) % WORD

/-- `p[ i ]` for a `uint32_t * p`: the address of the `i`-th word after `p`. -/
def idx (p i : Nat) : Nat := p + 4 * i

/-- `memset( p, 0, n )`: every word lying in the `n` bytes from `p` becomes 0. -/
def memsetZero (m : Mem Nat) (p n : Nat) : Mem Nat :=
  fun a => if p ≤ a ∧ a < p + n then 0 else m a

/-- The word that `svlcx` stores at index `i` of the area it fills: the
previous context information `PCXI` in word 0, the registers of the lower
context in words 1 to 15. -/
def lowerContextWord (s : State) (i : Nat) : Nat :=
  if i = 0 then s.PCXI else s.lowerContext i

/-- Store of the `n` words `w 0`, ..., `w (n - 1)` at `p[ 0 ]`, ...,
`p[ n - 1 ]`. -/
def storeWords (m : Mem Nat) (p : Nat) (w : Nat → Nat) : Nat → Mem Nat
  | 0 => m
  | n + 1 => (storeWords m p w n).write (idx p n) (w n)

/-- The stores and register updates of `svlcx`, between its two trap checks:
the area `FCX` names receives the sixteen words of the lower context, `PCXI`
is made to name that area, with the current priority number and interrupt
enable bit, and the address bits of `FCX` are loaded from the area's old link
word. -/
def saveLowerContext (s : State) : State :=
  let EA := pxPortCsaToAddress s.FCX
  let new_FCX := s.mem EA
  { s with
    mem := storeWords s.mem EA (lowerContextWord s) portNUM_WORDS_IN_CSA
    PCXI := s.CCPN % 256 * 4194304 + (if s.IE then 2097152 else 0) + s.FCX % 1048576
    FCX := s.FCX / 1048576 * 1048576 + new_FCX % 1048576 }

/-- The TriCore instruction `svlcx` (save lower context), which `port.c`
issues through `__asm`; it is an instruction of the core, described in the
TriCore architecture manual, not code of `port.c`:

    if (FCX == 0) trap(FCU);
    tmp_FCX = FCX;  EA = address of the area FCX names;  new_FCX = M(EA);
    M(EA, 16 words) = {PCXI, A11, A2, A3, D0, D1, D2, D3, A4, A5, A6, A7,
                       D4, D5, D6, D7};
    PCXI.PCPN = ICR.CCPN;  PCXI.PIE = ICR.IE;  PCXI.UL = 0;
    PCXI[19:0] = FCX[19:0];  FCX[19:0] = new_FCX[19:0];
    if (tmp_FCX == LCX) trap(FCD);

`FCX` and `LCX` hold the twenty address bits of a link word, so they are
compared on these bits; in `PCXI` the address bits are bits 0 to 19, `UL` is
bit 20, `PIE` bit 21 and `PCPN` bits 22 to 29.  With no free area the
free-list-underflow trap `FCU` is raised before anything is stored.  The
depletion trap `FCD` is raised after the area has been filled and taken off
the free list, and only if it is the area `LCX` names; otherwise the
instruction completes and the next instruction runs.  A trap passes control
to the trap vector, which is not part of `port.c`. -/
def svlcx (s : State) : Outcome State Unit :=
  if s.FCX % 1048576 = 0 then Outcome.trapped s
  else
    let s1 := saveLowerContext s
    if s.FCX % 1048576 = s.LCX % 1048576 then Outcome.trapped s1
    else Outcome.returned () s1

/-- `pxPortInitialiseStack` of `Tasking/AURIX_TC3xx/port.c`.  `__dsync` has no
effect on the model.  When two context save areas cannot be reserved the
function executes `svlcx`; nothing but the closing brace of the `else` follows
it, so if the instruction raises no trap the function goes on with
`__enable()` and the stores, with `pxUpperCSA` still `NULL`.  The model's
memory is flat: a store through a `NULL` pointer goes to the word at that
address. -/
def pxPortInitialiseStack (s : State) (pxTopOfStack pxCode pvParameters : Nat) :
    Outcome State Nat :=
  let s0 := disable s
  let xLowerCsa := s0.FCX
  let pxLowerCSA := pxPortCsaToAddress xLowerCsa
  let xUpperCsa := if pxLowerCSA ≠ NULL then s0.mem (idx pxLowerCSA 0) else 0
  let pxUpperCSA :=
    if pxLowerCSA ≠ NULL then pxPortCsaToAddress (s0.mem (idx pxLowerCSA 0)) else NULL
  let reserved : Outcome State Unit :=
    if pxLowerCSA ≠ NULL ∧ pxUpperCSA ≠ NULL then
      Outcome.returned () { s0 with FCX := s0.mem (idx pxUpperCSA 0) }
    else
      svlcx s0
  reserved.bind fun _ s1 =>
    let s2 := enable s1
    let m1 := memsetZero s2.mem pxUpperCSA (portNUM_WORDS_IN_CSA * 4)
    let m2 := m1.write (idx pxUpperCSA 2) pxTopOfStack
    let m3 := m2.write (idx pxUpperCSA 1) portINITIAL_SYSTEM_PSW
    let m4 := m3.write (idx pxUpperCSA 0) portINITIAL_UPPER_PCXI
    let m5 := memsetZero m4 pxLowerCSA (portNUM_WORDS_IN_CSA * 4)
    let m6 := m5.write (idx pxLowerCSA 8) pvParameters
    let m7 := m6.write (idx pxLowerCSA 1) pxCode
    let m8 := m7.write (idx pxLowerCSA 0) (portINITIAL_LOWER_PCXI ||| xUpperCsa)
    let top1 := ptrDec pxTopOfStack
    let m9 := m8.write top1 0
    let top2 := ptrDec top1
    let m10 := m9.write top2 xLowerCsa
    Outcome.returned top2 { s2 with mem := m10 }

/-- The loop `for( i = 0; i < ucCallDepth - 1; i++ ) pxCSA =
pxPortCsaToAddress( pxCSA[ 0 ] );` run for `n` rounds. -/
def followLinks (m : Mem Nat) : Nat → Nat → Nat
  | 0, pxCSA => pxCSA
  | n + 1, pxCSA => followLinks m n (pxPortCsaToAddress (m (idx pxCSA 0)))

/-- `vPortLoadContext` of `Tasking/AURIX_TC3xx/port.c`.  `pxCurrentTCB` points
to the word holding the task's top of stack. -/
def vPortLoadContext (s : State) (ucCallDepth : Nat) : State :=
  let ppxTopOfStack := s.pxCurrentTCB
  let uxLowerCSA := s.mem (s.mem ppxTopOfStack)
  let s1 := { s with mem := s.mem.write ppxTopOfStack (ptrInc (s.mem ppxTopOfStack)) }
  let s2 := { s1 with uxCriticalNesting := s1.mem (s1.mem ppxTopOfStack) }
  let s3 := { s2 with mem := s2.mem.write ppxTopOfStack (ptrInc (s2.mem ppxTopOfStack)) }
  if ucCallDepth = 0 then
    { s3 with PCXI := uxLowerCSA }
  else
    let pxCSA := followLinks s3.mem (ucCallDepth - 1) (pxPortCsaToAddress s3.PCXI)
    { s3 with mem := s3.mem.write (idx pxCSA 0) uxLowerCSA }

/-- The kernel's assignment `pxNewTCB->pxTopOfStack = pxPortInitialiseStack( ... )`
followed by the scheduler making that task the current one: the word at `tcb`
receives the returned pointer. -/
def storeTopOfStack (s : State) (tcb pxTopOfStack : Nat) : State :=
  { s with mem := s.mem.write tcb pxTopOfStack, pxCurrentTCB := tcb }

/-- The context save areas of a chain, as `fuel` allows: the areas reached
from the link word `link` by following word 0, up to the first link whose
area is `NULL`. -/
def csaChain (m : Mem Nat) : Nat → Nat → List Nat
  | 0, _ => []
  | fuel + 1, link =>
    if pxPortCsaToAddress link = NULL then []
    else pxPortCsaToAddress link :: csaChain m fuel (m (idx (pxPortCsaToAddress link) 0))

/-- The byte address `a` lies in the context save area that starts at `p`. -/
def inCsa (p a : Nat) : Prop := p ≤ a ∧ a < p + portNUM_WORDS_IN_CSA * 4

instance (p a : Nat) : Decidable (inCsa p a) := by unfold inCsa; infer_instance

/-- `vPortSaveContext` of `Tasking/AURIX_TC3xx/port.c`.  Every access through
`ppxTopOfStack` reads or writes the word at `pxCurrentTCB` in memory. -/
def vPortSaveContext (s : State) (ucCallDepth : Nat) : State :=
  let uxLowerCSA0 := s.PCXI
  let uxLowerCSA :=
    if ucCallDepth ≠ 0 then
      let pxCSA := followLinks s.mem (ucCallDepth - 1) (pxPortCsaToAddress uxLowerCSA0)
      s.mem (idx pxCSA 0)
    else uxLowerCSA0
  let pxLowerCSA := pxPortCsaToAddress uxLowerCSA
  let pxUpperCSA := pxPortCsaToAddress (s.mem (idx pxLowerCSA 0))
  let ppxTopOfStack := s.pxCurrentTCB
  let m1 := s.mem.write ppxTopOfStack (s.mem (idx pxUpperCSA 2))
  let m2 := m1.write ppxTopOfStack (ptrDec (m1 ppxTopOfStack))
  let m3 := m2.write (m2 ppxTopOfStack) s.uxCriticalNesting
  let m4 := m3.write ppxTopOfStack (ptrDec (m3 ppxTopOfStack))
  let m5 := m4.write (m4 ppxTopOfStack) uxLowerCSA
  { s with mem := m5 }

/-- The `for` loop of `vPortReclaimCSA`: while the link word of the area at
`pulNextCSA` has address bits, the word is reduced to those bits and the walk
moves to the area it names.  The result is the memory and the area the loop
stops at; `none` when `fuel` rounds do not reach the end of the chain. -/
def reclaimWalk : Nat → Mem Nat → Nat → Option (Mem Nat × Nat)
  | 0, _, _ => none
  | fuel + 1, m, pulNextCSA =>
    if m (idx pulNextCSA 0) &&& portCSA_FCX_MASK ≠ 0 then
      let m1 := m.write (idx pulNextCSA 0) (m (idx pulNextCSA 0) &&& portCSA_FCX_MASK)
      reclaimWalk fuel m1 (pxPortCsaToAddress (m1 (idx pulNextCSA 0)))
    else some (m, pulNextCSA)

/-- `vPortReclaimCSA` of `Tasking/AURIX_TC3xx/port.c`; `pxTCB` is the address
of the deleted task's control block, whose first word points to the stack word
holding the task's lower context handle. -/
def vPortReclaimCSA (fuel : Nat) (s : State) (pxTCB : Nat) : Option State :=
  let ulHeadCSA := s.mem (s.mem pxTCB) &&& portCSA_FCX_MASK
  match reclaimWalk fuel s.mem (pxPortCsaToAddress ulHeadCSA) with
  | none => none
  | some (m, pulNextCSA) =>
    let s1 := disable { s with mem := m }
    let ulFreeCSA := s1.FCX
    let s2 := { s1 with mem := s1.mem.write (idx pulNextCSA 0) ulFreeCSA }
    let s3 := { s2 with FCX := ulHeadCSA }
    some (enable s3)

/-- `vPortSyscallYield` of `Tasking/AURIX_TC3xx/port.c`.
`configSYSCALL_CALL_DEPTH` comes from the application's `FreeRTOSConfig.h` and
`vTaskSwitchContext` from the FreeRTOS kernel; both are outside this
repository and are parameters. -/
def vPortSyscallYield (configSYSCALL_CALL_DEPTH : Nat) (vTaskSwitchContext : State → State)
    (s : State) : State :=
  let s1 := vPortSaveContext s configSYSCALL_CALL_DEPTH
  let s2 := vTaskSwitchContext s1
  vPortLoadContext s2 configSYSCALL_CALL_DEPTH

/-- The context save areas of the call stack, counted from the one addressed
by `PCXI`: `csaAt m pcxi 0` is the area addressed by `pcxi`, and
`csaAt m pcxi (k + 1)` is the area addressed by word 0 of `csaAt m pcxi k`. -/
def csaAt (m : Mem Nat) (pcxi : Nat) : Nat → Nat
  | 0 => pxPortCsaToAddress pcxi
  | k + 1 => pxPortCsaToAddress (m (idx (csaAt m pcxi k) 0))

/-- The values of the application's `FreeRTOSConfig.h` and the bit offsets of
the port's `portmacro.h` that the tick code uses; neither file is among the
sources. -/
structure TickConfig where
  configSTM_CLOCK_HZ : Nat
  configTICK_RATE_HZ : Nat
  configCPU_STM_DEBUG : Nat
  configTICK_STM_DEBUG : Nat
  configCPU_NR : Nat
  configTIMER_INTERRUPT_PRIORITY : Nat
  portSRC_SRCR_TOS_OFF : Nat
  portSRC_SRCR_SRPN_OFF : Nat
  portSRC_SRCR_SRE_OFF : Nat

/-- `#define portTICK_COUNT ( configSTM_CLOCK_HZ / configTICK_RATE_HZ )`. -/
def portTICK_COUNT (cfg : TickConfig) : Nat := cfg.configSTM_CLOCK_HZ / cfg.configTICK_RATE_HZ

/-- The registers of the system timer written by `port.c` (`pxStm[ ... ]`:
compare value `CMP0`, `COMCON`, `ICR`, `ISCR`, `OCS`) and the timer's service
request control register (`pxStmSrc[ 0 ]`).  The free-running counter `TIM0`
is read only; each read is an input of the function that makes it. -/
structure Stm where
  CMP0 : Nat
  COMCON : Nat
  ICR : Nat
  ISCR : Nat
  OCS : Nat
  SRC : Nat

/-- Subtraction of 32-bit words, as in `pxStm[ CMP0 ] - pxStm[ TIM0 ]` on
`uint32_t` operands: `( a - b ) mod 2 ^ 32` for `a, b < 2 ^ 32`. -/
def sub32 (a b : Nat) : Nat := (a + WORD - b) % WORD

/-- `vPortInitTickTimer` of `Tasking/AURIX_TC3xx/port.c`; `tim0a` and `tim0b`
are the values of its two reads of `TIM0`. -/
def vPortInitTickTimer (cfg : TickConfig) (tim0a tim0b : Nat) (t : Stm) : Stm :=
  let t := { t with COMCON := (0 <<< 8) ||| (31 <<< 0) }
  let t := { t with ICR := t.ICR &&& (0xFFFFFFFF ^^^ (1 <<< 2)) }
  let t := { t with SRC :=
    ((((if cfg.configCPU_NR > 0 then cfg.configCPU_NR + 1 else cfg.configCPU_NR)
        <<< cfg.portSRC_SRCR_TOS_OFF) |||
      (cfg.configTIMER_INTERRUPT_PRIORITY <<< cfg.portSRC_SRCR_SRPN_OFF))) % WORD }
  let t := { t with SRC := (t.SRC ||| (1 <<< cfg.portSRC_SRCR_SRE_OFF)) % WORD }
  let t := { t with CMP0 := tim0a }
  let t := { t with ISCR := t.ISCR ||| (1 <<< 0) }
  let t := { t with ICR := t.ICR ||| (1 <<< 0) }
  let t := { t with CMP0 := (tim0b + portTICK_COUNT cfg) % WORD }
  if cfg.configTICK_STM_DEBUG ≠ 0 then { t with OCS := 0x12000000 } else t

/-- `vPortSystemTickHandler` of `Tasking/AURIX_TC3xx/port.c`, on the timer
registers; `tim0` is the value of its read of `TIM0`.  The statements after
the assertion (`portSET_INTERRUPT_MASK_FROM_ISR`, `xTaskIncrementTick`,
`portCLEAR_INTERRUPT_MASK_FROM_ISR`, `portYIELD_FROM_ISR`) access no timer
register. -/
def vPortSystemTickHandler (cfg : TickConfig) (tim0 : Nat) (t : Stm) : Outcome Stm Unit :=
  let t := { t with CMP0 := (t.CMP0 + portTICK_COUNT cfg) % WORD }
  let t := { t with ISCR := t.ISCR ||| (1 <<< 0) }
  if cfg.configCPU_STM_DEBUG ≠ 0 then
    configASSERT (decide (sub32 t.CMP0 tim0 ≤ portTICK_COUNT cfg)) t
  else Outcome.returned () t

/-- Successive firings of the tick interrupt, one for each reading of `TIM0`
in the list; a firing that stops in the assertion ends the run. -/
def tickRun (cfg : TickConfig) : List Nat → Stm → Outcome Stm Unit
  | [], t => Outcome.returned () t
  | tim0 :: rest, t => (vPortSystemTickHandler cfg tim0 t).bind fun _ t1 => tickRun cfg rest t1

/-- A 100 MHz timer clock with a 1 kHz tick and the tick-drop check compiled
in, used to evaluate the model on concrete inputs. -/
def tickConfig : TickConfig :=
  { configSTM_CLOCK_HZ := 100000000, configTICK_RATE_HZ := 1000, configCPU_STM_DEBUG := 1,
    configTICK_STM_DEBUG := 0, configCPU_NR := 0, configTIMER_INTERRUPT_PRIORITY := 2,
    portSRC_SRCR_TOS_OFF := 11, portSRC_SRCR_SRPN_OFF := 0, portSRC_SRCR_SRE_OFF := 10 }

/-- Timer registers all 0, used to evaluate the model on concrete inputs. -/
def stmZero : Stm := { CMP0 := 0, COMCON := 0, ICR := 0, ISCR := 0, OCS := 0, SRC := 0 }

/-- The areas of a complete chain: following word 0 from the link word `link`
visits exactly the areas `cs`, in order, and the last of them has a link word
whose area is `NULL`. -/
def Chain (m : Mem Nat) : Nat → List Nat → Prop
  | link, [] => pxPortCsaToAddress link = NULL
  | link, c :: cs => pxPortCsaToAddress link = c ∧ c ≠ NULL ∧ Chain m (m c) cs

/-- Whether a list of areas is the complete chain from a link word can be
computed. -/
instance Chain.decidable (m : Mem Nat) : ∀ link cs, Decidable (Chain m link cs)
  | link, [] => inferInstanceAs (Decidable (pxPortCsaToAddress link = NULL))
  | link, c :: cs =>
    have := Chain.decidable m (m c) cs
    inferInstanceAs (Decidable (pxPortCsaToAddress link = c ∧ c ≠ NULL ∧ Chain m (m c) cs))

/-- A state before the scheduler starts, with a free list of three context
save areas at the addresses `0x40`, `0x80` and `0xC0` (link words 1, 2, 3, the
last area closing the list with link 0), used to evaluate the model on
concrete inputs. -/
def poolState : State :=
  { mem := fun a => if a = 0x40 then 2 else if a = 0x80 then 3 else 0,
    FCX := 1, PCXI := 0, IE := true, inISR := false,
    uxCriticalNesting := uxCriticalNestingInitial, pxCurrentTCB := 0x2000 }

/-- A task-level state with zeroed memory and the nesting counter at 0,
used to evaluate the model on concrete inputs. -/
def taskState : State :=
  { mem := fun _ => 0, FCX := 0, PCXI := 0, IE := true, inISR := false,
    uxCriticalNesting := 0, pxCurrentTCB := 0 }

/-- A state holding a deleted task, used to evaluate the model on concrete
inputs: the control block at `0x2000` points at the stack word `0xFF8`, which
holds the handle `0x00300001`; the task's chain is the areas `0x40` and `0x80`
(link words with flag bits above the address bits), and the free list is the
single area `0xC0` (`FCX = 3`). -/
def reclaimState : State :=
  { mem := fun a =>
      if a = 0x2000 then 0xFF8
      else if a = 0xFF8 then 0x00300001
      else if a = 0x40 then 0x00700002
      else if a = 0x80 then 0x00300000
      else 0,
    FCX := 3, PCXI := 0, IE := true, inISR := false,
    uxCriticalNesting := 0, pxCurrentTCB := 0x3000 }

/-- The port's state together with the live tasks.  A task is named by the
address of its control block, whose first word holds its stored top of stack
(the argument `pxTCB` of `vPortReclaimCSA`). -/
structure World where
  s : State
  tasks : List Nat

/-- `**pxTCB`: the handle stored at a task's top of stack. -/
def storedHandle (m : Mem Nat) (pxTCB : Nat) : Nat := m (m pxTCB)

/-- The byte address `a` lies in one of the context save areas `pool`. -/
def inPool (pool : List Nat) (a : Nat) : Prop := ∃ c ∈ pool, inCsa c a

instance (pool : List Nat) (a : Nat) : Decidable (inPool pool a) := by
  unfold inPool; infer_instance

/-- The two operations on the context save areas `pool`.

`create`: `pxPortInitialiseStack` succeeds, that is, it finds two free areas
to reserve and returns the new top of stack `sp`, which the
kernel (outside this repository) stores in the first word of the new task's
control block `tcb`.  The control block and the two stack words written are
fresh memory: outside every context save area, and not a control block or
stored top of stack of a live task.

`reclaim`: `vPortReclaimCSA` returns for the control block of a live task that
is not the running one. -/
inductive PoolStep (pool : List Nat) : World → World → Prop where
  | create (w : World) (top code param tcb sp : Nat) (s1 : State) :
      pxPortCsaToAddress w.s.FCX ≠ NULL →
      pxPortCsaToAddress (w.s.mem (pxPortCsaToAddress w.s.FCX)) ≠ NULL →
      pxPortInitialiseStack w.s top code param = Outcome.returned sp s1 →
      ¬ inPool pool tcb → ¬ inPool pool (ptrDec top) → ¬ inPool pool sp →
      tcb ≠ sp →
      (∀ t ∈ w.tasks, t ≠ tcb ∧ t ≠ sp ∧ t ≠ ptrDec top ∧
        w.s.mem t ≠ tcb ∧ w.s.mem t ≠ sp ∧ w.s.mem t ≠ ptrDec top) →
      PoolStep pool w
        { s := { s1 with mem := s1.mem.write tcb sp }, tasks := tcb :: w.tasks }
  | reclaim (w : World) (tcb fuel : Nat) (s1 : State) :
      tcb ∈ w.tasks → tcb ≠ w.s.pxCurrentTCB →
      vPortReclaimCSA fuel w.s tcb = some s1 →
      PoolStep pool w { s := s1, tasks := w.tasks.erase tcb }

/-- The worlds reached by task creations and reclamations from a state in
which the free list is the chain of all the areas `pool` and no task exists. -/
inductive PoolReachable (pool : List Nat) : World → Prop where
  | init (s : State) : Chain s.mem s.FCX pool → PoolReachable pool { s := s, tasks := [] }
  | step (w w1 : World) : PoolReachable pool w → PoolStep pool w w1 → PoolReachable pool w1

/-- The segment-chain invariant: the free list is a complete chain `F`, every
live task `t` has a complete chain `cs t` from its stored handle, and every
area of the pool is either on the free list and on no task's chain, or off
the free list and on the chain of exactly one live task. -/
def SegmentChainInvariant (pool : List Nat) (w : World) : Prop :=
  ∃ F : List Nat, ∃ cs : Nat → List Nat,
    Chain w.s.mem w.s.FCX F ∧
    (∀ t ∈ w.tasks, Chain w.s.mem (storedHandle w.s.mem t) (cs t)) ∧
    ∀ c ∈ pool,
      (c ∈ F ∧ ∀ t ∈ w.tasks, c ∉ cs t) ∨
      (c ∉ F ∧ ∃ t ∈ w.tasks, c ∈ cs t ∧ ∀ t1 ∈ w.tasks, c ∈ cs t1 → t1 = t)

/-- The facts carried along a run, for the free list `F` and the task chains
`cs`: the chains are complete, task chains are not empty, the control blocks
and stored tops of stack lie outside the pool, no area is on two chains, and
the chains together are the pool. -/
def PoolInvariant (pool : List Nat) (w : World) (F : List Nat) (cs : Nat → List Nat) :
    Prop :=
  Chain w.s.mem w.s.FCX F ∧
  (∀ t ∈ w.tasks, Chain w.s.mem (storedHandle w.s.mem t) (cs t) ∧ cs t ≠ [] ∧
    ¬ inPool pool t ∧ ¬ inPool pool (w.s.mem t)) ∧
  w.tasks.Nodup ∧
  (∀ t ∈ w.tasks, ∀ c ∈ cs t, c ∉ F) ∧
  (∀ t ∈ w.tasks, ∀ t1 ∈ w.tasks, t ≠ t1 → ∀ c ∈ cs t, c ∉ cs t1) ∧
  (∀ c, c ∈ pool ↔ (c ∈ F ∨ ∃ t ∈ w.tasks, c ∈ cs t))

end AURIX

/-! ## C2000 C29x -/

namespace C29x

open Port

def portINITIAL_CRITICAL_NESTING : Nat := 10
def portFLAGS_INT_ENABLED : Nat := 0x010000
def A_REGISTERS : Nat := 16
def D_REGISTERS : Nat := 16
def M_REGISTERS : Nat := 32
def A4_REGISTER_POSITION : Nat := 4
def pdTRUE : Nat := 1
def TASK_HAS_FPU_CONTEXT_ON_TASK_START : Nat := pdTRUE

/-- Machine state seen by the C29x port: the status register `DSTS`, whose
bit 16 (`portFLAGS_INT_ENABLED`) is the interrupt enable, and the nesting
counter. -/
structure State where
  DSTS : Nat
  ulCriticalNesting : Nat
  deriving DecidableEq, Repr

/-- Bit 16 of a status word, as `xPortSetInterruptMask` extracts it:
`( dsts >> 16 ) & 1`. -/
def intEnableBit (dsts : Nat) : Nat := (dsts >>> 16) &&& 1

/-- Interrupts are enabled when the enable bit of `DSTS` is set. -/
def State.intEnabled (s : State) : Bool := intEnableBit s.DSTS == 1

/-- The instruction `DISINT`: clears the interrupt enable bit of `DSTS`. -/
def DISINT (s : State) : State :=
  { s with DSTS := s.DSTS - intEnableBit s.DSTS * portFLAGS_INT_ENABLED }

/-- The instruction `ENINT`: sets the interrupt enable bit of `DSTS`. -/
def ENINT (s : State) : State :=
  { s with DSTS := s.DSTS + (1 - intEnableBit s.DSTS) * portFLAGS_INT_ENABLED }

/-- `#define portDISABLE_INTERRUPTS()  __asm__(" DISINT")`. -/
def portDISABLE_INTERRUPTS (s : State) : State := DISINT s

/-- `#define portENABLE_INTERRUPTS()   __asm__(" ENINT")`. -/
def portENABLE_INTERRUPTS (s : State) : State := ENINT s

/-- `vPortEnterCritical` of `CCS/C2000_C29x_F29H85x/port.c`. -/
def vPortEnterCritical (s : State) : Outcome State Unit :=
  let s1 := portDISABLE_INTERRUPTS s
  Outcome.returned () { s1 with ulCriticalNesting := (s1.ulCriticalNesting + 1) % WORD }

/-- `vPortExitCritical` of `CCS/C2000_C29x_F29H85x/port.c`: the function has
no assertion and no other exit than its closing brace. -/
def vPortExitCritical (s : State) : Outcome State Unit :=
  let s1 := { s with ulCriticalNesting := (s.ulCriticalNesting + WORD - 1) % WORD }
  if s1.ulCriticalNesting = 0 then Outcome.returned () (portENABLE_INTERRUPTS s1)
  else Outcome.returned () s1

/-- One critical-section call. -/
def critStep : CritCall → State → Outcome State Unit
  | CritCall.enter, s => vPortEnterCritical s
  | CritCall.exit, s => vPortExitCritical s

/-- A sequence of critical-section calls, made one after the other. -/
def critRun : List CritCall → State → Outcome State Unit
  | [], s => Outcome.returned () s
  | c :: cs, s => (critStep c s).bind fun _ t => critRun cs t

/-- `xPortSetInterruptMask` of `CCS/C2000_C29x_F29H85x/portmacro.h`: `DSTS` is
stored to the local `dsts`, interrupts are disabled, and bit 16 of the stored
word is returned. -/
def xPortSetInterruptMask (s : State) : Nat × State :=
  let dsts := s.DSTS
  let s1 := DISINT s
  ((dsts >>> 16) &&& 1, s1)

/-- `#define portSET_INTERRUPT_MASK_FROM_ISR( )  xPortSetInterruptMask( )`. -/
def portSET_INTERRUPT_MASK_FROM_ISR (s : State) : Nat × State := xPortSetInterruptMask s

/-- `#define portCLEAR_INTERRUPT_MASK_FROM_ISR( x )  if( x ) __asm__(" ENINT")`. -/
def portCLEAR_INTERRUPT_MASK_FROM_ISR (x : Nat) (s : State) : State :=
  if x ≠ 0 then ENINT s else s

/-- The two unconditional interrupt macros, as calls made between a
`portSET_INTERRUPT_MASK_FROM_ISR` and its `portCLEAR_INTERRUPT_MASK_FROM_ISR`. -/
inductive MaskCall where
  | enable : MaskCall
  | disable : MaskCall
  deriving DecidableEq, Repr

/-- One call of `portENABLE_INTERRUPTS` or `portDISABLE_INTERRUPTS`. -/
def maskStep : MaskCall → State → State
  | MaskCall.enable, s => portENABLE_INTERRUPTS s
  | MaskCall.disable, s => portDISABLE_INTERRUPTS s

/-- A sequence of such calls, made one after the other. -/
def maskRun (cs : List MaskCall) (s : State) : State := cs.foldl (fun t c => maskStep c t) s

/-- Leading zeros among the bits `i - 1, ..., 0` of `x`. -/
def clzFrom : Nat → Nat → Nat
  | 0, _ => 0
  | i + 1, x => if x.testBit i then 0 else clzFrom i x + 1

/-- The compiler intrinsic `__builtin_c29_i32_clzeros_d`: the number of leading
zero bits of a 32-bit word (32 for the word 0). -/
def __builtin_c29_i32_clzeros_d (x : Nat) : Nat := clzFrom 32 x

/-- `#define portRECORD_READY_PRIORITY( uxPriority, uxReadyPriorities )
( uxReadyPriorities ) |= ( 1UL << ( uxPriority ) )`, on a 32-bit
`UBaseType_t`: the new value of `uxReadyPriorities`. -/
def portRECORD_READY_PRIORITY (uxPriority uxReadyPriorities : Nat) : Nat :=
  (uxReadyPriorities ||| (1 <<< uxPriority)) % WORD

/-- `#define portRESET_READY_PRIORITY( uxPriority, uxReadyPriorities )
( uxReadyPriorities ) &= ~( 1UL << ( uxPriority ) )`: the new value of
`uxReadyPriorities`; the complement is taken on 32 bits. -/
def portRESET_READY_PRIORITY (uxPriority uxReadyPriorities : Nat) : Nat :=
  uxReadyPriorities &&& (0xFFFFFFFF ^^^ ((1 <<< uxPriority) % WORD))

/-- `#define portGET_HIGHEST_PRIORITY( uxTopPriority, uxReadyPriorities )
uxTopPriority = ( 31 - __builtin_c29_i32_clzeros_d( ( uxReadyPriorities ) ) )`:
the value assigned to the 32-bit `uxTopPriority`. -/
def portGET_HIGHEST_PRIORITY (uxReadyPriorities : Nat) : Nat :=
  (31 + WORD - __builtin_c29_i32_clzeros_d uxReadyPriorities) % WORD

/-- The statements of `xPortStartScheduler`, in program order. -/
inductive StartStep where
  | vPortSetupSWInterrupt : StartStep
  | vPortSetupTimerInterrupt : StartStep
  | resetCriticalNesting : StartStep
  | portENABLE_INTERRUPTS : StartStep
  | portRESTORE_FIRST_CONTEXT : StartStep
  deriving DecidableEq, Repr

/-- The effect on the port's state of `vPortSetupSWInterrupt` and
`vPortSetupTimerInterrupt`, whose bodies consist of calls of the device driver
library (`Interrupt_...`, `CPUTimer_...`), which is outside this repository. -/
structure Setup where
  vPortSetupSWInterrupt : State → State
  vPortSetupTimerInterrupt : State → State

/-- `xPortStartScheduler` of `CCS/C2000_C29x_F29H85x/port.c`, as the list of
its statements in program order, each with the state in which it leaves the
machine.  `portRESTORE_FIRST_CONTEXT` is an assembly routine that is not among
the sources and does not come back ("This line should not be reached"): it is
listed with the state in which it is entered. -/
def xPortStartScheduler (D : Setup) (s : State) : List (StartStep × State) :=
  let s1 := D.vPortSetupSWInterrupt s
  let s2 := D.vPortSetupTimerInterrupt s1
  let s3 := { s2 with ulCriticalNesting := 0 }
  let s4 := portENABLE_INTERRUPTS s3
  [(StartStep.vPortSetupSWInterrupt, s1), (StartStep.vPortSetupTimerInterrupt, s2),
   (StartStep.resetCriticalNesting, s3), (StartStep.portENABLE_INTERRUPTS, s4),
   (StartStep.portRESTORE_FIRST_CONTEXT, s4)]

/-- Upper bound of the register-fill loop of `pxPortInitialiseStack`:
`A_REGISTERS + D_REGISTERS + M_REGISTERS - 2 - 1`. -/
def lastFillIndex : Nat := A_REGISTERS + D_REGISTERS + M_REGISTERS - 2 - 1

/-- One round of the register-fill loop: `pxTopOfStack[ base + i ] = value`. -/
def fillRegister (pxTopOfStack : Int) (base pvParameters : Nat) (m : Mem Int) (i : Nat) :
    Mem Int :=
  let value := if i = A4_REGISTER_POSITION then pvParameters else 0xDEADDEAD
  m.write (pxTopOfStack + ((base + i : Nat) : Int)) value

/-- `pxPortInitialiseStack` of `CCS/C2000_C29x_F29H85x/port.c`.  A
`StackType_t *` is the index of the 32-bit word it addresses; `vPortEndScheduler`
is the address of that function.  The loop `for( i = 0; i <= lastFillIndex; i++ )`
runs over `0, ..., lastFillIndex` and leaves `i = lastFillIndex + 1`. -/
def pxPortInitialiseStack (vPortEndScheduler : Nat) (m : Mem Int)
    (pxTopOfStack : Int) (pxCode pvParameters : Nat) : Int × Mem Int :=
  let base := 0
  let m := m.write (pxTopOfStack + (base : Nat)) vPortEndScheduler
  let base := base + 1
  let m := m.write (pxTopOfStack + (base : Nat)) 0x07F90001
  let base := base + 1
  let m := m.write (pxTopOfStack + (base : Nat)) 0xABABABAB
  let base := base + 1
  let m := m.write (pxTopOfStack + (base : Nat)) (pxCode &&& 0xFFFFFFFE)
  let base := base + 1
  let m := m.write (pxTopOfStack + (base : Nat)) 0x07F90001
  let base := base + 1
  let m := m.write (pxTopOfStack + (base : Nat)) 0x00020101
  let base := base + 1
  let m := (List.range (lastFillIndex + 1)).foldl (fillRegister pxTopOfStack base pvParameters) m
  let i := lastFillIndex + 1
  let base := base + i
  let m := m.write (pxTopOfStack + (base : Nat)) TASK_HAS_FPU_CONTEXT_ON_TASK_START
  let base := base + 1
  let base := base + 1
  (pxTopOfStack + (base : Nat), m)

/-- Byte address of the word with index `p`, for the alignment of a
`StackType_t *`. -/
def byteAddress (p : Int) : Int := 4 * p

/-- The reference layout of the initial frame, word by word, as the frame
description states it: word 0 the address of `vPortEndScheduler`, words 1 and 4
`0x07F90001`, word 2 `0xABABABAB`, word 3 the entry point with bit 0 cleared,
word 5 `0x00020101`, words 6 to 67 `0xDEADDEAD` except word 10, which holds the
parameter, and word 68 the floating-point context flag 1. -/
def referenceFrame (vPortEndScheduler pxCode pvParameters : Nat) (k : Nat) : Nat :=
  if k = 0 then vPortEndScheduler
  else if k = 1 ∨ k = 4 then 0x07F90001
  else if k = 2 then 0xABABABAB
  else if k = 3 then pxCode &&& 0xFFFFFFFE
  else if k = 5 then 0x00020101
  else if k = 10 then pvParameters
  else if 6 ≤ k ∧ k ≤ 67 then 0xDEADDEAD
  else if k = 68 then 1
  else 0

end C29x

/-! ## RH850 U2x -/

namespace U2x

open Port

def portINITIAL_PSW_MASK : Nat := 0x00078000
def portCURRENT_SR_ZERO_VALUE : Nat := 0x00000000
def portINITIAL_FPSR_MASK : Nat := 0x00ae0000
def portINITIAL_FXSR_MASK : Nat := 0x00ee0000
def portPSW_ID_MASK : Nat := 0x00000020

/-- `portSTACK_INITIAL_VALUE_R1`. -/
def portSTACK_INITIAL_VALUE_R1 : Nat := 0x01010101

/-- The macros `portSTACK_INITIAL_VALUE_R2` to `portSTACK_INITIAL_VALUE_R30`:
`( StackType_t ) portSTACK_INITIAL_VALUE_R1 * k`, where `k` is the factor
written in the macro (`0x02`, ..., `0x09`, `0x10`, ..., `0x30`). -/
def portSTACK_INITIAL_VALUE (k : Nat) : Nat := (portSTACK_INITIAL_VALUE_R1 * k) % WORD

/-- Build-time configuration from `FreeRTOSConfig.h`, and the address of the
static function `prvTaskExitError`. -/
structure Config where
  configNUMBER_OF_CORES : Nat
  configENABLE_FPU : Nat
  configENABLE_FXU : Nat
  prvTaskExitError : Nat

/-- System registers of the calling core read through `portSTSR`: `PSW`
(register 5, selector 0), `FPSR` (6, 0), `FXSR` (6, 10) and `PEID` (0, 2). -/
structure Regs where
  PSW : Nat
  FPSR : Nat
  FXSR : Nat
  PEID : Nat

/-- `xPortGET_CORE_ID` of `GHS/U2x/port.c`. -/
def xPortGET_CORE_ID (cfg : Config) (r : Regs) : Nat :=
  if cfg.configNUMBER_OF_CORES > 1 then r.PEID else 0

/-- `portCURRENT_PSW_VALUE`. -/
def portCURRENT_PSW_VALUE (r : Regs) : Nat := r.PSW

/-- `portCURRENT_FPSR_VALUE`. -/
def portCURRENT_FPSR_VALUE (r : Regs) : Nat := r.FPSR

/-- `portCURRENT_FXSR_VALUE`. -/
def portCURRENT_FXSR_VALUE (r : Regs) : Nat := r.FXSR

/-- A stack under construction: the memory and the running `pxTopOfStack`.  A
`StackType_t *` is the index of the 32-bit word it addresses. -/
structure Frame where
  mem : Mem Int
  pxTopOfStack : Int

/-- The statement pair `pxTopOfStack--; *pxTopOfStack = v;`. -/
def push (f : Frame) (v : Nat) : Frame :=
  { mem := f.mem.write (f.pxTopOfStack - 1) v, pxTopOfStack := f.pxTopOfStack - 1 }

/-- The words `pxPortInitialiseStack` stores below the first one, in program
order, up to `CTPC`: R5, R6, R7 to R30, R1, R2, EIPSW, EIPC, EIIC, CTPSW, CTPC. -/
def baseFrameWords (r : Regs) (pxCode pvParameters : Nat) : List Nat :=
  [ portSTACK_INITIAL_VALUE 0x05,
    pvParameters,
    portSTACK_INITIAL_VALUE 0x07,
    portSTACK_INITIAL_VALUE 0x08,
    portSTACK_INITIAL_VALUE 0x09,
    portSTACK_INITIAL_VALUE 0x10,
    portSTACK_INITIAL_VALUE 0x11,
    portSTACK_INITIAL_VALUE 0x12,
    portSTACK_INITIAL_VALUE 0x13,
    portSTACK_INITIAL_VALUE 0x14,
    portSTACK_INITIAL_VALUE 0x15,
    portSTACK_INITIAL_VALUE 0x16,
    portSTACK_INITIAL_VALUE 0x17,
    portSTACK_INITIAL_VALUE 0x18,
    portSTACK_INITIAL_VALUE 0x19,
    portSTACK_INITIAL_VALUE 0x20,
    portSTACK_INITIAL_VALUE 0x21,
    portSTACK_INITIAL_VALUE 0x22,
    portSTACK_INITIAL_VALUE 0x23,
    portSTACK_INITIAL_VALUE 0x24,
    portSTACK_INITIAL_VALUE 0x25,
    portSTACK_INITIAL_VALUE 0x26,
    portSTACK_INITIAL_VALUE 0x27,
    portSTACK_INITIAL_VALUE 0x28,
    portSTACK_INITIAL_VALUE 0x29,
    portSTACK_INITIAL_VALUE 0x30,
    portSTACK_INITIAL_VALUE 0x01,
    portSTACK_INITIAL_VALUE 0x02,
    portCURRENT_PSW_VALUE r &&& portINITIAL_PSW_MASK,
    pxCode,
    portCURRENT_SR_ZERO_VALUE,
    portCURRENT_PSW_VALUE r &&& portINITIAL_PSW_MASK,
    portCURRENT_SR_ZERO_VALUE ]

/-- `pxPortInitialiseStack` of `GHS/U2x/port.c`: the first word is stored at
`pxTopOfStack` itself, every further one after a decrement. -/
def pxPortInitialiseStack (cfg : Config) (r : Regs) (m : Mem Int)
    (pxTopOfStack : Int) (pxCode pvParameters : Nat) : Frame :=
  let f0 : Frame := { mem := m.write pxTopOfStack cfg.prvTaskExitError,
                      pxTopOfStack := pxTopOfStack }
  let f1 := (baseFrameWords r pxCode pvParameters).foldl push f0
  let f2 :=
    if cfg.configENABLE_FPU = 1 then
      push (push f1 (portCURRENT_FPSR_VALUE r &&& portINITIAL_FPSR_MASK))
        portCURRENT_SR_ZERO_VALUE
    else f1
  let f3 :=
    if cfg.configENABLE_FXU = 1 then
      if 0 = xPortGET_CORE_ID cfg r then
        push (push f2 (portCURRENT_FXSR_VALUE r &&& portINITIAL_FXSR_MASK))
          portCURRENT_SR_ZERO_VALUE
      else f2
    else f2
  f3

/-- The frame up to `CTPC`, before the optional floating-point words: the value of
`f1` in `pxPortInitialiseStack`. -/
def baseFrame (cfg : Config) (r : Regs) (m : Mem Int) (top : Int) (code param : Nat) : Frame :=
  (baseFrameWords r code param).foldl push
    { mem := m.write top cfg.prvTaskExitError, pxTopOfStack := top }

/-- Number of floating-point register pairs in the frame: 1 if and only if
`configENABLE_FPU == 1`. -/
def fpuPairs (cfg : Config) : Int := if cfg.configENABLE_FPU = 1 then 1 else 0

/-- Number of extended floating-point register pairs in the frame: 1 if and
only if `configENABLE_FXU == 1` and the calling core is core 0. -/
def fxuPairs (cfg : Config) (r : Regs) : Int :=
  if cfg.configENABLE_FXU = 1 ∧ xPortGET_CORE_ID cfg r = 0 then 1 else 0

def PORT_SCHEDULER_NOREQUEST : Nat := 0
def PORT_SCHEDULER_TASKSWITCH : Nat := 1
def PORT_SCHEDULER_STARTFIRSTTASK : Nat := 2
def pdFALSE : Int := 0
def pdTRUE : Int := 1

/-- The intrinsic `__DI()`: sets the interrupt-disable bit, bit 5 of `PSW`
("1: Interrupt is disabled; 0: Interrupt is enabled"). -/
def __DI (r : Regs) : Regs := { r with PSW := r.PSW ||| portPSW_ID_MASK }

/-- The intrinsic `__EI()`: clears the interrupt-disable bit of `PSW`. -/
def __EI (r : Regs) : Regs := { r with PSW := r.PSW &&& (0xFFFFFFFF ^^^ portPSW_ID_MASK) }

/-- `#define portDISABLE_INTERRUPTS()    __DI()`. -/
def portDISABLE_INTERRUPTS (r : Regs) : Regs := __DI r

/-- `#define portENABLE_INTERRUPTS()     __EI()`. -/
def portENABLE_INTERRUPTS (r : Regs) : Regs := __EI r

/-- `xPortSetInterruptMask` of `GHS/U2x/port.c`: returns the `PSW` it read and
leaves interrupts disabled. -/
def xPortSetInterruptMask (r : Regs) : Nat × Regs :=
  let ulPSWValue := r.PSW
  let r1 := portDISABLE_INTERRUPTS r
  (ulPSWValue, r1)

/-- `vPortClearInterruptMask` of `GHS/U2x/port.c`; `~( portPSW_ID_MASK )` is the
32-bit complement. -/
def vPortClearInterruptMask (r : Regs) (uxSavedInterruptStatus : Nat) : Regs :=
  let ulPSWValue := r.PSW
  let ulPSWValue := ulPSWValue &&& (0xFFFFFFFF ^^^ portPSW_ID_MASK)
  let ulPSWValue := ulPSWValue ||| (portPSW_ID_MASK &&& uxSavedInterruptStatus)
  { r with PSW := ulPSWValue }

/-- Calls that leave `port.c`'s C code: the two spin-lock routines written in
assembly, and the assembly routine `vPortYield`. -/
inductive Event where
  | prvExclusiveLock (xBitPosition : Nat) : Event
  | prvExclusiveRelease (xBitPosition : Nat) : Event
  | vPortYield (core : Nat) : Event
  | vTaskSwitchContext (core : Nat) : Event
  | xTaskIncrementTick (core : Nat) : Event
  deriving DecidableEq, Repr

/-- Memory shared by the cores, as `port.c` uses it: the per-core scheduler
request flags, the lock nesting table, the bits of the exclusive-control byte
at `___ghsbegin_mev_address`, the three inter-processor interrupt registers
the file accesses, and the record of the calls listed in `Event`. -/
structure State where
  xPortScheduleStatus : Nat → Nat
  uxLockNesting : Nat → Nat → Nat
  mev : Nat → Bool
  IPI1FLGS : Nat
  IPI1FCLRS : Nat
  IPI1REQS : Nat
  calls : List Event

/-- Initial values: `xPortScheduleStatus` and `uxLockNesting` are initialised
with `{ 0 }`; no exclusive-control bit is held and no call has been made. -/
def initialState : State :=
  { xPortScheduleStatus := fun _ => 0, uxLockNesting := fun _ _ => 0, mev := fun _ => false,
    IPI1FLGS := 0, IPI1FCLRS := 0, IPI1REQS := 0, calls := [] }

/-- Assignment to `xPortScheduleStatus[ core ]`. -/
def setScheduleStatus (s : State) (core v : Nat) : State :=
  { s with xPortScheduleStatus := fun c => if c = core then v else s.xPortScheduleStatus c }

/-- Assignment to `uxLockNesting[ core ][ bit ]`. -/
def setLockNesting (s : State) (core bit v : Nat) : State :=
  { s with uxLockNesting := fun c b => if c = core ∧ b = bit then v else s.uxLockNesting c b }

/-- The loop of `prvExclusiveLock`: `set1` sets the bit and reports whether it
was clear; if it was, the lock is taken (`Lock_success`), otherwise the core
executes `snooze` and tries again.  Nothing in a sequential run changes the
bit between two tries; `none` when `fuel` tries do not take the lock. -/
def set1Loop : Nat → Nat → State → Option State
  | 0, _, _ => none
  | fuel + 1, xBitPosition, s =>
    if s.mev xBitPosition = false then
      some { s with mev := fun b => if b = xBitPosition then true else s.mev b }
    else set1Loop fuel xBitPosition s

/-- `prvExclusiveLock` of `GHS/U2x/port.c`; the call is recorded. -/
def prvExclusiveLock (fuel : Nat) (xBitPosition : Nat) (s : State) : Option State :=
  set1Loop fuel xBitPosition
    { s with calls := s.calls ++ [Event.prvExclusiveLock xBitPosition] }

/-- `prvExclusiveRelease` of `GHS/U2x/port.c`: `clr1` clears the bit; the call
is recorded. -/
def prvExclusiveRelease (xBitPosition : Nat) (s : State) : State :=
  { s with mev := fun b => if b = xBitPosition then false else s.mev b,
           calls := s.calls ++ [Event.prvExclusiveRelease xBitPosition] }

/-- The value of `BaseType_t xBitPosition = ( xFromIsr == pdTRUE );`. -/
def lockBitPosition (xFromIsr : Int) : Nat := if xFromIsr = pdTRUE then 1 else 0

/-- `vPortRecursiveLockAcquire` of `GHS/U2x/port.c`, run by a core with
registers `r`; `none` when `prvExclusiveLock` does not take the lock within
`fuel` tries. -/
def vPortRecursiveLockAcquire (fuel : Nat) (xCoreID : Nat) (xFromIsr : Int)
    (r : Regs) (s : State) : Option (Regs × State) :=
  let xBitPosition := lockBitPosition xFromIsr
  let (xSavedInterruptStatus, r1) := xPortSetInterruptMask r
  let locked :=
    if s.uxLockNesting xCoreID xBitPosition = 0 then prvExclusiveLock fuel xBitPosition s
    else some s
  match locked with
  | none => none
  | some s1 =>
    let s2 := setLockNesting s1 xCoreID xBitPosition
      ((s1.uxLockNesting xCoreID xBitPosition + 1) % WORD)
    some (vPortClearInterruptMask r1 xSavedInterruptStatus, s2)

/-- `vPortRecursiveLockRelease` of `GHS/U2x/port.c`, run by a core with
registers `r`; `portSYNCM` has no effect on the model. -/
def vPortRecursiveLockRelease (xCoreID : Nat) (xFromIsr : Int) (r : Regs) (s : State) :
    Outcome (Regs × State) Unit :=
  let xBitPosition := lockBitPosition xFromIsr
  let (xSavedInterruptStatus, r1) := xPortSetInterruptMask r
  (configASSERT (decide (s.uxLockNesting xCoreID xBitPosition > 0)) (r1, s)).bind
    fun _ rs =>
      let s1 := setLockNesting rs.2 xCoreID xBitPosition
        ((rs.2.uxLockNesting xCoreID xBitPosition + WORD - 1) % WORD)
      let s2 :=
        if s1.uxLockNesting xCoreID xBitPosition = 0 then prvExclusiveRelease xBitPosition s1
        else s1
      Outcome.returned () (vPortClearInterruptMask rs.1 xSavedInterruptStatus, s2)

/-- The registers after a `portSET_INTERRUPT_MASK_FROM_ISR` followed by the
matching `portCLEAR_INTERRUPT_MASK_FROM_ISR`, as both lock routines leave
them. -/
def maskCycle (r : Regs) : Regs :=
  vPortClearInterruptMask (xPortSetInterruptMask r).2 (xPortSetInterruptMask r).1

/-- The two entry points of the recursive lock. -/
inductive LockCall where
  | acquire : LockCall
  | release : LockCall
  deriving DecidableEq, Repr

/-- One lock call by the core with registers `r`; `none` when the call does
not return (the lock is not taken within `fuel` tries, or the assertion of
`vPortRecursiveLockRelease` fails). -/
def lockStep (fuel : Nat) (xCoreID : Nat) (xFromIsr : Int) :
    LockCall → Regs × State → Option (Regs × State)
  | LockCall.acquire, rs => vPortRecursiveLockAcquire fuel xCoreID xFromIsr rs.1 rs.2
  | LockCall.release, rs =>
    match vPortRecursiveLockRelease xCoreID xFromIsr rs.1 rs.2 with
    | Outcome.returned _ rs1 => some rs1
    | Outcome.asserted _ => none
    | Outcome.trapped _ => none

/-- A sequence of lock calls by one core, made one after the other. -/
def lockRun (fuel : Nat) (xCoreID : Nat) (xFromIsr : Int) :
    List LockCall → Regs × State → Option (Regs × State)
  | [], rs => some rs
  | c :: cs, rs =>
    match lockStep fuel xCoreID xFromIsr c rs with
    | none => none
    | some rs1 => lockRun fuel xCoreID xFromIsr cs rs1

/-- Number of recorded calls of `prvExclusiveLock( bit )`. -/
def lockCalls (s : State) (bit : Nat) : Nat := s.calls.count (Event.prvExclusiveLock bit)

/-- Number of recorded calls of `prvExclusiveRelease( bit )`. -/
def releaseCalls (s : State) (bit : Nat) : Nat := s.calls.count (Event.prvExclusiveRelease bit)

/-- One atomic step of the lock protocol: a core `c < configNUMBER_OF_CORES`
completes a `vPortRecursiveLockAcquire` (possible only when the routine takes
the lock, so not while it needs a bit that is held), or completes a
`vPortRecursiveLockRelease` with a non-zero counter. -/
inductive LockTransition (cfg : Config) : State → State → Prop where
  | acquire (s s1 : State) (c : Nat) (xFromIsr : Int) (r r1 : Regs) (fuel : Nat) :
      c < cfg.configNUMBER_OF_CORES →
      vPortRecursiveLockAcquire fuel c xFromIsr r s = some (r1, s1) →
      LockTransition cfg s s1
  | release (s s1 : State) (c : Nat) (xFromIsr : Int) (r r1 : Regs) :
      c < cfg.configNUMBER_OF_CORES →
      s.uxLockNesting c (lockBitPosition xFromIsr) ≠ 0 →
      vPortRecursiveLockRelease c xFromIsr r s = Outcome.returned () (r1, s1) →
      LockTransition cfg s s1

/-- States reachable from the initial state by lock steps. -/
inductive LockReachable (cfg : Config) : State → Prop where
  | init : LockReachable cfg initialState
  | step (s s1 : State) : LockReachable cfg s → LockTransition cfg s s1 → LockReachable cfg s1

/-- A lock step that keeps the nesting depth below `2 ^ 32`: as
`LockTransition`, with an acquire taken only while the 32-bit counter it
increments does not wrap. -/
inductive BoundedLockTransition (cfg : Config) : State → State → Prop where
  | acquire (s s1 : State) (c : Nat) (xFromIsr : Int) (r r1 : Regs) (fuel : Nat) :
      c < cfg.configNUMBER_OF_CORES →
      s.uxLockNesting c (lockBitPosition xFromIsr) + 1 < WORD →
      vPortRecursiveLockAcquire fuel c xFromIsr r s = some (r1, s1) →
      BoundedLockTransition cfg s s1
  | release (s s1 : State) (c : Nat) (xFromIsr : Int) (r r1 : Regs) :
      c < cfg.configNUMBER_OF_CORES →
      s.uxLockNesting c (lockBitPosition xFromIsr) ≠ 0 →
      vPortRecursiveLockRelease c xFromIsr r s = Outcome.returned () (r1, s1) →
      BoundedLockTransition cfg s s1

/-- States reachable from the initial state by lock steps that keep the
nesting depth below `2 ^ 32`. -/
inductive BoundedLockReachable (cfg : Config) : State → Prop where
  | init : BoundedLockReachable cfg initialState
  | step (s s1 : State) : BoundedLockReachable cfg s → BoundedLockTransition cfg s s1 →
      BoundedLockReachable cfg s1

/-- Mutual exclusion and agreement of counters and hardware bits, for the two
lock domains: at most one core has a non-zero counter, and the bit is set
exactly when some core has one. -/
def LockInvariant (s : State) : Prop :=
  ∀ d, d < 2 →
    (∀ c1 c2, s.uxLockNesting c1 d > 0 → s.uxLockNesting c2 d > 0 → c1 = c2) ∧
    (s.mev d = true ↔ ∃ c, s.uxLockNesting c d > 0)

/-- Modelled from the spec: `vPortYield` is the port's assembly entry to the
context switch and is not among the sources.  Section 4.6: a yield request for
the caller's own core "directly invoke[s] the Context Switch Engine".  The
call is recorded; the switch itself is not part of this model. -/
def vPortYield (cfg : Config) (r : Regs) (s : State) : State :=
  { s with calls := s.calls ++ [Event.vPortYield (xPortGET_CORE_ID cfg r)] }

/-- `vPortIPIRClearRequest` of `GHS/U2x/port.c`; the local is a `uint8_t`. -/
def vPortIPIRClearRequest (s : State) : State :=
  let IPInFLGValue := s.IPI1FLGS % 256
  { s with IPI1FCLRS := IPInFLGValue }

/-- `vPortYieldCore` of `GHS/U2x/port.c`, run by a core with registers `r`. -/
def vPortYieldCore (cfg : Config) (xCoreID : Nat) (r : Regs) (s : State) : State :=
  if xCoreID ≠ xPortGET_CORE_ID cfg r then
    { s with IPI1REQS := (s.IPI1REQS ||| (1 <<< xCoreID)) % WORD }
  else
    vPortYield cfg r s

/-- The kernel functions that `port.c` calls and that live in the FreeRTOS
kernel, outside this repository: each maps the calling core's registers and
the shared memory to its result and their new values. -/
structure Kernel where
  vTaskEnterCriticalFromISR : Regs → State → Nat × Regs × State
  vTaskExitCriticalFromISR : Nat → Regs → State → Regs × State
  xTaskIncrementTick : Regs → State → Int × Regs × State

/-- A kernel function leaves the port's own variables alone: the calling
core's identity, the scheduler request flags and the inter-processor
interrupt registers. -/
def keepsPortVariables (r : Regs) (s : State) (r1 : Regs) (s1 : State) : Prop :=
  r1.PEID = r.PEID ∧ s1.xPortScheduleStatus = s.xPortScheduleStatus ∧
  s1.IPI1FLGS = s.IPI1FLGS ∧ s1.IPI1FCLRS = s.IPI1FCLRS ∧ s1.IPI1REQS = s.IPI1REQS

/-- A kernel function leaves the calling core's identity and the scheduler
request flags alone; it may write the inter-processor interrupt registers. -/
def keepsFlags (r : Regs) (s : State) (r1 : Regs) (s1 : State) : Prop :=
  r1.PEID = r.PEID ∧ s1.xPortScheduleStatus = s.xPortScheduleStatus

/-- The kernel's use of the port's own variables: the two critical-section
functions touch none of them, and `xTaskIncrementTick` leaves the calling
core's identity and the scheduler request flags alone. The tick may ask other
cores to yield through `portYIELD_CORE`, which is `vPortYieldCore` and writes
`IPI1REQS`, so nothing is assumed about the inter-processor interrupt
registers after it. -/
def Kernel.keepsPort (K : Kernel) : Prop :=
  (∀ r s, keepsPortVariables r s (K.vTaskEnterCriticalFromISR r s).2.1
      (K.vTaskEnterCriticalFromISR r s).2.2) ∧
  (∀ x r s, keepsPortVariables r s (K.vTaskExitCriticalFromISR x r s).1
      (K.vTaskExitCriticalFromISR x r s).2) ∧
  (∀ r s, keepsFlags r s (K.xTaskIncrementTick r s).2.1
      (K.xTaskIncrementTick r s).2.2)

/-- A kernel whose critical sections mask and unmask interrupts and whose tick
asks for no switch, used to evaluate the model on concrete inputs. -/
def Kernel.simple : Kernel :=
  { vTaskEnterCriticalFromISR := fun r s => ((xPortSetInterruptMask r).1,
      (xPortSetInterruptMask r).2, s),
    vTaskExitCriticalFromISR := fun x r s => (vPortClearInterruptMask r x, s),
    xTaskIncrementTick := fun r s => (0, r, s) }

/-- A kernel like `Kernel.simple` whose tick asks for a switch, used to
evaluate the model on concrete inputs. -/
def Kernel.ticking : Kernel :=
  { vTaskEnterCriticalFromISR := Kernel.simple.vTaskEnterCriticalFromISR,
    vTaskExitCriticalFromISR := Kernel.simple.vTaskExitCriticalFromISR,
    xTaskIncrementTick := fun r s => (pdTRUE, r, s) }

/-- A kernel like `Kernel.ticking` whose tick also asks core 0 to yield
through `portYIELD_CORE`, as the multi-core kernel does when a task made ready
by the tick belongs on another core; used to evaluate the model on concrete
inputs. -/
def Kernel.yielding (cfg : Config) : Kernel :=
  { vTaskEnterCriticalFromISR := Kernel.simple.vTaskEnterCriticalFromISR,
    vTaskExitCriticalFromISR := Kernel.simple.vTaskExitCriticalFromISR,
    xTaskIncrementTick := fun r s => (pdTRUE, r, vPortYieldCore cfg 0 r s) }

/-- Number of recorded calls of `xTaskIncrementTick`. -/
def tickCalls (s : State) : Nat :=
  s.calls.countP fun e =>
    match e with
    | Event.xTaskIncrementTick _ => true
    | _ => false

/-- The kernel's functions record no call of `xTaskIncrementTick` themselves:
the record holds the calls made by `port.c`. -/
def Kernel.keepsTickCalls (K : Kernel) : Prop :=
  (∀ r s, tickCalls (K.vTaskEnterCriticalFromISR r s).2.2 = tickCalls s) ∧
  (∀ x r s, tickCalls (K.vTaskExitCriticalFromISR x r s).2 = tickCalls s) ∧
  (∀ r s, tickCalls (K.xTaskIncrementTick r s).2.2 = tickCalls s)

/-- `vPortIPIHander` of `GHS/U2x/port.c`, run by a core with registers `r`. -/
def vPortIPIHander (cfg : Config) (K : Kernel) (r : Regs) (s : State) : Regs × State :=
  let entered :=
    if cfg.configNUMBER_OF_CORES > 1 then K.vTaskEnterCriticalFromISR r s else (0, r, s)
  let xSavedInterruptStatus := entered.1
  let r1 := entered.2.1
  let s1 := entered.2.2
  let xCurrentCore := xPortGET_CORE_ID cfg r1
  let s2 :=
    if PORT_SCHEDULER_STARTFIRSTTASK ≠ s1.xPortScheduleStatus xCurrentCore then
      setScheduleStatus s1 xCurrentCore PORT_SCHEDULER_TASKSWITCH
    else s1
  let s3 := vPortIPIRClearRequest s2
  if cfg.configNUMBER_OF_CORES > 1 then K.vTaskExitCriticalFromISR xSavedInterruptStatus r1 s3
  else (r1, s3)

/-- `vPortSetSwitch` of `GHS/U2x/port.c`, run by a core with registers `r`. -/
def vPortSetSwitch (cfg : Config) (xSwitchRequired : Int) (r : Regs) (s : State) : State :=
  if xSwitchRequired ≠ pdFALSE then
    setScheduleStatus s (xPortGET_CORE_ID cfg r) PORT_SCHEDULER_TASKSWITCH
  else s

/-- `vPortTickISR` of `GHS/U2x/port.c`, run by a core with registers `r`; the
call of `xTaskIncrementTick` is recorded. -/
def vPortTickISR (cfg : Config) (K : Kernel) (r : Regs) (s : State) : Regs × State :=
  let entered :=
    if cfg.configNUMBER_OF_CORES > 1 then K.vTaskEnterCriticalFromISR r s else (0, r, s)
  let xSavedInterruptStatus := entered.1
  let r1 := entered.2.1
  let s1 := entered.2.2
  let s1c := { s1 with calls := s1.calls ++ [Event.xTaskIncrementTick (xPortGET_CORE_ID cfg r1)] }
  let ticked := K.xTaskIncrementTick r1 s1c
  let r2 := ticked.2.1
  let s2 := ticked.2.2
  let s3 :=
    if ticked.1 ≠ pdFALSE then
      setScheduleStatus s2 (xPortGET_CORE_ID cfg r2) PORT_SCHEDULER_TASKSWITCH
    else s2
  if cfg.configNUMBER_OF_CORES > 1 then K.vTaskExitCriticalFromISR xSavedInterruptStatus r2 s3
  else (r2, s3)

/-- The value that the call of `xTaskIncrementTick` inside `vPortTickISR`
returns, when the interrupt routine is run by a core with registers `r` in
state `s`. -/
def tickResult (cfg : Config) (K : Kernel) (r : Regs) (s : State) : Int :=
  let entered :=
    if cfg.configNUMBER_OF_CORES > 1 then K.vTaskEnterCriticalFromISR r s else (0, r, s)
  let r1 := entered.2.1
  let s1 := entered.2.2
  let s1c := { s1 with calls := s1.calls ++ [Event.xTaskIncrementTick (xPortGET_CORE_ID cfg r1)] }
  (K.xTaskIncrementTick r1 s1c).1

/-- Registers of core `c` with interrupts enabled, used to evaluate the model
on concrete inputs. -/
def coreRegs (c : Nat) : Regs := { PSW := 0x00008000, FPSR := 0, FXSR := 0, PEID := c }

/-- A two-core configuration, used to evaluate the model on concrete inputs. -/
def dualCore : Config :=
  { configNUMBER_OF_CORES := 2, configENABLE_FPU := 1, configENABLE_FXU := 0,
    prvTaskExitError := 0x4000 }

end U2x

/-! # Theorems -/

namespace Port

theorem Outcome.bind_returned {σ α β : Type} (v : α) (s : σ) (f : α → σ → Outcome σ β) :
    (Outcome.returned v s).bind f = f v s := rfl

end Port

namespace AURIX

open Port

theorem aurix_critRun_append (xs ys : List CritCall) (s : State) :
    critRun (xs ++ ys) s = (critRun xs s).bind fun _ t => critRun ys t := by
  induction xs generalizing s with
  | nil => rfl
  | cons c cs ih =>
    simp only [List.cons_append, critRun]
    cases critStep c s with
    | returned v t => simpa [Outcome.bind] using ih t
    | asserted t => rfl
    | trapped t => rfl

/-- Entering from counter 0 in task context: interrupts off, counter 1. -/
theorem aurix_enter_first (s : State) (h0 : s.uxCriticalNesting = 0) (hisr : s.inISR = false) :
    vPortEnterCritical s
      = Outcome.returned () { s with IE := false, uxCriticalNesting := 1 } := by
  have hmod : (s.uxCriticalNesting + 1) % WORD = 1 := by
    rw [h0]; exact Nat.mod_eq_of_lt (by unfold WORD; norm_num)
  simp [vPortEnterCritical, portDISABLE_INTERRUPTS, disable, portASSERT_IF_IN_ISR,
    configASSERT, hmod, hisr]

/-- A nested enter only increments. -/
theorem aurix_enter_nested (s : State) (n : Nat) (h1 : 1 ≤ n) (hn : n + 1 < WORD) :
    vPortEnterCritical { s with IE := false, uxCriticalNesting := n }
      = Outcome.returned () { s with IE := false, uxCriticalNesting := n + 1 } := by
  have hmod : (n + 1) % WORD = n + 1 := Nat.mod_eq_of_lt hn
  have hne : n + 1 ≠ 1 := by omega
  simp [vPortEnterCritical, portDISABLE_INTERRUPTS, disable, hmod, hne]

theorem aurix_enter_run (k : Nat) : ∀ (s : State) (n : Nat), 1 ≤ n → n + k < WORD →
    critRun (List.replicate k CritCall.enter) { s with IE := false, uxCriticalNesting := n }
      = Outcome.returned () { s with IE := false, uxCriticalNesting := n + k } := by
  induction k with
  | zero => intro s n _ _; rfl
  | succ k ih =>
    intro s n h1 hn
    have hstep := aurix_enter_nested s n h1 (by omega)
    have hrest := ih s (n + 1) (by omega) (by omega)
    simp only [List.replicate_succ, critRun, critStep, hstep, Outcome.bind_returned]
    rw [hrest]
    have : n + 1 + k = n + (k + 1) := by omega
    rw [this]

/-- An exit that does not reach 0 only decrements. -/
theorem aurix_exit_nested (s : State) (n : Nat) (h2 : 2 ≤ n) (hn : n < WORD) :
    vPortExitCritical { s with IE := false, uxCriticalNesting := n }
      = Outcome.returned () { s with IE := false, uxCriticalNesting := n - 1 } := by
  have hmod : (n + WORD - 1) % WORD = n - 1 := by
    have : n + WORD - 1 = (n - 1) + WORD := by omega
    rw [this, Nat.add_mod_right]
    exact Nat.mod_eq_of_lt (by omega)
  have hne : n - 1 ≠ 0 := by omega
  have hn0 : n ≠ 0 := by omega
  simp [vPortExitCritical, configASSERT, Outcome.bind, hmod, hne, hn0]

theorem aurix_exit_last_aux (s : State) (n : Nat) (h : n = 1) :
    vPortExitCritical { s with IE := false, uxCriticalNesting := n }
      = Outcome.returned () { s with IE := true, uxCriticalNesting := 0 } := by
  have hmod : (n + WORD - 1) % WORD = 0 := by
    subst h; rw [Nat.add_sub_cancel_left]; exact Nat.mod_self _
  have hn0 : n ≠ 0 := by omega
  simp [vPortExitCritical, configASSERT, Outcome.bind, hmod, hn0, portENABLE_INTERRUPTS, enable]

/-- The exit that reaches 0 switches the interrupts on. -/
theorem aurix_exit_last (s : State) :
    vPortExitCritical { s with IE := false, uxCriticalNesting := 1 }
      = Outcome.returned () { s with IE := true, uxCriticalNesting := 0 } :=
  aurix_exit_last_aux s 1 rfl

theorem aurix_exit_run (j : Nat) : ∀ (s : State) (n : Nat), j < n → n < WORD →
    critRun (List.replicate j CritCall.exit) { s with IE := false, uxCriticalNesting := n }
      = Outcome.returned () { s with IE := false, uxCriticalNesting := n - j } := by
  induction j with
  | zero => intro s n _ _; rfl
  | succ j ih =>
    intro s n hj hn
    have hstep := aurix_exit_nested s n (by omega) hn
    have hrest := ih s (n - 1) (by omega) (by omega)
    simp only [List.replicate_succ, critRun, critStep, hstep, Outcome.bind_returned]
    rw [hrest]
    have : n - 1 - j = n - (j + 1) := by omega
    rw [this]

end AURIX

namespace C29x

open Port

theorem c29x_critRun_append (xs ys : List CritCall) (s : State) :
    critRun (xs ++ ys) s = (critRun xs s).bind fun _ t => critRun ys t := by
  induction xs generalizing s with
  | nil => rfl
  | cons c cs ih =>
    simp only [List.cons_append, critRun]
    cases critStep c s with
    | returned v t => simpa [Outcome.bind] using ih t
    | asserted t => rfl
    | trapped t => rfl

theorem c29x_intEnableBit_eq (d : Nat) : intEnableBit d = d / 65536 % 2 := by
  simp [intEnableBit, Nat.shiftRight_eq_div_pow, Nat.and_one_is_mod]

/-- The status word with the interrupt enable bit cleared. -/
theorem c29x_DISINT_bit (d : Nat) :
    intEnableBit (d - intEnableBit d * portFLAGS_INT_ENABLED) = 0 := by
  simp only [c29x_intEnableBit_eq, portFLAGS_INT_ENABLED]
  omega

theorem c29x_DISINT_idem (d : Nat) (h : intEnableBit d = 0) :
    d - intEnableBit d * portFLAGS_INT_ENABLED = d := by
  simp [h]

/-- The status word with the interrupt enable bit set. -/
theorem c29x_ENINT_bit (d : Nat) :
    intEnableBit (d + (1 - intEnableBit d) * portFLAGS_INT_ENABLED) = 1 := by
  simp only [c29x_intEnableBit_eq, portFLAGS_INT_ENABLED]
  omega

theorem c29x_enter_step (d n : Nat) (hn : n + 1 < WORD) :
    vPortEnterCritical { DSTS := d, ulCriticalNesting := n }
      = Outcome.returned ()
          { DSTS := d - intEnableBit d * portFLAGS_INT_ENABLED, ulCriticalNesting := n + 1 } := by
  have hmod : (n + 1) % WORD = n + 1 := Nat.mod_eq_of_lt hn
  simp [vPortEnterCritical, portDISABLE_INTERRUPTS, DISINT, hmod]

theorem c29x_enter_run (k : Nat) : ∀ (d n : Nat), intEnableBit d = 0 → n + k < WORD →
    critRun (List.replicate k CritCall.enter) { DSTS := d, ulCriticalNesting := n }
      = Outcome.returned () { DSTS := d, ulCriticalNesting := n + k } := by
  induction k with
  | zero => intro d n _ _; rfl
  | succ k ih =>
    intro d n hd hn
    have hstep := c29x_enter_step d n (by omega)
    rw [c29x_DISINT_idem d hd] at hstep
    have hrest := ih d (n + 1) hd (by omega)
    simp only [List.replicate_succ, critRun, critStep, hstep, Outcome.bind_returned]
    rw [hrest]
    have : n + 1 + k = n + (k + 1) := by omega
    rw [this]

theorem c29x_exit_nested (d n : Nat) (h2 : 2 ≤ n) (hn : n < WORD) :
    vPortExitCritical { DSTS := d, ulCriticalNesting := n }
      = Outcome.returned () { DSTS := d, ulCriticalNesting := n - 1 } := by
  have hmod : (n + WORD - 1) % WORD = n - 1 := by
    have : n + WORD - 1 = (n - 1) + WORD := by omega
    rw [this, Nat.add_mod_right]
    exact Nat.mod_eq_of_lt (by omega)
  have hne : n - 1 ≠ 0 := by omega
  simp [vPortExitCritical, hmod, hne]

theorem c29x_exit_last_aux (d n : Nat) (h : n = 1) :
    vPortExitCritical { DSTS := d, ulCriticalNesting := n }
      = Outcome.returned ()
          { DSTS := d + (1 - intEnableBit d) * portFLAGS_INT_ENABLED, ulCriticalNesting := 0 } := by
  have hmod : (n + WORD - 1) % WORD = 0 := by
    subst h; rw [Nat.add_sub_cancel_left]; exact Nat.mod_self _
  simp [vPortExitCritical, hmod, portENABLE_INTERRUPTS, ENINT]

theorem c29x_exit_run (j : Nat) : ∀ (d n : Nat), j < n → n < WORD →
    critRun (List.replicate j CritCall.exit) { DSTS := d, ulCriticalNesting := n }
      = Outcome.returned () { DSTS := d, ulCriticalNesting := n - j } := by
  induction j with
  | zero => intro d n _ _; rfl
  | succ j ih =>
    intro d n hj hn
    have hstep := c29x_exit_nested d n (by omega) hn
    have hrest := ih d (n - 1) (by omega) (by omega)
    simp only [List.replicate_succ, critRun, critStep, hstep, Outcome.bind_returned]
    rw [hrest]
    have : n - 1 - j = n - (j + 1) := by omega
    rw [this]

end C29x

namespace AURIX

open Port

theorem aurix_enter_run_from_zero (s : State) (k : Nat) (h0 : s.uxCriticalNesting = 0)
    (hisr : s.inISR = false) (hk : k + 1 < WORD) :
    critRun (List.replicate (k + 1) CritCall.enter) s
      = Outcome.returned () { s with IE := false, uxCriticalNesting := k + 1 } := by
  have hrest := aurix_enter_run k s 1 (le_refl 1) (by omega)
  simp only [List.replicate_succ, critRun, critStep, aurix_enter_first s h0 hisr,
    Outcome.bind_returned]
  rw [hrest, Nat.add_comm 1 k]

theorem aurix_nesting_trace (s : State) (N : Nat) (h0 : s.uxCriticalNesting = 0)
    (hisr : s.inISR = false) (h1 : 1 ≤ N) (hN : N < WORD) :
    (∀ k, 1 ≤ k → k ≤ N → critRun (List.replicate k CritCall.enter) s
        = Outcome.returned () { s with IE := false, uxCriticalNesting := k }) ∧
    (∀ j, j < N →
      critRun (List.replicate N CritCall.enter ++ List.replicate j CritCall.exit) s
        = Outcome.returned () { s with IE := false, uxCriticalNesting := N - j }) ∧
    critRun (List.replicate N CritCall.enter ++ List.replicate N CritCall.exit) s
        = Outcome.returned () { s with IE := true, uxCriticalNesting := 0 } := by
  have henter : ∀ k, 1 ≤ k → k ≤ N → critRun (List.replicate k CritCall.enter) s
      = Outcome.returned () { s with IE := false, uxCriticalNesting := k } := by
    intro k hk1 hkN
    obtain ⟨k', rfl⟩ : ∃ k', k = k' + 1 := ⟨k - 1, by omega⟩
    exact aurix_enter_run_from_zero s k' h0 hisr (by omega)
  have hexit : ∀ j, j < N →
      critRun (List.replicate N CritCall.enter ++ List.replicate j CritCall.exit) s
        = Outcome.returned () { s with IE := false, uxCriticalNesting := N - j } := by
    intro j hj
    rw [aurix_critRun_append, henter N h1 (le_refl N), Outcome.bind_returned]
    exact aurix_exit_run j s N hj hN
  refine ⟨henter, hexit, ?_⟩
  obtain ⟨M, rfl⟩ : ∃ M, N = M + 1 := ⟨N - 1, by omega⟩
  have hsplit : List.replicate (M + 1) CritCall.enter ++ List.replicate (M + 1) CritCall.exit
      = (List.replicate (M + 1) CritCall.enter ++ List.replicate M CritCall.exit)
          ++ [CritCall.exit] := by
    rw [List.append_assoc, ← List.replicate_succ']
  rw [hsplit, aurix_critRun_append, hexit M (by omega), Outcome.bind_returned]
  have hone : M + 1 - M = 1 := by omega
  rw [hone]
  simp only [critRun, critStep, aurix_exit_last, Outcome.bind_returned]

end AURIX

namespace C29x

open Port

theorem c29x_nesting_trace (s : State) (N : Nat) (h0 : s.ulCriticalNesting = 0)
    (h1 : 1 ≤ N) (hN : N < WORD) :
    (∀ k, 1 ≤ k → k ≤ N → critRun (List.replicate k CritCall.enter) s
        = Outcome.returned () { DSTS := (DISINT s).DSTS, ulCriticalNesting := k }) ∧
    (∀ j, j < N →
      critRun (List.replicate N CritCall.enter ++ List.replicate j CritCall.exit) s
        = Outcome.returned () { DSTS := (DISINT s).DSTS, ulCriticalNesting := N - j }) ∧
    critRun (List.replicate N CritCall.enter ++ List.replicate N CritCall.exit) s
        = Outcome.returned () { DSTS := (ENINT (DISINT s)).DSTS, ulCriticalNesting := 0 } := by
  obtain ⟨d, n⟩ := s
  simp only at h0
  subst h0
  have henter : ∀ k, 1 ≤ k → k ≤ N →
      critRun (List.replicate k CritCall.enter) { DSTS := d, ulCriticalNesting := 0 }
      = Outcome.returned ()
          { DSTS := d - intEnableBit d * portFLAGS_INT_ENABLED, ulCriticalNesting := k } := by
    intro k hk1 hkN
    obtain ⟨k', rfl⟩ : ∃ k', k = k' + 1 := ⟨k - 1, by omega⟩
    have hrest := c29x_enter_run k' (d - intEnableBit d * portFLAGS_INT_ENABLED) 1
      (c29x_DISINT_bit d) (by omega)
    simp only [List.replicate_succ, critRun, critStep, c29x_enter_step d 0 (by omega),
      Outcome.bind_returned]
    rw [hrest, Nat.add_comm 1 k']
  have hexit : ∀ j, j < N →
      critRun (List.replicate N CritCall.enter ++ List.replicate j CritCall.exit)
          { DSTS := d, ulCriticalNesting := 0 }
        = Outcome.returned ()
          { DSTS := d - intEnableBit d * portFLAGS_INT_ENABLED, ulCriticalNesting := N - j } := by
    intro j hj
    rw [c29x_critRun_append, henter N h1 (le_refl N), Outcome.bind_returned]
    exact c29x_exit_run j _ N hj hN
  refine ⟨henter, hexit, ?_⟩
  obtain ⟨M, rfl⟩ : ∃ M, N = M + 1 := ⟨N - 1, by omega⟩
  have hsplit : List.replicate (M + 1) CritCall.enter ++ List.replicate (M + 1) CritCall.exit
      = (List.replicate (M + 1) CritCall.enter ++ List.replicate M CritCall.exit)
          ++ [CritCall.exit] := by
    rw [List.append_assoc, ← List.replicate_succ']
  rw [hsplit, c29x_critRun_append, hexit M (by omega), Outcome.bind_returned]
  have hone : M + 1 - M = 1 := by omega
  rw [hone]
  simp only [critRun, critStep, c29x_exit_last_aux _ 1 rfl, Outcome.bind_returned, ENINT, DISINT]

/-- An exit at counter 0 wraps the counter and touches nothing else. -/
theorem c29x_exit_at_zero (d n : Nat) (h : n = 0) :
    vPortExitCritical { DSTS := d, ulCriticalNesting := n }
      = Outcome.returned () { DSTS := d, ulCriticalNesting := 0xFFFFFFFF } := by
  have hmod : (n + WORD - 1) % WORD = 0xFFFFFFFF := by
    subst h; unfold WORD; norm_num
  simp [vPortExitCritical, hmod]

theorem c29x_DISINT_intEnabled (s : State) : (DISINT s).intEnabled = false := by
  simp [State.intEnabled, DISINT, c29x_DISINT_bit]

theorem c29x_ENINT_intEnabled (s : State) : (ENINT s).intEnabled = true := by
  simp [State.intEnabled, ENINT, c29x_ENINT_bit]

end C29x

/-! ## Critical-section nesting -/

open Port in
/-- C1. Critical-section nesting in the AURIX TC3xx and C29x ports: starting
from a nesting counter of 0 (on AURIX in task context, where
`portASSERT_IF_IN_ISR` holds), for every `N` with `1 ≤ N < 2 ^ 32`, every one
of the `N` calls of `vPortEnterCritical` and of the `N` following calls of
`vPortExitCritical` returns; the interrupts are disabled after each of the
`N` enter calls and after each of the first `N - 1` exit calls, the counter
being `k` after the `k`-th enter and `N - j` after the `j`-th exit; the `N`-th
exit leaves the interrupts enabled and the counter 0. -/
theorem critical_nesting_enter_exit (N : Nat) (sA : AURIX.State) (sC : C29x.State)
    (h1 : 1 ≤ N) (hN : N < 2 ^ 32)
    (hA0 : sA.uxCriticalNesting = 0) (hAtask : sA.inISR = false)
    (hC0 : sC.ulCriticalNesting = 0) :
    ((∀ k, 1 ≤ k → k ≤ N → ∃ t,
        AURIX.critRun (List.replicate k CritCall.enter) sA = Outcome.returned () t ∧
        t.IE = false ∧ t.uxCriticalNesting = k) ∧
     (∀ j, 1 ≤ j → j < N → ∃ t,
        AURIX.critRun (List.replicate N CritCall.enter ++ List.replicate j CritCall.exit) sA
          = Outcome.returned () t ∧
        t.IE = false ∧ t.uxCriticalNesting = N - j) ∧
     (∃ t,
        AURIX.critRun (List.replicate N CritCall.enter ++ List.replicate N CritCall.exit) sA
          = Outcome.returned () t ∧
        t.IE = true ∧ t.uxCriticalNesting = 0)) ∧
    ((∀ k, 1 ≤ k → k ≤ N → ∃ t,
        C29x.critRun (List.replicate k CritCall.enter) sC = Outcome.returned () t ∧
        t.intEnabled = false ∧ t.ulCriticalNesting = k) ∧
     (∀ j, 1 ≤ j → j < N → ∃ t,
        C29x.critRun (List.replicate N CritCall.enter ++ List.replicate j CritCall.exit) sC
          = Outcome.returned () t ∧
        t.intEnabled = false ∧ t.ulCriticalNesting = N - j) ∧
     (∃ t,
        C29x.critRun (List.replicate N CritCall.enter ++ List.replicate N CritCall.exit) sC
          = Outcome.returned () t ∧
        t.intEnabled = true ∧ t.ulCriticalNesting = 0)) := by
  have hW : N < WORD := hN
  obtain ⟨a1, a2, a3⟩ := AURIX.aurix_nesting_trace sA N hA0 hAtask h1 hW
  obtain ⟨c1, c2, c3⟩ := C29x.c29x_nesting_trace sC N hC0 h1 hW
  refine ⟨⟨?_, ?_, ?_⟩, ⟨?_, ?_, ?_⟩⟩
  · intro k hk1 hkN
    exact ⟨_, a1 k hk1 hkN, rfl, rfl⟩
  · intro j _ hj
    exact ⟨_, a2 j hj, rfl, rfl⟩
  · exact ⟨_, a3, rfl, rfl⟩
  · intro k hk1 hkN
    exact ⟨_, c1 k hk1 hkN, C29x.c29x_DISINT_intEnabled sC, rfl⟩
  · intro j _ hj
    exact ⟨_, c2 j hj, C29x.c29x_DISINT_intEnabled sC, rfl⟩
  · exact ⟨_, c3, C29x.c29x_ENINT_intEnabled _, rfl⟩

open Port in
/-- Three nested critical sections from the task-level state and from a C29x
state with interrupts enabled. -/
theorem critical_nesting_enter_exit_witness :
    (∃ t, AURIX.critRun (List.replicate 3 CritCall.enter ++ List.replicate 3 CritCall.exit)
        AURIX.taskState = Outcome.returned () t ∧ t.IE = true ∧ t.uxCriticalNesting = 0) ∧
    (∃ t, C29x.critRun (List.replicate 3 CritCall.enter ++ List.replicate 3 CritCall.exit)
        { DSTS := 0x07F90001, ulCriticalNesting := 0 } = Outcome.returned () t ∧
        t.intEnabled = true ∧ t.ulCriticalNesting = 0) :=
  have h := critical_nesting_enter_exit 3 AURIX.taskState
    { DSTS := 0x07F90001, ulCriticalNesting := 0 }
    (by decide) (by norm_num) rfl rfl rfl
  ⟨h.1.2.2, h.2.2.2⟩

open Port in
/-- C2. In the AURIX TC3xx port, `vPortExitCritical` called while
`uxCriticalNesting` is 0 stops in `configASSERT`: the machine state at the
failed assertion is the state of the call, so the counter has not been
decremented and the interrupts have not been enabled, and the call does not
return. -/
theorem aurix_exit_critical_unmatched_asserts (s : AURIX.State)
    (h0 : s.uxCriticalNesting = 0) :
    AURIX.vPortExitCritical s = Outcome.asserted s := by
  simp [AURIX.vPortExitCritical, configASSERT, h0, Outcome.bind]

open Port in
/-- An unmatched exit in the task-level state, whose counter is 0. -/
theorem aurix_exit_critical_unmatched_asserts_witness :
    AURIX.taskState.uxCriticalNesting = 0 ∧
    AURIX.vPortExitCritical AURIX.taskState = Outcome.asserted AURIX.taskState :=
  ⟨rfl, aurix_exit_critical_unmatched_asserts AURIX.taskState rfl⟩

open Port in
/-- C3, as stated, fails: in the C29x port an unmatched `vPortExitCritical`
(counter 0, here with interrupts disabled) returns normally, and the counter
it leaves differs from the one it found. -/
theorem c29x_exit_critical_unmatched_returns :
    C29x.vPortExitCritical { DSTS := 0, ulCriticalNesting := 0 }
      = Outcome.returned () { DSTS := 0, ulCriticalNesting := 0xFFFFFFFF } ∧
    (0xFFFFFFFF : Nat) ≠ 0 :=
  ⟨C29x.c29x_exit_at_zero 0 0 rfl, by norm_num⟩

open Port in
/-- C3, amended. In the C29x port `vPortExitCritical` has no check: called
while `ulCriticalNesting` is 0 it returns normally, with the counter wrapped
to `0xFFFFFFFF` and `DSTS`, hence the interrupt enable, unchanged. -/
theorem c29x_exit_critical_unmatched_wraps (s : C29x.State)
    (h0 : s.ulCriticalNesting = 0) :
    C29x.vPortExitCritical s
      = Outcome.returned () { s with ulCriticalNesting := 0xFFFFFFFF } := by
  obtain ⟨d, n⟩ := s
  exact C29x.c29x_exit_at_zero d n h0

open Port in
/-- An unmatched exit with interrupts enabled: they stay enabled and the
counter wraps. -/
theorem c29x_exit_critical_unmatched_wraps_witness :
    C29x.vPortExitCritical { DSTS := 0x10000, ulCriticalNesting := 0 }
      = Outcome.returned () { DSTS := 0x10000, ulCriticalNesting := 0xFFFFFFFF } :=
  c29x_exit_critical_unmatched_wraps { DSTS := 0x10000, ulCriticalNesting := 0 } rfl

/-! ## Initial stack frames of the linear-frame ports -/

namespace Port

theorem Mem.write_same {α : Type} [DecidableEq α] (m : Mem α) (a : α) (v : Nat) :
    (m.write a v) a = v := by
  simp [Mem.write]

theorem Mem.write_other {α : Type} [DecidableEq α] (m : Mem α) (a b : α) (v : Nat)
    (h : b ≠ a) : (m.write a v) b = m b := by
  simp [Mem.write, h]

end Port

namespace U2x

open Port

theorem u2x_foldl_push_sp (vs : List Nat) : ∀ f : Frame,
    (vs.foldl push f).pxTopOfStack = f.pxTopOfStack - vs.length := by
  induction vs with
  | nil => intro f; simp
  | cons v vs ih =>
    intro f
    simp only [List.foldl_cons, ih, push, List.length_cons]
    push_cast
    ring

/-- Pushing leaves every word at or above the running pointer alone. -/
theorem u2x_foldl_push_above (vs : List Nat) : ∀ (f : Frame) (a : Int),
    f.pxTopOfStack ≤ a → (vs.foldl push f).mem a = f.mem a := by
  induction vs with
  | nil => intro f a _; rfl
  | cons v vs ih =>
    intro f a ha
    simp only [List.foldl_cons]
    rw [ih (push f v) a (by simp only [push]; omega)]
    exact Mem.write_other _ _ _ _ (by omega)

/-- Pushing leaves every word below the final pointer alone. -/
theorem u2x_foldl_push_below (vs : List Nat) : ∀ (f : Frame) (a : Int),
    a < f.pxTopOfStack - vs.length → (vs.foldl push f).mem a = f.mem a := by
  induction vs with
  | nil => intro f a _; rfl
  | cons v vs ih =>
    intro f a ha
    simp only [List.length_cons] at ha
    push_cast at ha
    simp only [List.foldl_cons]
    rw [ih (push f v) a (by simp only [push]; omega)]
    exact Mem.write_other _ _ _ _ (by omega)

/-- The `i`-th pushed word lies `i + 1` words below the starting pointer. -/
theorem u2x_foldl_push_get (vs : List Nat) : ∀ (f : Frame) (i : Nat) (v : Nat),
    vs[i]? = some v → (vs.foldl push f).mem (f.pxTopOfStack - 1 - i) = v := by
  induction vs with
  | nil => intro f i v h; simp at h
  | cons w vs ih =>
    intro f i v h
    simp only [List.foldl_cons]
    cases i with
    | zero =>
      simp only [List.getElem?_cons_zero, Option.some.injEq] at h
      subst h
      rw [u2x_foldl_push_above vs (push f w) _ (by simp only [push]; omega)]
      simp only [push, Nat.cast_zero, sub_zero]
      exact Mem.write_same _ _ _
    | succ i =>
      simp only [List.getElem?_cons_succ] at h
      have := ih (push f w) i v h
      simp only [push] at this ⊢
      push_cast
      have e : f.pxTopOfStack - 1 - ((i : Int) + 1) = f.pxTopOfStack - 1 - 1 - (i : Int) := by
        ring
      rw [e]
      exact this

end U2x

namespace U2x

open Port

theorem u2x_push_above (f : Frame) (v : Nat) (a : Int) (h : f.pxTopOfStack ≤ a) :
    (push f v).mem a = f.mem a :=
  Mem.write_other _ _ _ _ (by omega)

theorem u2x_push_below (f : Frame) (v : Nat) (a : Int) (h : a < f.pxTopOfStack - 1) :
    (push f v).mem a = f.mem a :=
  Mem.write_other _ _ _ _ (by omega)

theorem u2x_push_top (f : Frame) (v : Nat) :
    (push f v).mem (f.pxTopOfStack - 1) = v :=
  Mem.write_same _ _ _

theorem u2x_push_sp (f : Frame) (v : Nat) :
    (push f v).pxTopOfStack = f.pxTopOfStack - 1 := rfl

theorem u2x_baseFrame_sp (cfg : Config) (r : Regs) (m : Mem Int) (top : Int)
    (code param : Nat) : (baseFrame cfg r m top code param).pxTopOfStack = top - 33 := by
  unfold baseFrame
  rw [u2x_foldl_push_sp]
  rfl

theorem u2x_baseFrame_get (cfg : Config) (r : Regs) (m : Mem Int) (top : Int)
    (code param : Nat) (i v : Nat) (h : (baseFrameWords r code param)[i]? = some v) :
    (baseFrame cfg r m top code param).mem (top - 1 - i) = v := by
  unfold baseFrame
  exact u2x_foldl_push_get _ _ i v h

theorem u2x_baseFrame_top (cfg : Config) (r : Regs) (m : Mem Int) (top : Int)
    (code param : Nat) : (baseFrame cfg r m top code param).mem top = cfg.prvTaskExitError := by
  unfold baseFrame
  rw [u2x_foldl_push_above _ _ top (le_refl _)]
  exact Mem.write_same _ _ _

theorem u2x_baseFrame_outside (cfg : Config) (r : Regs) (m : Mem Int) (top : Int)
    (code param : Nat) (a : Int) (h : a < top - 33 ∨ top < a) :
    (baseFrame cfg r m top code param).mem a = m a := by
  unfold baseFrame
  rcases h with h | h
  · rw [u2x_foldl_push_below _ _ a (by simpa [baseFrameWords] using h)]
    exact Mem.write_other _ _ _ _ (by omega)
  · rw [u2x_foldl_push_above _ _ a (by simpa using le_of_lt h)]
    exact Mem.write_other _ _ _ _ (by omega)

end U2x

namespace U2x

open Port

/-- An optional pair of pushes, `v` then 0, as the floating-point sections of
`pxPortInitialiseStack` make them. -/
theorem u2x_optional_pair (g : Frame) (c : Prop) [Decidable c] (v : Nat) :
    (if c then push (push g v) 0 else g).pxTopOfStack
        = g.pxTopOfStack - 2 * (if c then 1 else 0) ∧
    (∀ a, g.pxTopOfStack ≤ a → (if c then push (push g v) 0 else g).mem a = g.mem a) ∧
    (∀ a, a < (if c then push (push g v) 0 else g).pxTopOfStack →
        (if c then push (push g v) 0 else g).mem a = g.mem a) ∧
    (c → (if c then push (push g v) 0 else g).mem (g.pxTopOfStack - 1) = v ∧
         (if c then push (push g v) 0 else g).mem (g.pxTopOfStack - 2) = 0) ∧
    (g.mem g.pxTopOfStack = 0 →
        (if c then push (push g v) 0 else g).mem
          (if c then push (push g v) 0 else g).pxTopOfStack = 0) := by
  by_cases hc : c
  · simp only [hc, if_true, true_implies]
    have hsp : (push (push g v) 0).pxTopOfStack = g.pxTopOfStack - 2 := by
      simp only [push]; ring
    refine ⟨by rw [hsp]; ring, ?_, ?_, ⟨?_, ?_⟩, ?_⟩
    · intro a ha
      rw [u2x_push_above _ _ _ (by simp only [push]; omega), u2x_push_above _ _ _ ha]
    · intro a ha
      rw [hsp] at ha
      rw [u2x_push_below _ _ _ (by simp only [push]; omega),
        u2x_push_below _ _ _ (by omega)]
    · rw [u2x_push_above _ _ _ (by simp only [push]; omega)]
      exact u2x_push_top g v
    · have e : g.pxTopOfStack - 2 = (push g v).pxTopOfStack - 1 := by
        simp only [push]; ring
      rw [e]
      exact u2x_push_top _ _
    · intro _
      have e : (push (push g v) 0).pxTopOfStack = (push g v).pxTopOfStack - 1 := rfl
      rw [e]
      exact u2x_push_top _ _
  · simp only [hc, if_false, false_implies, true_and]
    refine ⟨by ring, ?_, ?_, ?_⟩
    · intro a _; trivial
    · intro a _; trivial
    · intro h; exact h

/-- The two `#if` sections of `pxPortInitialiseStack` as optional pairs. -/
theorem u2x_init_unfold (cfg : Config) (r : Regs) (m : Mem Int) (top : Int)
    (code param : Nat) :
    pxPortInitialiseStack cfg r m top code param
      = (if cfg.configENABLE_FXU = 1 ∧ xPortGET_CORE_ID cfg r = 0 then
          push (push
            (if cfg.configENABLE_FPU = 1 then
              push (push (baseFrame cfg r m top code param) (r.FPSR &&& 0x00ae0000)) 0
             else baseFrame cfg r m top code param)
            (r.FXSR &&& 0x00ee0000)) 0
         else
            (if cfg.configENABLE_FPU = 1 then
              push (push (baseFrame cfg r m top code param) (r.FPSR &&& 0x00ae0000)) 0
             else baseFrame cfg r m top code param)) := by
  by_cases hfxu : cfg.configENABLE_FXU = 1 <;>
    by_cases hcore : xPortGET_CORE_ID cfg r = 0 <;>
    simp [pxPortInitialiseStack, baseFrame, hfxu, hcore, portCURRENT_FPSR_VALUE,
      portCURRENT_FXSR_VALUE, portINITIAL_FPSR_MASK, portINITIAL_FXSR_MASK,
      portCURRENT_SR_ZERO_VALUE, eq_comm (a := (0 : Nat))]

/-- The optional floating-point words lie below `CTPC`: every word of the
base frame is kept. -/
theorem u2x_init_keep (cfg : Config) (r : Regs) (m : Mem Int) (top : Int)
    (code param : Nat) (a : Int) (ha : top - 33 ≤ a) :
    (pxPortInitialiseStack cfg r m top code param).mem a
      = (baseFrame cfg r m top code param).mem a := by
  obtain ⟨p1, p2, _, _, _⟩ := u2x_optional_pair
    (baseFrame cfg r m top code param) (cfg.configENABLE_FPU = 1) (r.FPSR &&& 0x00ae0000)
  obtain ⟨_, q2, _, _, _⟩ := u2x_optional_pair
    (if cfg.configENABLE_FPU = 1 then
      push (push (baseFrame cfg r m top code param) (r.FPSR &&& 0x00ae0000)) 0
     else baseFrame cfg r m top code param)
    (cfg.configENABLE_FXU = 1 ∧ xPortGET_CORE_ID cfg r = 0) (r.FXSR &&& 0x00ee0000)
  rw [u2x_baseFrame_sp] at p1 p2
  rw [u2x_init_unfold, q2 a (by rw [p1]; split_ifs <;> omega), p2 a ha]

end U2x

namespace C29x

open Port

theorem c29x_fill_other (top : Int) (base param : Nat) (n : Nat) : ∀ (m : Mem Int) (a : Int),
    (∀ i, i < n → a ≠ top + ((base + i : Nat) : Int)) →
    ((List.range n).foldl (fillRegister top base param) m) a = m a := by
  induction n with
  | zero => intro m a _; rfl
  | succ n ih =>
    intro m a h
    rw [List.range_succ, List.foldl_append]
    simp only [List.foldl_cons, List.foldl_nil, fillRegister]
    rw [Mem.write_other _ _ _ _ (h n (Nat.lt_succ_self n))]
    exact ih m a (fun i hi => h i (Nat.lt_succ_of_lt hi))

theorem c29x_fill_get (top : Int) (base param : Nat) (n : Nat) : ∀ (m : Mem Int) (i : Nat),
    i < n →
    ((List.range n).foldl (fillRegister top base param) m) (top + ((base + i : Nat) : Int))
      = if i = A4_REGISTER_POSITION then param else 0xDEADDEAD := by
  induction n with
  | zero => intro m i h; omega
  | succ n ih =>
    intro m i h
    rw [List.range_succ, List.foldl_append]
    simp only [List.foldl_cons, List.foldl_nil, fillRegister]
    by_cases hin : i = n
    · subst hin
      exact Mem.write_same _ _ _
    · rw [Mem.write_other _ _ _ _ (by push_cast; omega)]
      exact ih m i (by omega)

/-- The straight-line form of `pxPortInitialiseStack`. -/
theorem c29x_init_unfold (vEnd : Nat) (m : Mem Int) (top : Int) (code param : Nat) :
    pxPortInitialiseStack vEnd m top code param
      = (top + 70,
         ((List.range 62).foldl (fillRegister top 6 param)
            ((((((m.write (top + 0) vEnd).write (top + 1) 0x07F90001).write (top + 2)
              0xABABABAB).write (top + 3) (code &&& 0xFFFFFFFE)).write (top + 4)
              0x07F90001).write (top + 5) 0x00020101)).write (top + 68) 1) := rfl

end C29x

namespace C29x

open Port

/-- Every word of the frame, by its index. -/
theorem c29x_frame_word (vEnd : Nat) (m : Mem Int) (top : Int) (code param : Nat)
    (k : Nat) (hk : k ≤ 68) :
    (pxPortInitialiseStack vEnd m top code param).2 (top + (k : Int))
      = referenceFrame vEnd code param k := by
  rw [c29x_init_unfold]
  simp only
  rcases Nat.lt_or_ge k 6 with h6 | h6
  · rw [Mem.write_other _ _ _ _ (by omega),
      c29x_fill_other top 6 param 62 _ _ (by intro i _; push_cast; omega)]
    interval_cases k <;> simp [Mem.write, referenceFrame]
  · rcases Nat.lt_or_ge k 68 with h68 | h68
    · rw [Mem.write_other _ _ _ _ (by omega)]
      have e : top + (k : Int) = top + ((6 + (k - 6) : Nat) : Int) := by
        push_cast; omega
      rw [e, c29x_fill_get top 6 param 62 _ (k - 6) (by omega)]
      have hk0 : k ≠ 0 := by omega
      have hk1 : ¬ (k = 1 ∨ k = 4) := by omega
      have hk2 : k ≠ 2 := by omega
      have hk3 : k ≠ 3 := by omega
      have hk5 : k ≠ 5 := by omega
      have hin : 6 ≤ k ∧ k ≤ 67 := by omega
      by_cases h10 : k = 10
      · subst h10
        simp [referenceFrame, A4_REGISTER_POSITION]
      · have h4 : k - 6 ≠ A4_REGISTER_POSITION := by
          unfold A4_REGISTER_POSITION; omega
        simp [referenceFrame, hk0, hk1, hk2, hk3, hk5, h10, hin, h4]
    · have e : k = 68 := by omega
      subst e
      rw [show top + ((68 : Nat) : Int) = top + 68 by push_cast; rfl, Mem.write_same]
      simp [referenceFrame]

/-- No word outside the 69 words of the frame is written. -/
theorem c29x_frame_outside (vEnd : Nat) (m : Mem Int) (top : Int) (code param : Nat)
    (a : Int) (ha : a < top ∨ top + 68 < a) :
    (pxPortInitialiseStack vEnd m top code param).2 a = m a := by
  rw [c29x_init_unfold]
  simp only
  rw [Mem.write_other _ _ _ _ (by omega),
    c29x_fill_other top 6 param 62 _ _ (by intro i _; push_cast; omega)]
  simp only [Mem.write]
  repeat rw [if_neg (by omega)]

end C29x

/-- C5. U2x `pxPortInitialiseStack( top, code, param )` writes the descending
frame: `top[0]` = address of `prvTaskExitError`, `top[-2]` = `param`,
`top[-29]` = `top[-32]` = `PSW & 0x00078000`, `top[-30]` = `code`,
`top[-31]` = `top[-33]` = 0; it returns `top - 33 - 2*F - 2*X` with `F = 1` iff
`configENABLE_FPU == 1` (words `FPSR & 0x00ae0000`, then 0) and `X = 1` iff
`configENABLE_FXU == 1` on core 0 (words `FXSR & 0x00ee0000`, then 0); the
returned pointer addresses the last word written (a zero), and no word
outside `[returned pointer, top]` is changed. -/
theorem u2x_initial_frame_layout (cfg : U2x.Config) (r : U2x.Regs) (m : Port.Mem Int)
    (top : Int) (code param : Nat) :
    (U2x.pxPortInitialiseStack cfg r m top code param).mem top = cfg.prvTaskExitError ∧
    (U2x.pxPortInitialiseStack cfg r m top code param).mem (top - 2) = param ∧
    (U2x.pxPortInitialiseStack cfg r m top code param).mem (top - 29) = r.PSW &&& 0x00078000 ∧
    (U2x.pxPortInitialiseStack cfg r m top code param).mem (top - 32) = r.PSW &&& 0x00078000 ∧
    (U2x.pxPortInitialiseStack cfg r m top code param).mem (top - 30) = code ∧
    (U2x.pxPortInitialiseStack cfg r m top code param).mem (top - 31) = 0 ∧
    (U2x.pxPortInitialiseStack cfg r m top code param).mem (top - 33) = 0 ∧
    (U2x.pxPortInitialiseStack cfg r m top code param).pxTopOfStack
      = top - 33 - 2 * U2x.fpuPairs cfg - 2 * U2x.fxuPairs cfg r ∧
    (cfg.configENABLE_FPU = 1 →
      (U2x.pxPortInitialiseStack cfg r m top code param).mem (top - 34)
        = r.FPSR &&& 0x00ae0000 ∧
      (U2x.pxPortInitialiseStack cfg r m top code param).mem (top - 35) = 0) ∧
    (cfg.configENABLE_FXU = 1 ∧ U2x.xPortGET_CORE_ID cfg r = 0 →
      (U2x.pxPortInitialiseStack cfg r m top code param).mem
        (top - 34 - 2 * U2x.fpuPairs cfg) = r.FXSR &&& 0x00ee0000 ∧
      (U2x.pxPortInitialiseStack cfg r m top code param).mem
        (top - 35 - 2 * U2x.fpuPairs cfg) = 0) ∧
    (U2x.pxPortInitialiseStack cfg r m top code param).mem
      (U2x.pxPortInitialiseStack cfg r m top code param).pxTopOfStack = 0 ∧
    (∀ a, a < (U2x.pxPortInitialiseStack cfg r m top code param).pxTopOfStack ∨ top < a →
      (U2x.pxPortInitialiseStack cfg r m top code param).mem a = m a) := by
  have hsp := U2x.u2x_baseFrame_sp cfg r m top code param
  have htop := U2x.u2x_baseFrame_top cfg r m top code param
  have hout := U2x.u2x_baseFrame_outside cfg r m top code param
  have hget : ∀ (i v : Nat) (a : Int), (U2x.baseFrameWords r code param)[i]? = some v →
      a = top - 1 - i → (U2x.baseFrame cfg r m top code param).mem a = v := by
    intro i v a h ha
    rw [ha]
    exact U2x.u2x_baseFrame_get cfg r m top code param i v h
  have h2 := hget 1 param (top - 2) rfl (by omega)
  have h29 := hget 28 (r.PSW &&& 0x00078000) (top - 29) rfl (by omega)
  have h30 := hget 29 code (top - 30) rfl (by omega)
  have h31 := hget 30 0 (top - 31) rfl (by omega)
  have h32 := hget 31 (r.PSW &&& 0x00078000) (top - 32) rfl (by omega)
  have h33 := hget 32 0 (top - 33) rfl (by omega)
  obtain ⟨p1, p2, p3, p4, p5⟩ := U2x.u2x_optional_pair
    (U2x.baseFrame cfg r m top code param) (cfg.configENABLE_FPU = 1) (r.FPSR &&& 0x00ae0000)
  obtain ⟨q1, q2, q3, q4, q5⟩ := U2x.u2x_optional_pair
    (if cfg.configENABLE_FPU = 1 then
      U2x.push (U2x.push (U2x.baseFrame cfg r m top code param) (r.FPSR &&& 0x00ae0000)) 0
     else U2x.baseFrame cfg r m top code param)
    (cfg.configENABLE_FXU = 1 ∧ U2x.xPortGET_CORE_ID cfg r = 0) (r.FXSR &&& 0x00ee0000)
  rw [U2x.u2x_init_unfold]
  rw [hsp] at p1 p2 p4 p5
  have hF : U2x.fpuPairs cfg = if cfg.configENABLE_FPU = 1 then 1 else 0 := rfl
  have hX : U2x.fxuPairs cfg r
      = if cfg.configENABLE_FXU = 1 ∧ U2x.xPortGET_CORE_ID cfg r = 0 then 1 else 0 := rfl
  rw [hF, hX]
  rw [p1] at q1 q2 q4
  have keep : ∀ a, top - 33 ≤ a →
      (if cfg.configENABLE_FXU = 1 ∧ U2x.xPortGET_CORE_ID cfg r = 0 then
          U2x.push (U2x.push
            (if cfg.configENABLE_FPU = 1 then
              U2x.push (U2x.push (U2x.baseFrame cfg r m top code param)
                (r.FPSR &&& 0x00ae0000)) 0
             else U2x.baseFrame cfg r m top code param)
            (r.FXSR &&& 0x00ee0000)) 0
         else
            (if cfg.configENABLE_FPU = 1 then
              U2x.push (U2x.push (U2x.baseFrame cfg r m top code param)
                (r.FPSR &&& 0x00ae0000)) 0
             else U2x.baseFrame cfg r m top code param)).mem a
        = (U2x.baseFrame cfg r m top code param).mem a := by
    intro a ha
    rw [q2 a (by omega), p2 a ha]
  refine ⟨?_, ?_, ?_, ?_, ?_, ?_, ?_, ?_, ?_, ?_, ?_, ?_⟩
  · rw [keep _ (by omega)]; exact htop
  · rw [keep _ (by omega)]; exact h2
  · rw [keep _ (by omega)]; exact h29
  · rw [keep _ (by omega)]; exact h32
  · rw [keep _ (by omega)]; exact h30
  · rw [keep _ (by omega)]; exact h31
  · rw [keep _ (by omega)]; exact h33
  · rw [q1]
  · intro hfpu
    have hFone : (if cfg.configENABLE_FPU = 1 then (1 : Int) else 0) = 1 := by simp [hfpu]
    obtain ⟨p4a, p4b⟩ := p4 hfpu
    have e34 : top - 34 = top - 33 - 1 := by ring
    have e35 : top - 35 = top - 33 - 2 := by ring
    rw [hFone] at q2
    constructor
    · rw [q2 _ (by omega), e34]; exact p4a
    · rw [q2 _ (by omega), e35]; exact p4b
  · intro hfxu
    obtain ⟨q4a, q4b⟩ := q4 hfxu
    have ea : top - 34 - 2 * (if cfg.configENABLE_FPU = 1 then (1 : Int) else 0)
        = top - 33 - 2 * (if cfg.configENABLE_FPU = 1 then (1 : Int) else 0) - 1 := by ring
    have eb : top - 35 - 2 * (if cfg.configENABLE_FPU = 1 then (1 : Int) else 0)
        = top - 33 - 2 * (if cfg.configENABLE_FPU = 1 then (1 : Int) else 0) - 2 := by ring
    rw [ea, eb]
    exact ⟨q4a, q4b⟩
  · apply q5
    apply p5
    exact h33
  · intro a ha
    rw [q1] at ha
    rcases ha with ha | ha
    · rw [q3 a (by rw [q1]; exact ha), p3 a (by rw [p1]; omega)]
      exact hout a (Or.inl (by omega))
    · rw [keep a (by omega)]
      exact hout a (Or.inr ha)

/-- C6. C29x `pxPortInitialiseStack( top, code, param )` writes the ascending
frame of the reference layout: `top[0]` = address of `vPortEndScheduler`,
`top[1]` = `top[4]` = `0x07F90001`, `top[2]` = `0xABABABAB`, `top[3]` =
`code & 0xFFFFFFFE`, `top[5]` = `0x00020101`, `top[6..67]` = `0xDEADDEAD` except
`top[10]` = `param`, `top[68]` = 1; no word outside `top[0..68]` is written, in
particular not `top[69]`; the result is `top + 70`, an even number of words,
so an 8-byte-aligned `top` gives an 8-byte-aligned result. -/
theorem c29x_initial_frame_layout (vEnd : Nat) (m : Port.Mem Int) (top : Int)
    (code param : Nat) :
    (∀ k : Nat, k ≤ 68 →
      (C29x.pxPortInitialiseStack vEnd m top code param).2 (top + (k : Int))
        = C29x.referenceFrame vEnd code param k) ∧
    (C29x.pxPortInitialiseStack vEnd m top code param).2 (top + 0) = vEnd ∧
    (C29x.pxPortInitialiseStack vEnd m top code param).2 (top + 1) = 0x07F90001 ∧
    (C29x.pxPortInitialiseStack vEnd m top code param).2 (top + 2) = 0xABABABAB ∧
    (C29x.pxPortInitialiseStack vEnd m top code param).2 (top + 3) = code &&& 0xFFFFFFFE ∧
    (C29x.pxPortInitialiseStack vEnd m top code param).2 (top + 4) = 0x07F90001 ∧
    (C29x.pxPortInitialiseStack vEnd m top code param).2 (top + 5) = 0x00020101 ∧
    (C29x.pxPortInitialiseStack vEnd m top code param).2 (top + 10) = param ∧
    (∀ k : Nat, 6 ≤ k → k ≤ 67 → k ≠ 10 →
      (C29x.pxPortInitialiseStack vEnd m top code param).2 (top + (k : Int)) = 0xDEADDEAD) ∧
    (C29x.pxPortInitialiseStack vEnd m top code param).2 (top + 68) = 1 ∧
    (∀ a, a < top ∨ top + 68 < a →
      (C29x.pxPortInitialiseStack vEnd m top code param).2 a = m a) ∧
    (C29x.pxPortInitialiseStack vEnd m top code param).2 (top + 69) = m (top + 69) ∧
    (C29x.pxPortInitialiseStack vEnd m top code param).1 = top + 70 ∧
    (C29x.byteAddress top % 8 = 0 →
      C29x.byteAddress (C29x.pxPortInitialiseStack vEnd m top code param).1 % 8 = 0) := by
  have hw := C29x.c29x_frame_word vEnd m top code param
  have ho := C29x.c29x_frame_outside vEnd m top code param
  have hret : (C29x.pxPortInitialiseStack vEnd m top code param).1 = top + 70 := by
    rw [C29x.c29x_init_unfold]
  refine ⟨hw, ?_, ?_, ?_, ?_, ?_, ?_, ?_, ?_, ?_, ho, ?_, hret, ?_⟩
  · simpa [C29x.referenceFrame] using hw 0 (by omega)
  · simpa [C29x.referenceFrame] using hw 1 (by omega)
  · simpa [C29x.referenceFrame] using hw 2 (by omega)
  · simpa [C29x.referenceFrame] using hw 3 (by omega)
  · simpa [C29x.referenceFrame] using hw 4 (by omega)
  · simpa [C29x.referenceFrame] using hw 5 (by omega)
  · simpa [C29x.referenceFrame] using hw 10 (by omega)
  · intro k h6 h67 h10
    rw [hw k (by omega)]
    have hk0 : k ≠ 0 := by omega
    have hk1 : ¬ (k = 1 ∨ k = 4) := by omega
    have hk2 : k ≠ 2 := by omega
    have hk3 : k ≠ 3 := by omega
    have hk5 : k ≠ 5 := by omega
    simp [C29x.referenceFrame, hk0, hk1, hk2, hk3, hk5, h10, h6, h67]
  · simpa [C29x.referenceFrame] using hw 68 (by omega)
  · exact ho _ (Or.inr (by omega))
  · intro h
    rw [hret]
    unfold C29x.byteAddress at h ⊢
    omega

/-- C4. The initial context built by `pxPortInitialiseStack` encodes
interrupts enabled in both linear-frame ports.  U2x: for every current `PSW`
the `EIPSW` word of the frame (`top[-29]`, and likewise the `CTPSW` word
`top[-32]`) is `PSW & 0x00078000` and has the interrupt-disable bit
`portPSW_ID_MASK` clear.  C29x: the `DSTS` words of the frame (`top[1]` and
`top[4]`) are `0x07F90001` and have the bit `portFLAGS_INT_ENABLED` set, the
bit that `xPortSetInterruptMask` returns. -/
theorem initial_frames_encode_interrupts_enabled
    (cfg : U2x.Config) (r : U2x.Regs) (mU : Port.Mem Int) (topU : Int) (codeU paramU : Nat)
    (vEnd : Nat) (mC : Port.Mem Int) (topC : Int) (codeC paramC n : Nat) :
    ((U2x.pxPortInitialiseStack cfg r mU topU codeU paramU).mem (topU - 29)
        = r.PSW &&& 0x00078000 ∧
     (U2x.pxPortInitialiseStack cfg r mU topU codeU paramU).mem (topU - 29)
        &&& U2x.portPSW_ID_MASK = 0 ∧
     (U2x.pxPortInitialiseStack cfg r mU topU codeU paramU).mem (topU - 32)
        &&& U2x.portPSW_ID_MASK = 0) ∧
    ((C29x.pxPortInitialiseStack vEnd mC topC codeC paramC).2 (topC + 4) = 0x07F90001 ∧
     (C29x.pxPortInitialiseStack vEnd mC topC codeC paramC).2 (topC + 4)
        &&& C29x.portFLAGS_INT_ENABLED = C29x.portFLAGS_INT_ENABLED ∧
     (C29x.pxPortInitialiseStack vEnd mC topC codeC paramC).2 (topC + 1)
        &&& C29x.portFLAGS_INT_ENABLED = C29x.portFLAGS_INT_ENABLED ∧
     (C29x.xPortSetInterruptMask
        { DSTS := (C29x.pxPortInitialiseStack vEnd mC topC codeC paramC).2 (topC + 4),
          ulCriticalNesting := n }).1 = 1) := by
  have hmask : ∀ p : Nat, (p &&& 0x00078000) &&& U2x.portPSW_ID_MASK = 0 := by
    intro p
    rw [Nat.and_assoc]
    have : (0x00078000 : Nat) &&& U2x.portPSW_ID_MASK = 0 := by decide
    rw [this, Nat.and_zero]
  have h29 : (U2x.pxPortInitialiseStack cfg r mU topU codeU paramU).mem (topU - 29)
      = r.PSW &&& 0x00078000 := by
    rw [U2x.u2x_init_keep cfg r mU topU codeU paramU _ (by omega)]
    have := U2x.u2x_baseFrame_get cfg r mU topU codeU paramU 28 (r.PSW &&& 0x00078000) rfl
    rw [show topU - 29 = topU - 1 - ((28 : Nat) : Int) by omega]
    exact this
  have h32 : (U2x.pxPortInitialiseStack cfg r mU topU codeU paramU).mem (topU - 32)
      = r.PSW &&& 0x00078000 := by
    rw [U2x.u2x_init_keep cfg r mU topU codeU paramU _ (by omega)]
    have := U2x.u2x_baseFrame_get cfg r mU topU codeU paramU 31 (r.PSW &&& 0x00078000) rfl
    rw [show topU - 32 = topU - 1 - ((31 : Nat) : Int) by omega]
    exact this
  have c4 : (C29x.pxPortInitialiseStack vEnd mC topC codeC paramC).2 (topC + 4)
      = 0x07F90001 := by
    simpa [C29x.referenceFrame] using C29x.c29x_frame_word vEnd mC topC codeC paramC 4 (by omega)
  have c1 : (C29x.pxPortInitialiseStack vEnd mC topC codeC paramC).2 (topC + 1)
      = 0x07F90001 := by
    simpa [C29x.referenceFrame] using C29x.c29x_frame_word vEnd mC topC codeC paramC 1 (by omega)
  refine ⟨⟨h29, ?_, ?_⟩, ⟨c4, ?_, ?_, ?_⟩⟩
  · rw [h29]; exact hmask _
  · rw [h32]; exact hmask _
  · rw [c4]; decide
  · rw [c1]; decide
  · rw [c4]
    show ((0x07F90001 : Nat) >>> 16) &&& 1 = 1
    decide

/-! ## AURIX: initial context in two context save areas -/

namespace Port

theorem WORD_eq : WORD = 4294967296 := by unfold WORD; norm_num

end Port

namespace AURIX

open Port

/-- The address computed by `pxPortCsaToAddress`, in arithmetic form: segment
bits 16 to 19 of the link word go to bits 28 to 31, offset bits 0 to 15 go to
bits 6 to 21. -/
theorem aurix_csa_address_eq (x : Nat) :
    pxPortCsaToAddress x = 268435456 * (x / 65536 % 16) + 64 * (x % 65536) := by
  have he : (x >>> 16) &&& (2 ^ 4 - 1) = x / 65536 % 16 := by
    rw [Nat.and_pow_two_sub_one_eq_mod, Nat.shiftRight_eq_div_pow]
  have hl : x &&& (2 ^ 16 - 1) = x % 65536 := by
    rw [Nat.and_pow_two_sub_one_eq_mod]
  unfold pxPortCsaToAddress __insert __extru
  simp only [he, hl, WORD_eq]
  have hebound : x / 65536 % 16 < 16 := Nat.mod_lt _ (by norm_num)
  have hlbound : x % 65536 < 65536 := Nat.mod_lt _ (by norm_num)
  generalize x / 65536 % 16 = e at hebound
  generalize x % 65536 = l at hlbound
  have h3 : ((e <<< 28) % 4294967296) &&& (0xFFFFFFFF ^^^ ((2 ^ 16 - 1) <<< 6))
      = 2 ^ 28 * e := by
    interval_cases e <;> decide
  have h4 : l <<< 6 = 64 * l := by rw [Nat.shiftLeft_eq]; ring
  rw [h3, h4, ← Nat.mul_add_lt_is_or (by omega)]

/-- A context save area is 64-byte aligned and lies inside the 32-bit address
space. -/
theorem aurix_csa_address_aligned (x : Nat) :
    pxPortCsaToAddress x % 64 = 0 ∧ pxPortCsaToAddress x + 64 ≤ 4294967296 := by
  rw [aurix_csa_address_eq]
  omega

/-- The address depends on the low 20 bits of the link word only. -/
theorem aurix_csa_address_low20 (x y : Nat) (h : x % 1048576 = y % 1048576) :
    pxPortCsaToAddress x = pxPortCsaToAddress y := by
  rw [aurix_csa_address_eq, aurix_csa_address_eq]
  omega

theorem aurix_or_pcxi_low20 (u : Nat) :
    (portINITIAL_LOWER_PCXI ||| u) % 1048576 = u % 1048576 := by
  have e : (1048576 : Nat) = 2 ^ 20 := by norm_num
  rw [e]
  apply Nat.eq_of_testBit_eq
  intro i
  simp only [Nat.testBit_mod_two_pow, Nat.testBit_or]
  by_cases hi : i < 20
  · have : portINITIAL_LOWER_PCXI.testBit i = false := by
      unfold portINITIAL_LOWER_PCXI
      interval_cases i <;> rfl
    simp [hi, this]
  · simp [hi]

/-- The lower area written by the initialiser links to the upper area. -/
theorem aurix_lower_links_upper (u : Nat) :
    pxPortCsaToAddress (portINITIAL_LOWER_PCXI ||| u) = pxPortCsaToAddress u :=
  aurix_csa_address_low20 _ _ (aurix_or_pcxi_low20 u)

/-- The memory and registers after a successful `pxPortInitialiseStack`. -/
theorem aurix_init_success (s : State) (top code param : Nat)
    (hL : pxPortCsaToAddress s.FCX ≠ NULL)
    (hU : pxPortCsaToAddress (s.mem (pxPortCsaToAddress s.FCX)) ≠ NULL) :
    ∃ t, pxPortInitialiseStack s top code param
        = Outcome.returned (ptrDec (ptrDec top)) t ∧
      t.FCX = s.mem (pxPortCsaToAddress (s.mem (pxPortCsaToAddress s.FCX))) ∧
      t.PCXI = s.PCXI ∧ t.IE = true ∧ t.inISR = s.inISR ∧
      t.uxCriticalNesting = s.uxCriticalNesting ∧ t.pxCurrentTCB = s.pxCurrentTCB ∧
      ∀ a, t.mem a =
        if a = ptrDec (ptrDec top) then s.FCX
        else if a = ptrDec top then 0
        else if a = pxPortCsaToAddress s.FCX then
          portINITIAL_LOWER_PCXI ||| s.mem (pxPortCsaToAddress s.FCX)
        else if a = pxPortCsaToAddress s.FCX + 4 then code
        else if a = pxPortCsaToAddress s.FCX + 32 then param
        else if pxPortCsaToAddress s.FCX ≤ a ∧ a < pxPortCsaToAddress s.FCX + 64 then 0
        else if a = pxPortCsaToAddress (s.mem (pxPortCsaToAddress s.FCX)) then
          portINITIAL_UPPER_PCXI
        else if a = pxPortCsaToAddress (s.mem (pxPortCsaToAddress s.FCX)) + 4 then
          portINITIAL_SYSTEM_PSW
        else if a = pxPortCsaToAddress (s.mem (pxPortCsaToAddress s.FCX)) + 8 then top
        else if pxPortCsaToAddress (s.mem (pxPortCsaToAddress s.FCX)) ≤ a ∧
            a < pxPortCsaToAddress (s.mem (pxPortCsaToAddress s.FCX)) + 64 then 0
        else s.mem a := by
  refine ⟨{ s with
      IE := true
      FCX := s.mem (pxPortCsaToAddress (s.mem (pxPortCsaToAddress s.FCX)))
      mem := fun a =>
        if a = ptrDec (ptrDec top) then s.FCX
        else if a = ptrDec top then 0
        else if a = pxPortCsaToAddress s.FCX then
          portINITIAL_LOWER_PCXI ||| s.mem (pxPortCsaToAddress s.FCX)
        else if a = pxPortCsaToAddress s.FCX + 4 then code
        else if a = pxPortCsaToAddress s.FCX + 32 then param
        else if pxPortCsaToAddress s.FCX ≤ a ∧ a < pxPortCsaToAddress s.FCX + 64 then 0
        else if a = pxPortCsaToAddress (s.mem (pxPortCsaToAddress s.FCX)) then
          portINITIAL_UPPER_PCXI
        else if a = pxPortCsaToAddress (s.mem (pxPortCsaToAddress s.FCX)) + 4 then
          portINITIAL_SYSTEM_PSW
        else if a = pxPortCsaToAddress (s.mem (pxPortCsaToAddress s.FCX)) + 8 then top
        else if pxPortCsaToAddress (s.mem (pxPortCsaToAddress s.FCX)) ≤ a ∧
            a < pxPortCsaToAddress (s.mem (pxPortCsaToAddress s.FCX)) + 64 then 0
        else s.mem a }, ?_, rfl, rfl, rfl, rfl, rfl, rfl, fun _ => rfl⟩
  unfold pxPortInitialiseStack
  simp only [disable, idx, Nat.mul_zero, Nat.add_zero, hL, ne_eq, not_false_eq_true,
    if_true, hU, and_self, Outcome.bind]
  rfl

theorem aurix_ptrDec_ne (p : Nat) : ptrDec (ptrDec p) ≠ ptrDec p := by
  unfold ptrDec
  rw [WORD_eq]
  omega

theorem aurix_ptrDec_sub (p : Nat) (h4 : 4 ≤ p) (hp : p < 4294967296) : ptrDec p = p - 4 := by
  unfold ptrDec
  rw [WORD_eq]
  omega

theorem aurix_ptrInc_ptrDec (p : Nat) (hp : p < 4294967296) : ptrInc (ptrDec p) = p := by
  unfold ptrInc ptrDec
  rw [WORD_eq]
  omega

end AURIX

open Port AURIX in
/-- C7. AURIX `pxPortInitialiseStack( top, code, param )`, when the free list
holds two context save areas (lower handle `L = FCX` with area `lower`, upper
link word `U` = word 0 of `lower` with area `upper`, both areas non-`NULL` and
different from each other) and the two stack words below `top` lie in neither
area, returns `top - 2` (two words down) and leaves: upper word 0 =
`0x00200000`, word 1 = `0x000008FF`, word 2 = `top`, the other 13 words 0;
lower word 0 = `0x00300000 | U`, word 1 = `code`, word 8 = `param`, the other 13
words 0; stack word `top[-1]` = 0 and `top[-2]` = `L`. -/
theorem aurix_initial_context_layout (s : AURIX.State) (top code param lower U upper : Nat)
    (hlower : lower = pxPortCsaToAddress s.FCX) (hUw : U = s.mem lower)
    (hupper : upper = pxPortCsaToAddress U)
    (hL : lower ≠ NULL) (hU : upper ≠ NULL) (hLU : lower ≠ upper)
    (h1L : ¬ inCsa lower (ptrDec top)) (h1U : ¬ inCsa upper (ptrDec top))
    (h2L : ¬ inCsa lower (ptrDec (ptrDec top)))
    (h2U : ¬ inCsa upper (ptrDec (ptrDec top))) :
    ∃ t, AURIX.pxPortInitialiseStack s top code param
        = Outcome.returned (ptrDec (ptrDec top)) t ∧
      (8 ≤ top → top < 2 ^ 32 → ptrDec (ptrDec top) = top - 8 ∧ ptrDec top = top - 4) ∧
      t.mem (idx upper 0) = 0x00200000 ∧
      t.mem (idx upper 1) = 0x000008FF ∧
      t.mem (idx upper 2) = top ∧
      (∀ i, 3 ≤ i → i < 16 → t.mem (idx upper i) = 0) ∧
      t.mem (idx lower 0) = 0x00300000 ||| U ∧
      t.mem (idx lower 1) = code ∧
      t.mem (idx lower 8) = param ∧
      (∀ i, i < 16 → i ≠ 0 → i ≠ 1 → i ≠ 8 → t.mem (idx lower i) = 0) ∧
      t.mem (ptrDec top) = 0 ∧
      t.mem (ptrDec (ptrDec top)) = s.FCX := by
  subst hlower hUw hupper
  obtain ⟨t, hret, -, -, -, -, -, -, hmem⟩ := aurix_init_success s top code param hL hU
  have hne := aurix_ptrDec_ne top
  obtain ⟨haL, hbL⟩ := aurix_csa_address_aligned s.FCX
  obtain ⟨haU, hbU⟩ := aurix_csa_address_aligned (s.mem (pxPortCsaToAddress s.FCX))
  refine ⟨t, hret, ?_, ?_⟩
  · intro h8 htop
    have htop' : top < 4294967296 := by norm_num at htop; exact htop
    rw [aurix_ptrDec_sub top (by omega) htop',
      aurix_ptrDec_sub (top - 4) (by omega) (by omega)]
    omega
  simp only [inCsa, portNUM_WORDS_IN_CSA, NULL] at h1L h1U h2L h2U hL hU
  simp only [hmem, idx, portINITIAL_UPPER_PCXI, portINITIAL_SYSTEM_PSW, portINITIAL_LOWER_PCXI]
  generalize ptrDec (ptrDec top) = B at *
  generalize ptrDec top = A at *
  generalize pxPortCsaToAddress (s.mem (pxPortCsaToAddress s.FCX)) = up at *
  generalize pxPortCsaToAddress s.FCX = lo at *
  clear hmem hret
  simp only [Nat.mul_zero, Nat.add_zero, Nat.mul_one, Nat.reduceMul]
  refine ⟨?_, ?_, ?_, ?_, ?_, ?_, ?_, ?_, ?_, ?_⟩
  · have n0 : ¬ (up = B) := by omega
    have n1 : ¬ (up = A) := by omega
    have n2 : ¬ (up = lo) := by omega
    have n3 : ¬ (up = lo + 4) := by omega
    have n4 : ¬ (up = lo + 32) := by omega
    have n5 : ¬ (lo ≤ up ∧ up < lo + 64) := by omega
    simp only [n0, n1, n2, n3, n4, n5, and_self, eq_self_iff_true, if_true, if_false]
  · have n0 : ¬ (up + 4 = B) := by omega
    have n1 : ¬ (up + 4 = A) := by omega
    have n2 : ¬ (up + 4 = lo) := by omega
    have n3 : ¬ (up + 4 = lo + 4) := by omega
    have n4 : ¬ (up + 4 = lo + 32) := by omega
    have n5 : ¬ (lo ≤ up + 4 ∧ up + 4 < lo + 64) := by omega
    have n6 : ¬ (up + 4 = up) := by omega
    simp only [n0, n1, n2, n3, n4, n5, n6, and_self, eq_self_iff_true, if_true, if_false]
  · have n0 : ¬ (up + 8 = B) := by omega
    have n1 : ¬ (up + 8 = A) := by omega
    have n2 : ¬ (up + 8 = lo) := by omega
    have n3 : ¬ (up + 8 = lo + 4) := by omega
    have n4 : ¬ (up + 8 = lo + 32) := by omega
    have n5 : ¬ (lo ≤ up + 8 ∧ up + 8 < lo + 64) := by omega
    have n6 : ¬ (up + 8 = up) := by omega
    have n7 : ¬ (up + 8 = up + 4) := by omega
    simp only [n0, n1, n2, n3, n4, n5, n6, n7, and_self, eq_self_iff_true, if_true, if_false]
  · intro i h3 h16
    have n0 : ¬ (up + 4 * i = B) := by omega
    have n1 : ¬ (up + 4 * i = A) := by omega
    have n2 : ¬ (up + 4 * i = lo) := by omega
    have n3 : ¬ (up + 4 * i = lo + 4) := by omega
    have n4 : ¬ (up + 4 * i = lo + 32) := by omega
    have n5 : ¬ (lo ≤ up + 4 * i ∧ up + 4 * i < lo + 64) := by omega
    have n6 : ¬ (up + 4 * i = up) := by omega
    have n7 : ¬ (up + 4 * i = up + 4) := by omega
    have n8 : ¬ (up + 4 * i = up + 8) := by omega
    have p : up ≤ up + 4 * i ∧ up + 4 * i < up + 64 := by omega
    simp only [n0, n1, n2, n3, n4, n5, n6, n7, n8, p, and_self, eq_self_iff_true, if_true, if_false]
  · have n0 : ¬ (lo = B) := by omega
    have n1 : ¬ (lo = A) := by omega
    simp only [n0, n1, and_self, eq_self_iff_true, if_true, if_false]
  · have n0 : ¬ (lo + 4 = B) := by omega
    have n1 : ¬ (lo + 4 = A) := by omega
    have n2 : ¬ (lo + 4 = lo) := by omega
    simp only [n0, n1, n2, and_self, eq_self_iff_true, if_true, if_false]
  · have n0 : ¬ (lo + 32 = B) := by omega
    have n1 : ¬ (lo + 32 = A) := by omega
    have n2 : ¬ (lo + 32 = lo) := by omega
    have n3 : ¬ (lo + 32 = lo + 4) := by omega
    simp only [n0, n1, n2, n3, and_self, eq_self_iff_true, if_true, if_false]
  · intro i h16 h0 h1 h8
    have n0 : ¬ (lo + 4 * i = B) := by omega
    have n1 : ¬ (lo + 4 * i = A) := by omega
    have n2 : ¬ (lo + 4 * i = lo) := by omega
    have n3 : ¬ (lo + 4 * i = lo + 4) := by omega
    have n4 : ¬ (lo + 4 * i = lo + 32) := by omega
    have p : lo ≤ lo + 4 * i ∧ lo + 4 * i < lo + 64 := by omega
    simp only [n0, n1, n2, n3, n4, p, and_self, eq_self_iff_true, if_true, if_false]
  · have n0 : ¬ (A = B) := by omega
    simp only [n0, and_self, eq_self_iff_true, if_true, if_false]
  · simp only [if_true]

open Port AURIX in
/-- Task creation on the three-area pool: stack top `0x1000`, entry point
`0x8000`, parameter `0x77`; the lower area is `0x40`, the upper `0x80`. -/
theorem aurix_initial_context_layout_witness :
    ∃ t, AURIX.pxPortInitialiseStack poolState 0x1000 0x8000 0x77
        = Outcome.returned (ptrDec (ptrDec 0x1000)) t ∧
      t.mem (idx 0x80 2) = 0x1000 ∧
      t.mem (idx 0x40 1) = 0x8000 ∧
      t.mem (idx 0x40 8) = 0x77 ∧
      t.mem (ptrDec (ptrDec 0x1000)) = 1 := by
  obtain ⟨t, h, -, -, -, hsp, -, -, hcode, hparam, -, -, hL⟩ :=
    aurix_initial_context_layout poolState 0x1000 0x8000 0x77 0x40 2 0x80
      (by decide) (by decide) (by decide) (by decide) (by decide) (by decide)
      (by decide) (by decide) (by decide) (by decide)
  exact ⟨t, h, hsp, hcode, hparam, hL⟩

namespace AURIX

open Port

/-- Two memories that agree on the link words of a chain hold the same chain. -/
theorem aurix_csaChain_congr (m m' : Mem Nat) (n : Nat) : ∀ link,
    (∀ c ∈ csaChain m n link, m' c = m c) → csaChain m' n link = csaChain m n link := by
  induction n with
  | zero => intro link _; rfl
  | succ n ih =>
    intro link h
    by_cases hnull : pxPortCsaToAddress link = NULL
    · simp [csaChain, hnull]
    · have hmemb : pxPortCsaToAddress link ∈ csaChain m (n + 1) link := by
        simp [csaChain, hnull]
      have hlink : m' (pxPortCsaToAddress link) = m (pxPortCsaToAddress link) := h _ hmemb
      have htail : ∀ c ∈ csaChain m n (m (pxPortCsaToAddress link)), m' c = m c := by
        intro c hc
        apply h
        simp only [csaChain, hnull, if_false, idx, Nat.mul_zero, Nat.add_zero]
        exact List.mem_cons_of_mem _ hc
      simp only [csaChain, hnull, if_false, idx, Nat.mul_zero, Nat.add_zero, hlink]
      rw [ih _ htail]

/-- Every member of a chain is the address of a context save area. -/
theorem aurix_csaChain_aligned (m : Mem Nat) (n : Nat) : ∀ link, ∀ c ∈ csaChain m n link,
    c % 64 = 0 := by
  induction n with
  | zero => intro link c hc; simp [csaChain] at hc
  | succ n ih =>
    intro link c hc
    by_cases hnull : pxPortCsaToAddress link = NULL
    · simp [csaChain, hnull] at hc
    · simp only [csaChain, hnull, if_false, List.mem_cons] at hc
      rcases hc with hc | hc
      · rw [hc]; exact (aurix_csa_address_aligned link).1
      · exact ih _ c hc

/-- Words that a successful `pxPortInitialiseStack` does not touch. -/
theorem aurix_init_frame (s : State) (top code param : Nat) (t : State)
    (hmem : ∀ a, t.mem a =
        if a = ptrDec (ptrDec top) then s.FCX
        else if a = ptrDec top then 0
        else if a = pxPortCsaToAddress s.FCX then
          portINITIAL_LOWER_PCXI ||| s.mem (pxPortCsaToAddress s.FCX)
        else if a = pxPortCsaToAddress s.FCX + 4 then code
        else if a = pxPortCsaToAddress s.FCX + 32 then param
        else if pxPortCsaToAddress s.FCX ≤ a ∧ a < pxPortCsaToAddress s.FCX + 64 then 0
        else if a = pxPortCsaToAddress (s.mem (pxPortCsaToAddress s.FCX)) then
          portINITIAL_UPPER_PCXI
        else if a = pxPortCsaToAddress (s.mem (pxPortCsaToAddress s.FCX)) + 4 then
          portINITIAL_SYSTEM_PSW
        else if a = pxPortCsaToAddress (s.mem (pxPortCsaToAddress s.FCX)) + 8 then top
        else if pxPortCsaToAddress (s.mem (pxPortCsaToAddress s.FCX)) ≤ a ∧
            a < pxPortCsaToAddress (s.mem (pxPortCsaToAddress s.FCX)) + 64 then 0
        else s.mem a)
    (a : Nat)
    (hlo : ¬ inCsa (pxPortCsaToAddress s.FCX) a)
    (hup : ¬ inCsa (pxPortCsaToAddress (s.mem (pxPortCsaToAddress s.FCX))) a)
    (hA : a ≠ ptrDec top) (hB : a ≠ ptrDec (ptrDec top)) :
    t.mem a = s.mem a := by
  rw [hmem]
  simp only [inCsa, portNUM_WORDS_IN_CSA] at hlo hup
  generalize pxPortCsaToAddress (s.mem (pxPortCsaToAddress s.FCX)) = up at *
  generalize pxPortCsaToAddress s.FCX = lo at *
  have n2 : ¬ (a = lo) := by omega
  have n3 : ¬ (a = lo + 4) := by omega
  have n4 : ¬ (a = lo + 32) := by omega
  have n5 : ¬ (lo ≤ a ∧ a < lo + 64) := by omega
  have n6 : ¬ (a = up) := by omega
  have n7 : ¬ (a = up + 4) := by omega
  have n8 : ¬ (a = up + 8) := by omega
  have n9 : ¬ (up ≤ a ∧ a < up + 64) := by omega
  simp only [hA, hB, n2, n3, n4, n5, n6, n7, n8, n9, if_false]

end AURIX

namespace AURIX

open Port

/-- The link words of the two areas after a successful `pxPortInitialiseStack`,
and the words that hold the entry point and the parameter. -/
theorem aurix_init_link_words (s : State) (top code param : Nat) (t : State)
    (hmem : ∀ a, t.mem a =
        if a = ptrDec (ptrDec top) then s.FCX
        else if a = ptrDec top then 0
        else if a = pxPortCsaToAddress s.FCX then
          portINITIAL_LOWER_PCXI ||| s.mem (pxPortCsaToAddress s.FCX)
        else if a = pxPortCsaToAddress s.FCX + 4 then code
        else if a = pxPortCsaToAddress s.FCX + 32 then param
        else if pxPortCsaToAddress s.FCX ≤ a ∧ a < pxPortCsaToAddress s.FCX + 64 then 0
        else if a = pxPortCsaToAddress (s.mem (pxPortCsaToAddress s.FCX)) then
          portINITIAL_UPPER_PCXI
        else if a = pxPortCsaToAddress (s.mem (pxPortCsaToAddress s.FCX)) + 4 then
          portINITIAL_SYSTEM_PSW
        else if a = pxPortCsaToAddress (s.mem (pxPortCsaToAddress s.FCX)) + 8 then top
        else if pxPortCsaToAddress (s.mem (pxPortCsaToAddress s.FCX)) ≤ a ∧
            a < pxPortCsaToAddress (s.mem (pxPortCsaToAddress s.FCX)) + 64 then 0
        else s.mem a)
    (hLU : pxPortCsaToAddress s.FCX ≠ pxPortCsaToAddress (s.mem (pxPortCsaToAddress s.FCX)))
    (h1L : ¬ inCsa (pxPortCsaToAddress s.FCX) (ptrDec top))
    (h1U : ¬ inCsa (pxPortCsaToAddress (s.mem (pxPortCsaToAddress s.FCX))) (ptrDec top))
    (h2L : ¬ inCsa (pxPortCsaToAddress s.FCX) (ptrDec (ptrDec top)))
    (h2U : ¬ inCsa (pxPortCsaToAddress (s.mem (pxPortCsaToAddress s.FCX)))
      (ptrDec (ptrDec top))) :
    t.mem (pxPortCsaToAddress s.FCX)
      = portINITIAL_LOWER_PCXI ||| s.mem (pxPortCsaToAddress s.FCX) ∧
    t.mem (pxPortCsaToAddress (s.mem (pxPortCsaToAddress s.FCX))) = portINITIAL_UPPER_PCXI ∧
    t.mem (pxPortCsaToAddress s.FCX + 4) = code ∧
    t.mem (pxPortCsaToAddress s.FCX + 32) = param ∧
    t.mem (pxPortCsaToAddress (s.mem (pxPortCsaToAddress s.FCX)) + 8) = top := by
  obtain ⟨haL, hbL⟩ := aurix_csa_address_aligned s.FCX
  obtain ⟨haU, hbU⟩ := aurix_csa_address_aligned (s.mem (pxPortCsaToAddress s.FCX))
  simp only [inCsa, portNUM_WORDS_IN_CSA] at h1L h1U h2L h2U
  simp only [hmem]
  generalize ptrDec (ptrDec top) = B at *
  generalize ptrDec top = A at *
  generalize pxPortCsaToAddress (s.mem (pxPortCsaToAddress s.FCX)) = up at *
  generalize pxPortCsaToAddress s.FCX = lo at *
  clear hmem
  refine ⟨?_, ?_, ?_, ?_, ?_⟩
  · have n0 : ¬ (lo = B) := by omega
    have n1 : ¬ (lo = A) := by omega
    simp only [n0, n1, eq_self_iff_true, if_true, if_false]
  · have n0 : ¬ (up = B) := by omega
    have n1 : ¬ (up = A) := by omega
    have n2 : ¬ (up = lo) := by omega
    have n3 : ¬ (up = lo + 4) := by omega
    have n4 : ¬ (up = lo + 32) := by omega
    have n5 : ¬ (lo ≤ up ∧ up < lo + 64) := by omega
    simp only [n0, n1, n2, n3, n4, n5, eq_self_iff_true, if_true, if_false]
  · have n0 : ¬ (lo + 4 = B) := by omega
    have n1 : ¬ (lo + 4 = A) := by omega
    have n2 : ¬ (lo + 4 = lo) := by omega
    simp only [n0, n1, n2, eq_self_iff_true, if_true, if_false]
  · have n0 : ¬ (lo + 32 = B) := by omega
    have n1 : ¬ (lo + 32 = A) := by omega
    have n2 : ¬ (lo + 32 = lo) := by omega
    have n3 : ¬ (lo + 32 = lo + 4) := by omega
    simp only [n0, n1, n2, n3, eq_self_iff_true, if_true, if_false]
  · have n0 : ¬ (up + 8 = B) := by omega
    have n1 : ¬ (up + 8 = A) := by omega
    have n2 : ¬ (up + 8 = lo) := by omega
    have n3 : ¬ (up + 8 = lo + 4) := by omega
    have n4 : ¬ (up + 8 = lo + 32) := by omega
    have n5 : ¬ (lo ≤ up + 8 ∧ up + 8 < lo + 64) := by omega
    have n6 : ¬ (up + 8 = up) := by omega
    have n7 : ¬ (up + 8 = up + 4) := by omega
    simp only [n0, n1, n2, n3, n4, n5, n6, n7, eq_self_iff_true, if_true, if_false]

end AURIX

open Port AURIX in
/-- C8. AURIX `pxPortInitialiseStack`, when it succeeds, removes exactly the
first two context save areas from the free list: if the list is
`L -> U -> F3 -> ...` (areas `lower`, `upper`, then the chain from `F3`), then
afterwards `FCX = F3`, the link word the second area held; no word outside the
two areas and the two new stack words is changed, so a remainder of the list
that runs through neither area nor the two stack words is the same chain with
the same contents; and the two removed areas are linked lower -> upper, the
upper's link having address bits 0 (it ends the task's chain). -/
theorem aurix_init_consumes_two_csas (s : AURIX.State)
    (top code param lower U upper F3 : Nat)
    (hlower : lower = pxPortCsaToAddress s.FCX) (hUw : U = s.mem lower)
    (hupper : upper = pxPortCsaToAddress U) (hF3 : F3 = s.mem upper)
    (hL : lower ≠ NULL) (hU : upper ≠ NULL) (hLU : lower ≠ upper)
    (h1L : ¬ inCsa lower (ptrDec top)) (h1U : ¬ inCsa upper (ptrDec top))
    (h2L : ¬ inCsa lower (ptrDec (ptrDec top)))
    (h2U : ¬ inCsa upper (ptrDec (ptrDec top))) :
    ∃ t, AURIX.pxPortInitialiseStack s top code param
        = Outcome.returned (ptrDec (ptrDec top)) t ∧
      t.FCX = F3 ∧
      (∀ a, ¬ inCsa lower a → ¬ inCsa upper a → a ≠ ptrDec top → a ≠ ptrDec (ptrDec top) →
        t.mem a = s.mem a) ∧
      (∀ n, (∀ c ∈ csaChain s.mem n F3, c ≠ lower ∧ c ≠ upper ∧
              ¬ inCsa c (ptrDec top) ∧ ¬ inCsa c (ptrDec (ptrDec top))) →
        csaChain t.mem n F3 = csaChain s.mem n F3 ∧
        ∀ c ∈ csaChain s.mem n F3, ∀ i, i < 16 → t.mem (idx c i) = s.mem (idx c i)) ∧
      pxPortCsaToAddress (t.mem lower) = upper ∧
      t.mem upper &&& portCSA_FCX_MASK = 0 ∧
      pxPortCsaToAddress (t.mem upper) = NULL := by
  subst hlower hUw hupper hF3
  obtain ⟨t, hret, hfcx, -, -, -, -, -, hmem⟩ := aurix_init_success s top code param hL hU
  obtain ⟨hlo0, hup0, -, -, -⟩ :=
    aurix_init_link_words s top code param t hmem hLU h1L h1U h2L h2U
  have hframe := aurix_init_frame s top code param t hmem
  obtain ⟨haL, hbL⟩ := aurix_csa_address_aligned s.FCX
  obtain ⟨haU, hbU⟩ := aurix_csa_address_aligned (s.mem (pxPortCsaToAddress s.FCX))
  have hwords : ∀ n, (∀ c ∈ csaChain s.mem n
        (s.mem (pxPortCsaToAddress (s.mem (pxPortCsaToAddress s.FCX)))),
        c ≠ pxPortCsaToAddress s.FCX ∧
        c ≠ pxPortCsaToAddress (s.mem (pxPortCsaToAddress s.FCX)) ∧
        ¬ inCsa c (ptrDec top) ∧ ¬ inCsa c (ptrDec (ptrDec top))) →
      ∀ c ∈ csaChain s.mem n
        (s.mem (pxPortCsaToAddress (s.mem (pxPortCsaToAddress s.FCX)))),
        ∀ i, i < 16 → t.mem (idx c i) = s.mem (idx c i) := by
    intro n hn c hc i hi
    obtain ⟨c1, c2, c3, c4⟩ := hn c hc
    have hcal := aurix_csaChain_aligned s.mem n _ c hc
    simp only [inCsa, portNUM_WORDS_IN_CSA] at c3 c4
    apply hframe
    · simp only [inCsa, portNUM_WORDS_IN_CSA, idx]; omega
    · simp only [inCsa, portNUM_WORDS_IN_CSA, idx]; omega
    · simp only [idx]; omega
    · simp only [idx]; omega
  refine ⟨t, hret, hfcx, hframe, ?_, ?_, ?_, ?_⟩
  · intro n hn
    refine ⟨?_, hwords n hn⟩
    apply aurix_csaChain_congr
    intro c hc
    have := hwords n hn c hc 0 (by omega)
    simpa [idx] using this
  · rw [hlo0]
    exact aurix_lower_links_upper _
  · rw [hup0]; decide
  · rw [hup0]; decide

open Port AURIX in
/-- Task creation on the three-area pool: the areas `0x40` and `0x80` leave
the free list, which is then the single area `0xC0` named by link word 3. -/
theorem aurix_init_consumes_two_csas_witness :
    ∃ t, AURIX.pxPortInitialiseStack poolState 0x1000 0x8000 0x77
        = Outcome.returned (ptrDec (ptrDec 0x1000)) t ∧
      t.FCX = 3 ∧
      csaChain t.mem 5 3 = [0xC0] ∧
      pxPortCsaToAddress (t.mem 0x40) = 0x80 ∧
      pxPortCsaToAddress (t.mem 0x80) = NULL := by
  obtain ⟨t, h, hfcx, -, hchain, hlink, -, hend⟩ :=
    aurix_init_consumes_two_csas poolState 0x1000 0x8000 0x77 0x40 2 0x80 3
      (by decide) (by decide) (by decide) (by decide) (by decide) (by decide)
      (by decide) (by decide) (by decide) (by decide) (by decide)
  refine ⟨t, h, hfcx, ?_, hlink, hend⟩
  rw [(hchain 5 (by decide)).1]
  decide

namespace AURIX

open Port

end AURIX

open Port AURIX in
/-- C10. AURIX: restoring a freshly initialised, never-run context lands on
the initial frame.  If `pxPortInitialiseStack( top, code, param )` succeeds
(two distinct free areas `lower` and `upper`, the two stack words below `top`
in neither) and its result is stored as the current task's top of stack in a
task control block `tcb` that overlaps neither the two stack words nor the two
areas, then `vPortLoadContext( 0 )`, whatever `uxCriticalNesting` and `PCXI`
hold at that moment, sets `PCXI` to the lower handle `L` taken by the
initialiser, `uxCriticalNesting` to 0 and the stored top of stack to `top`,
which is also word 2 (A10) of the upper area; the lower area reachable from
`PCXI` holds `code` as return address and `param` in A4, and links to the
upper area. -/
theorem aurix_restore_fresh_context (s : AURIX.State)
    (top code param lower U upper tcb : Nat)
    (hlower : lower = pxPortCsaToAddress s.FCX) (hUw : U = s.mem lower)
    (hupper : upper = pxPortCsaToAddress U)
    (hL : lower ≠ NULL) (hU : upper ≠ NULL) (hLU : lower ≠ upper)
    (h1L : ¬ inCsa lower (ptrDec top)) (h1U : ¬ inCsa upper (ptrDec top))
    (h2L : ¬ inCsa lower (ptrDec (ptrDec top)))
    (h2U : ¬ inCsa upper (ptrDec (ptrDec top)))
    (htop : top < 2 ^ 32)
    (htcb1 : tcb ≠ ptrDec top) (htcb2 : tcb ≠ ptrDec (ptrDec top))
    (htcbL : ¬ inCsa lower tcb) (htcbU : ¬ inCsa upper tcb) :
    ∃ t, AURIX.pxPortInitialiseStack s top code param
        = Outcome.returned (ptrDec (ptrDec top)) t ∧
      ∀ n pcxi : Nat,
        (vPortLoadContext { storeTopOfStack t tcb (ptrDec (ptrDec top)) with
            uxCriticalNesting := n, PCXI := pcxi } 0).PCXI = s.FCX ∧
        (vPortLoadContext { storeTopOfStack t tcb (ptrDec (ptrDec top)) with
            uxCriticalNesting := n, PCXI := pcxi } 0).uxCriticalNesting = 0 ∧
        (vPortLoadContext { storeTopOfStack t tcb (ptrDec (ptrDec top)) with
            uxCriticalNesting := n, PCXI := pcxi } 0).mem tcb = top ∧
        (vPortLoadContext { storeTopOfStack t tcb (ptrDec (ptrDec top)) with
            uxCriticalNesting := n, PCXI := pcxi } 0).mem (idx upper 2) = top ∧
        (vPortLoadContext { storeTopOfStack t tcb (ptrDec (ptrDec top)) with
            uxCriticalNesting := n, PCXI := pcxi } 0).mem (idx lower 1) = code ∧
        (vPortLoadContext { storeTopOfStack t tcb (ptrDec (ptrDec top)) with
            uxCriticalNesting := n, PCXI := pcxi } 0).mem (idx lower 8) = param ∧
        pxPortCsaToAddress
          ((vPortLoadContext { storeTopOfStack t tcb (ptrDec (ptrDec top)) with
            uxCriticalNesting := n, PCXI := pcxi } 0).mem (idx lower 0)) = upper := by
  subst hlower hUw hupper
  obtain ⟨t, hret, -, -, -, -, -, -, hmem⟩ := aurix_init_success s top code param hL hU
  obtain ⟨hlo0, -, hcode, hparam, hsp⟩ :=
    aurix_init_link_words s top code param t hmem hLU h1L h1U h2L h2U
  have hne := aurix_ptrDec_ne top
  have htop' : top < 4294967296 := by norm_num at htop; exact htop
  have hA : ptrInc (ptrDec top) = top := aurix_ptrInc_ptrDec top htop'
  have hBlt : ptrDec top < 4294967296 := by
    unfold ptrDec; rw [WORD_eq]; omega
  have hB : ptrInc (ptrDec (ptrDec top)) = ptrDec top := aurix_ptrInc_ptrDec _ hBlt
  have hmB : t.mem (ptrDec (ptrDec top)) = s.FCX := by
    rw [hmem]; simp only [if_true]
  have hmA : t.mem (ptrDec top) = 0 := by
    rw [hmem]; simp only [Ne.symm hne, if_false, if_true]
  simp only [inCsa, portNUM_WORDS_IN_CSA] at htcbL htcbU
  have e1 : pxPortCsaToAddress s.FCX ≠ tcb := by omega
  have e2 : pxPortCsaToAddress s.FCX + 4 ≠ tcb := by omega
  have e3 : pxPortCsaToAddress s.FCX + 32 ≠ tcb := by omega
  have e4 : pxPortCsaToAddress (s.mem (pxPortCsaToAddress s.FCX)) + 8 ≠ tcb := by omega
  refine ⟨t, hret, ?_⟩
  intro n pcxi
  simp only [vPortLoadContext, storeTopOfStack, if_true, Mem.write, hB, hA, idx,
    Ne.symm htcb1, Ne.symm htcb2, if_false, hmB, hmA, e1, e2, e3, e4, Nat.mul_zero,
    Nat.add_zero, Nat.mul_one, Nat.reduceMul, hlo0, hcode, hparam, hsp, true_and]
  exact aurix_lower_links_upper _

open Port AURIX in
/-- First start of the task created on the three-area pool, with its control
block at `0x2000` and the boot sentinel still in `uxCriticalNesting`. -/
theorem aurix_restore_fresh_context_witness :
    ∃ t, AURIX.pxPortInitialiseStack poolState 0x1000 0x8000 0x77
        = Outcome.returned (ptrDec (ptrDec 0x1000)) t ∧
      (vPortLoadContext { storeTopOfStack t 0x2000 (ptrDec (ptrDec 0x1000)) with
          uxCriticalNesting := uxCriticalNestingInitial, PCXI := 0 } 0).PCXI = 1 ∧
      (vPortLoadContext { storeTopOfStack t 0x2000 (ptrDec (ptrDec 0x1000)) with
          uxCriticalNesting := uxCriticalNestingInitial, PCXI := 0 } 0).uxCriticalNesting
        = 0 ∧
      (vPortLoadContext { storeTopOfStack t 0x2000 (ptrDec (ptrDec 0x1000)) with
          uxCriticalNesting := uxCriticalNestingInitial, PCXI := 0 } 0).mem 0x2000
        = 0x1000 := by
  obtain ⟨t, h, hload⟩ :=
    aurix_restore_fresh_context poolState 0x1000 0x8000 0x77 0x40 2 0x80 0x2000
      (by decide) (by decide) (by decide) (by decide) (by decide) (by decide)
      (by decide) (by decide) (by decide) (by decide) (by norm_num)
      (by decide) (by decide) (by decide) (by decide)
  obtain ⟨r1, r2, r3, -⟩ := hload uxCriticalNestingInitial 0
  exact ⟨t, h, r1, r2, r3⟩

/-! ## AURIX: saving and restoring a context -/

namespace AURIX

open Port

theorem aurix_ptrDec_lt (p : Nat) : ptrDec p < 4294967296 := by
  unfold ptrDec
  rw [WORD_eq]
  omega

/-- The memory after `vPortSaveContext( 0 )`, for a task control block that is
not one of the two stack words the call writes. -/
theorem aurix_save_mem (s : State) (S : Nat)
    (hS : S = s.mem (idx (pxPortCsaToAddress (s.mem (idx (pxPortCsaToAddress s.PCXI) 0))) 2))
    (h1 : s.pxCurrentTCB ≠ ptrDec S) (h2 : s.pxCurrentTCB ≠ ptrDec (ptrDec S)) (a : Nat) :
    (vPortSaveContext s 0).mem a =
      if a = ptrDec (ptrDec S) then s.PCXI
      else if a = s.pxCurrentTCB then ptrDec (ptrDec S)
      else if a = ptrDec S then s.uxCriticalNesting
      else s.mem a := by
  have hne := aurix_ptrDec_ne S
  simp only [vPortSaveContext, ne_eq, not_true_eq_false, if_false, Mem.write, if_true, ← hS,
    h1, h2, Ne.symm h1, Ne.symm h2]
  by_cases hB : a = ptrDec (ptrDec S)
  · simp only [hB, if_true]
  · by_cases hT : a = s.pxCurrentTCB
    · simp only [hT, h2, if_false, if_true]
    · by_cases hA : a = ptrDec S
      · simp only [hA, hne.symm, h1.symm, if_false, if_true]
      · simp only [hB, hT, hA, if_false]

end AURIX

open Port AURIX in
/-- C11. AURIX save/restore round trip at call depth 0.  If task `T` (control
block `tcb`) is current with `PCXI = L` and `uxCriticalNesting = n`, and the
upper area linked from `L`'s area holds the stack pointer `S` in word 2, then
`vPortSaveContext( 0 )` stores `n` at `S[-1]` and `L` at `S[-2]`, sets `T`'s
stored top of stack to `S - 2` and writes nothing else; and a later
`vPortLoadContext( 0 )` with `T` current again, in any state in which these
three words of `T` are intact (whatever `PCXI`, `uxCriticalNesting` and the
rest of the memory have become), sets `PCXI = L`, `uxCriticalNesting = n` and
`T`'s stored top of stack to `S`. -/
theorem aurix_save_restore_roundtrip (s : AURIX.State) (L n S lower upper tcb : Nat)
    (hPCXI : s.PCXI = L) (hn : s.uxCriticalNesting = n) (htcb : s.pxCurrentTCB = tcb)
    (hlower : lower = pxPortCsaToAddress L) (hupper : upper = pxPortCsaToAddress (s.mem (idx lower 0)))
    (hS : S = s.mem (idx upper 2)) (hS32 : S < 2 ^ 32)
    (h1 : tcb ≠ ptrDec S) (h2 : tcb ≠ ptrDec (ptrDec S)) :
    (vPortSaveContext s 0).mem (ptrDec S) = n ∧
    (vPortSaveContext s 0).mem (ptrDec (ptrDec S)) = L ∧
    (vPortSaveContext s 0).mem tcb = ptrDec (ptrDec S) ∧
    (∀ a, a ≠ tcb → a ≠ ptrDec S → a ≠ ptrDec (ptrDec S) →
      (vPortSaveContext s 0).mem a = s.mem a) ∧
    (∀ s1 : AURIX.State, s1.pxCurrentTCB = tcb →
      s1.mem tcb = (vPortSaveContext s 0).mem tcb →
      s1.mem (ptrDec S) = (vPortSaveContext s 0).mem (ptrDec S) →
      s1.mem (ptrDec (ptrDec S)) = (vPortSaveContext s 0).mem (ptrDec (ptrDec S)) →
      (vPortLoadContext s1 0).PCXI = L ∧
      (vPortLoadContext s1 0).uxCriticalNesting = n ∧
      (vPortLoadContext s1 0).mem tcb = S) := by
  subst hPCXI hn htcb hlower hupper
  have hmem := aurix_save_mem s S hS h1 h2
  have hne := aurix_ptrDec_ne S
  have hS' : S < 4294967296 := by norm_num at hS32; exact hS32
  have hA : ptrInc (ptrDec S) = S := aurix_ptrInc_ptrDec S hS'
  have hB : ptrInc (ptrDec (ptrDec S)) = ptrDec S := aurix_ptrInc_ptrDec _ (aurix_ptrDec_lt S)
  have e1 : (vPortSaveContext s 0).mem (ptrDec S) = s.uxCriticalNesting := by
    rw [hmem]; simp only [hne.symm, h1.symm, if_false, if_true]
  have e2 : (vPortSaveContext s 0).mem (ptrDec (ptrDec S)) = s.PCXI := by
    rw [hmem]; simp only [if_true]
  have e3 : (vPortSaveContext s 0).mem s.pxCurrentTCB = ptrDec (ptrDec S) := by
    rw [hmem]; simp only [h2, if_false, if_true]
  refine ⟨e1, e2, e3, ?_, ?_⟩
  · intro a ha1 ha2 ha3
    rw [hmem]; simp only [ha1, ha2, ha3, if_false]
  · intro s1 hcur htos hw1 hw2
    rw [e3] at htos
    rw [e1] at hw1
    rw [e2] at hw2
    simp only [vPortLoadContext, hcur, htos, Mem.write, if_true, hB, hA, h1.symm, h2.symm,
      if_false, hw1, hw2, and_self]

open Port AURIX in
/-- A task running on the three-area pool with `PCXI = 1` (area `0x40`, linked
to `0x80`), nesting 3 and stack pointer `0x1000` in the upper area. -/
theorem aurix_save_restore_roundtrip_witness :
    (vPortSaveContext { poolState with
        mem := fun a => if a = 0x40 then 2 else if a = 0x88 then 0x1000 else 0,
        PCXI := 1, uxCriticalNesting := 3 } 0).mem (ptrDec (ptrDec 0x1000)) = 1 ∧
    (vPortSaveContext { poolState with
        mem := fun a => if a = 0x40 then 2 else if a = 0x88 then 0x1000 else 0,
        PCXI := 1, uxCriticalNesting := 3 } 0).mem (ptrDec 0x1000) = 3 :=
  have h := aurix_save_restore_roundtrip { poolState with
        mem := fun a => if a = 0x40 then 2 else if a = 0x88 then 0x1000 else 0,
        PCXI := 1, uxCriticalNesting := 3 } 1 3 0x1000 0x40 0x80 0x2000
      rfl rfl rfl (by decide) (by decide) (by decide) (by norm_num) (by decide) (by decide)
  ⟨h.2.1, h.1⟩

/-! ## Interrupt mask round trips -/

namespace U2x

theorem u2x_mask_testBit (i : Nat) :
    ((0xFFFFFFFF : Nat) ^^^ 0x20).testBit i = (decide (i < 32) && !decide (i = 5)) := by
  have e : ((0xFFFFFFFF : Nat) ^^^ 0x20) = (2 ^ 32 - 1) ^^^ 2 ^ 5 := by norm_num
  rw [e, Nat.testBit_xor, Nat.testBit_two_pow_sub_one, Nat.testBit_two_pow]
  by_cases h5 : i = 5
  · subst h5; decide
  · have : ¬ (5 = i) := fun h => h5 h.symm
    simp [h5, this]

theorem u2x_id_testBit (i : Nat) : (0x20 : Nat).testBit i = decide (i = 5) := by
  have e : (0x20 : Nat) = 2 ^ 5 := by norm_num
  rw [e, Nat.testBit_two_pow]
  by_cases h5 : i = 5
  · subst h5; decide
  · have : ¬ (5 = i) := fun h => h5 h.symm
    simp [h5, this]

theorem u2x_clear_keeps_other_bits (v saved : Nat) :
    ((v &&& (0xFFFFFFFF ^^^ 0x20)) ||| (0x20 &&& saved)) &&& (0xFFFFFFFF ^^^ 0x20)
      = v &&& (0xFFFFFFFF ^^^ 0x20) := by
  apply Nat.eq_of_testBit_eq
  intro i
  simp only [Nat.testBit_and, Nat.testBit_or, u2x_mask_testBit, u2x_id_testBit]
  by_cases h5 : i = 5 <;> by_cases h32 : i < 32 <;> simp [h5, h32]

theorem u2x_clear_sets_id_bit (v saved : Nat) :
    ((v &&& (0xFFFFFFFF ^^^ 0x20)) ||| (0x20 &&& saved)) &&& 0x20 = saved &&& 0x20 := by
  apply Nat.eq_of_testBit_eq
  intro i
  simp only [Nat.testBit_and, Nat.testBit_or, u2x_mask_testBit, u2x_id_testBit]
  by_cases h5 : i = 5 <;> by_cases h32 : i < 32 <;> simp [h5, h32, Bool.and_comm]

theorem u2x_clear_restores (v p : Nat) (hp : p < 2 ^ 32)
    (h : v &&& (0xFFFFFFFF ^^^ 0x20) = p &&& (0xFFFFFFFF ^^^ 0x20)) :
    (v &&& (0xFFFFFFFF ^^^ 0x20)) ||| (0x20 &&& p) = p := by
  apply Nat.eq_of_testBit_eq
  intro i
  have hi := congrArg (fun x => Nat.testBit x i) h
  simp only [Nat.testBit_and, Nat.testBit_or, u2x_mask_testBit, u2x_id_testBit] at hi ⊢
  by_cases h5 : i = 5
  · simp [h5]
  · by_cases h32 : i < 32
    · simp [h5, h32] at hi ⊢
      exact hi
    · have hpi : p.testBit i = false :=
        Nat.testBit_lt_two_pow (lt_of_lt_of_le hp (Nat.pow_le_pow_right (by norm_num) (by omega)))
      simp [h5, h32, hpi]

theorem u2x_di_sets_id_bit (p : Nat) : (p ||| 0x20) &&& 0x20 = 0x20 := by
  apply Nat.eq_of_testBit_eq
  intro i
  simp only [Nat.testBit_and, Nat.testBit_or, u2x_id_testBit]
  by_cases h5 : i = 5 <;> simp [h5]

theorem u2x_di_keeps_other_bits (p : Nat) :
    (p ||| 0x20) &&& (0xFFFFFFFF ^^^ 0x20) = p &&& (0xFFFFFFFF ^^^ 0x20) := by
  apply Nat.eq_of_testBit_eq
  intro i
  simp only [Nat.testBit_and, Nat.testBit_or, u2x_mask_testBit, u2x_id_testBit]
  by_cases h5 : i = 5 <;> by_cases h32 : i < 32 <;> simp [h5, h32]

end U2x

open U2x in
/-- C12. U2x interrupt-mask round trip.  For every 32-bit `PSW` value `p`,
`xPortSetInterruptMask()` called with `PSW = p` returns `p`, leaves the
interrupt-disable bit (bit 5, `0x20`) set and changes no other bit of `PSW`;
`vPortClearInterruptMask` applied to that result, after any intervening
changes of `PSW` limited to bit 5, leaves `PSW = p`.  For every argument,
`vPortClearInterruptMask` keeps every bit of `PSW` other than bit 5, sets
bit 5 to bit 5 of its argument, and changes no other register. -/
theorem u2x_interrupt_mask_roundtrip (r : U2x.Regs) (p : Nat) (hp : r.PSW = p)
    (h32 : p < 2 ^ 32) :
    (xPortSetInterruptMask r).1 = p ∧
    (xPortSetInterruptMask r).2.PSW &&& portPSW_ID_MASK = portPSW_ID_MASK ∧
    (xPortSetInterruptMask r).2.PSW &&& (0xFFFFFFFF ^^^ portPSW_ID_MASK)
      = p &&& (0xFFFFFFFF ^^^ portPSW_ID_MASK) ∧
    (∀ r1 : U2x.Regs,
      r1.PSW &&& (0xFFFFFFFF ^^^ portPSW_ID_MASK) = p &&& (0xFFFFFFFF ^^^ portPSW_ID_MASK) →
      (vPortClearInterruptMask r1 (xPortSetInterruptMask r).1).PSW = p) ∧
    (∀ (r1 : U2x.Regs) (x : Nat),
      (vPortClearInterruptMask r1 x).PSW &&& (0xFFFFFFFF ^^^ portPSW_ID_MASK)
        = r1.PSW &&& (0xFFFFFFFF ^^^ portPSW_ID_MASK) ∧
      (vPortClearInterruptMask r1 x).PSW &&& portPSW_ID_MASK = x &&& portPSW_ID_MASK ∧
      (vPortClearInterruptMask r1 x).FPSR = r1.FPSR ∧
      (vPortClearInterruptMask r1 x).FXSR = r1.FXSR ∧
      (vPortClearInterruptMask r1 x).PEID = r1.PEID) := by
  subst hp
  refine ⟨rfl, ?_, ?_, ?_, ?_⟩
  · exact u2x_di_sets_id_bit r.PSW
  · exact u2x_di_keeps_other_bits r.PSW
  · intro r1 h
    exact u2x_clear_restores r1.PSW r.PSW h32 h
  · intro r1 x
    exact ⟨u2x_clear_keeps_other_bits r1.PSW x, u2x_clear_sets_id_bit r1.PSW x, rfl, rfl, rfl⟩

open U2x in
/-- The mask is set with `PSW = 0x8000` (interrupts enabled) and cleared again
right away. -/
theorem u2x_interrupt_mask_roundtrip_witness :
    (xPortSetInterruptMask (coreRegs 0)).1 = 0x8000 ∧
    (vPortClearInterruptMask (xPortSetInterruptMask (coreRegs 0)).2
      (xPortSetInterruptMask (coreRegs 0)).1).PSW = 0x8000 :=
  have h := u2x_interrupt_mask_roundtrip (coreRegs 0) 0x8000 rfl (by norm_num)
  ⟨h.1, h.2.2.2.1 _ h.2.2.1⟩

namespace C29x

open Port

theorem c29x_maskRun_concat (cs : List MaskCall) (c : MaskCall) (s : State) :
    maskRun (cs ++ [c]) s = maskStep c (maskRun cs s) := by
  simp [maskRun, List.foldl_append]

/-- After a sequence of enable and disable calls that starts with interrupts
disabled and does not end with an enable, interrupts are disabled. -/
theorem c29x_maskRun_disabled (cs : List MaskCall) (s : State) (hs : s.intEnabled = false)
    (hlast : cs.getLast? ≠ some MaskCall.enable) : (maskRun cs s).intEnabled = false := by
  rcases List.eq_nil_or_concat cs with h | ⟨cs1, c, h⟩
  · subst h; exact hs
  · subst h
    rw [List.concat_eq_append] at hlast ⊢
    rw [c29x_maskRun_concat]
    cases c with
    | enable => simp at hlast
    | disable => exact c29x_DISINT_intEnabled _

end C29x

open C29x in
/-- C13, as stated, fails: with interrupts disabled beforehand (`e = 0`),
`portSET_INTERRUPT_MASK_FROM_ISR` returns 0, and after an intervening
`portENABLE_INTERRUPTS` the macro `portCLEAR_INTERRUPT_MASK_FROM_ISR( 0 )` does
nothing, so interrupts end up enabled although they were disabled. -/
theorem c29x_mask_roundtrip_broken_by_enable :
    State.intEnabled { DSTS := 0, ulCriticalNesting := 0 } = false ∧
    (portSET_INTERRUPT_MASK_FROM_ISR { DSTS := 0, ulCriticalNesting := 0 }).1 = 0 ∧
    (portCLEAR_INTERRUPT_MASK_FROM_ISR
      (portSET_INTERRUPT_MASK_FROM_ISR { DSTS := 0, ulCriticalNesting := 0 }).1
      (maskRun [MaskCall.enable]
        (portSET_INTERRUPT_MASK_FROM_ISR { DSTS := 0, ulCriticalNesting := 0 }).2)).intEnabled
      = true := by
  decide

open C29x in
/-- C13, amended. C29x interrupt-mask round trip: for every initial state,
with `e` the interrupt enable (bit 16 of `DSTS`),
`x = portSET_INTERRUPT_MASK_FROM_ISR()` returns `e` and disables interrupts.
If `e = 1`, `portCLEAR_INTERRUPT_MASK_FROM_ISR( x )` leaves interrupts enabled
after any sequence of `portENABLE_INTERRUPTS` / `portDISABLE_INTERRUPTS` calls
made between the two.  If `e = 0`, the macro does nothing, so the state is the
one the intervening calls left: interrupts are disabled, as before, for every
sequence that does not end with `portENABLE_INTERRUPTS` (the empty one
included). -/
theorem c29x_interrupt_mask_roundtrip (s : C29x.State) :
    (portSET_INTERRUPT_MASK_FROM_ISR s).1 = intEnableBit s.DSTS ∧
    ((portSET_INTERRUPT_MASK_FROM_ISR s).1 = 1 ↔ s.intEnabled = true) ∧
    ((portSET_INTERRUPT_MASK_FROM_ISR s).1 = 0 ↔ s.intEnabled = false) ∧
    (portSET_INTERRUPT_MASK_FROM_ISR s).2.intEnabled = false ∧
    (∀ cs : List MaskCall, s.intEnabled = true →
      (portCLEAR_INTERRUPT_MASK_FROM_ISR (portSET_INTERRUPT_MASK_FROM_ISR s).1
        (maskRun cs (portSET_INTERRUPT_MASK_FROM_ISR s).2)).intEnabled = true) ∧
    (∀ cs : List MaskCall, s.intEnabled = false →
      portCLEAR_INTERRUPT_MASK_FROM_ISR (portSET_INTERRUPT_MASK_FROM_ISR s).1
        (maskRun cs (portSET_INTERRUPT_MASK_FROM_ISR s).2)
        = maskRun cs (portSET_INTERRUPT_MASK_FROM_ISR s).2) ∧
    (∀ cs : List MaskCall, s.intEnabled = false → cs.getLast? ≠ some MaskCall.enable →
      (portCLEAR_INTERRUPT_MASK_FROM_ISR (portSET_INTERRUPT_MASK_FROM_ISR s).1
        (maskRun cs (portSET_INTERRUPT_MASK_FROM_ISR s).2)).intEnabled = false) := by
  have hx : (portSET_INTERRUPT_MASK_FROM_ISR s).1 = intEnableBit s.DSTS := rfl
  have h01 : intEnableBit s.DSTS = 0 ∨ intEnableBit s.DSTS = 1 := by
    rw [c29x_intEnableBit_eq]; omega
  have hdis : (portSET_INTERRUPT_MASK_FROM_ISR s).2.intEnabled = false :=
    c29x_DISINT_intEnabled s
  have hen : s.intEnabled = true ↔ intEnableBit s.DSTS = 1 := by
    simp [State.intEnabled]
  have hoff : s.intEnabled = false ↔ intEnableBit s.DSTS = 0 := by
    rcases h01 with h | h <;> simp [State.intEnabled, h]
  refine ⟨hx, ?_, ?_, hdis, ?_, ?_, ?_⟩
  · rw [hx]; exact hen.symm
  · rw [hx]; exact hoff.symm
  · intro cs he
    rw [hx, hen.mp he]
    exact c29x_ENINT_intEnabled _
  · intro cs he
    rw [hx, hoff.mp he]
    rfl
  · intro cs he hlast
    rw [hx, hoff.mp he]
    exact c29x_maskRun_disabled cs _ hdis hlast

/-! ## U2x: recursive lock -/

namespace U2x

open Port

theorem u2x_setLockNesting_twice (s : State) (c d v w : Nat) :
    setLockNesting (setLockNesting s c d v) c d w = setLockNesting s c d w := by
  simp only [setLockNesting]
  congr 1
  funext c1 b1
  by_cases h : c1 = c ∧ b1 = d <;> simp [h]

theorem u2x_setLockNesting_get (s : State) (c d v : Nat) :
    (setLockNesting s c d v).uxLockNesting c d = v := by
  simp [setLockNesting]

theorem u2x_set1Loop_free (fuel : Nat) (d : Nat) (s : State) (hfree : s.mev d = false) :
    set1Loop (fuel + 1) d s
      = some { s with mev := fun b => if b = d then true else s.mev b } := by
  simp [set1Loop, hfree]

/-- A held bit is never taken, whatever the number of tries. -/
theorem u2x_set1Loop_held (fuel : Nat) (d : Nat) (s : State) (hheld : s.mev d = true) :
    set1Loop fuel d s = none := by
  induction fuel with
  | zero => rfl
  | succ n ih => simp [set1Loop, hheld, ih]

/-- The first acquire takes the hardware bit and sets the counter to 1. -/
theorem u2x_acquire_first (fuel : Nat) (c : Nat) (x : Int) (r : Regs) (s : State)
    (h0 : s.uxLockNesting c (lockBitPosition x) = 0)
    (hfree : s.mev (lockBitPosition x) = false) :
    vPortRecursiveLockAcquire (fuel + 1) c x r s
      = some (maskCycle r,
          setLockNesting
            { s with mev := fun b => if b = lockBitPosition x then true else s.mev b,
                     calls := s.calls ++ [Event.prvExclusiveLock (lockBitPosition x)] }
            c (lockBitPosition x) 1) := by
  have hw : (0 + 1) % WORD = 1 := by rw [WORD_eq]
  simp only [vPortRecursiveLockAcquire, h0, if_true, prvExclusiveLock, set1Loop, hfree,
    maskCycle, hw]

/-- A nested acquire only increments the counter. -/
theorem u2x_acquire_nested (fuel : Nat) (c : Nat) (x : Int) (r : Regs) (s : State) (n : Nat)
    (hn : s.uxLockNesting c (lockBitPosition x) = n) (h1 : n ≠ 0) :
    vPortRecursiveLockAcquire fuel c x r s
      = some (maskCycle r, setLockNesting s c (lockBitPosition x) ((n + 1) % WORD)) := by
  simp only [vPortRecursiveLockAcquire, hn, h1, if_false, maskCycle]

/-- A release at counter 0 stops in the assertion. -/
theorem u2x_release_zero (c : Nat) (x : Int) (r : Regs) (s : State)
    (h0 : s.uxLockNesting c (lockBitPosition x) = 0) :
    vPortRecursiveLockRelease c x r s = Outcome.asserted ((xPortSetInterruptMask r).2, s) := by
  simp [vPortRecursiveLockRelease, h0, configASSERT, Outcome.bind]

/-- A release that does not reach 0 only decrements the counter. -/
theorem u2x_release_nested (c : Nat) (x : Int) (r : Regs) (s : State) (n : Nat)
    (hn : s.uxLockNesting c (lockBitPosition x) = n) (h2 : 2 ≤ n) (hW : n < WORD) :
    vPortRecursiveLockRelease c x r s
      = Outcome.returned () (maskCycle r, setLockNesting s c (lockBitPosition x) (n - 1)) := by
  have hmod : (n + WORD - 1) % WORD = n - 1 := by
    have : n + WORD - 1 = (n - 1) + WORD := by omega
    rw [this, Nat.add_mod_right]
    exact Nat.mod_eq_of_lt (by omega)
  have hpos : 0 < n := by omega
  have hne : n - 1 ≠ 0 := by omega
  simp [vPortRecursiveLockRelease, hn, configASSERT, Outcome.bind, hmod, hpos, hne,
    u2x_setLockNesting_get, maskCycle]

/-- The release that reaches 0 clears the hardware bit. -/
theorem u2x_release_last (c : Nat) (x : Int) (r : Regs) (s : State) (n : Nat)
    (hn : s.uxLockNesting c (lockBitPosition x) = n) (h1 : n = 1) :
    vPortRecursiveLockRelease c x r s
      = Outcome.returned () (maskCycle r,
          prvExclusiveRelease (lockBitPosition x)
            (setLockNesting s c (lockBitPosition x) 0)) := by
  have hmod : (n + WORD - 1) % WORD = 0 := by
    subst h1; rw [Nat.add_sub_cancel_left]; exact Nat.mod_self _
  have hpos : 0 < n := by omega
  simp [vPortRecursiveLockRelease, hn, configASSERT, Outcome.bind, hmod, hpos,
    u2x_setLockNesting_get, maskCycle]

end U2x

namespace U2x

open Port

theorem u2x_setLockNesting_self (s : State) (c d n : Nat) (hn : s.uxLockNesting c d = n) :
    setLockNesting s c d n = s := by
  cases s
  simp only [setLockNesting] at hn ⊢
  congr 1
  funext c1 b1
  by_cases h : c1 = c ∧ b1 = d
  · simp [h, hn]
  · simp [h]

theorem u2x_lockRun_append (fuel c : Nat) (x : Int) (xs ys : List LockCall)
    (rs : Regs × State) :
    lockRun fuel c x (xs ++ ys) rs
      = (lockRun fuel c x xs rs).bind (lockRun fuel c x ys) := by
  induction xs generalizing rs with
  | nil => rfl
  | cons a as ih =>
    simp only [List.cons_append, lockRun]
    cases lockStep fuel c x a rs with
    | none => rfl
    | some rs1 => simpa using ih rs1

/-- Nested acquires by the holder, as long as the counter does not wrap. -/
theorem u2x_acquire_run (fuel c : Nat) (x : Int) (k : Nat) : ∀ (r : Regs) (s : State) (n : Nat),
    s.uxLockNesting c (lockBitPosition x) = n → 1 ≤ n → n + k < WORD →
    lockRun fuel c x (List.replicate k LockCall.acquire) (r, s)
      = some (maskCycle^[k] r, setLockNesting s c (lockBitPosition x) (n + k)) := by
  induction k with
  | zero =>
    intro r s n hn _ _
    simp only [List.replicate_zero, lockRun, Function.iterate_zero, id_eq, Nat.add_zero,
      u2x_setLockNesting_self s c _ n hn]
  | succ k ih =>
    intro r s n hn h1 hW
    have hstep := u2x_acquire_nested fuel c x r s n hn (by omega)
    rw [Nat.mod_eq_of_lt (by omega)] at hstep
    have hrest := ih (maskCycle r) (setLockNesting s c (lockBitPosition x) (n + 1)) (n + 1)
      (u2x_setLockNesting_get _ _ _ _) (by omega) (by omega)
    simp only [List.replicate_succ, lockRun, lockStep, hstep, hrest,
      u2x_setLockNesting_twice, Function.iterate_succ_apply]
    have : n + 1 + k = n + (k + 1) := by omega
    rw [this]

/-- Releases by the holder that do not reach 0. -/
theorem u2x_release_run (fuel c : Nat) (x : Int) (j : Nat) : ∀ (r : Regs) (s : State) (n : Nat),
    s.uxLockNesting c (lockBitPosition x) = n → j < n → n < WORD →
    lockRun fuel c x (List.replicate j LockCall.release) (r, s)
      = some (maskCycle^[j] r, setLockNesting s c (lockBitPosition x) (n - j)) := by
  induction j with
  | zero =>
    intro r s n hn _ _
    simp only [List.replicate_zero, lockRun, Function.iterate_zero, id_eq, Nat.sub_zero,
      u2x_setLockNesting_self s c _ n hn]
  | succ j ih =>
    intro r s n hn hj hW
    have hstep := u2x_release_nested c x r s n hn (by omega) hW
    have hrest := ih (maskCycle r) (setLockNesting s c (lockBitPosition x) (n - 1)) (n - 1)
      (u2x_setLockNesting_get _ _ _ _) (by omega) (by omega)
    simp only [List.replicate_succ, lockRun, lockStep, hstep, hrest,
      u2x_setLockNesting_twice, Function.iterate_succ_apply]
    have : n - 1 - j = n - (j + 1) := by omega
    rw [this]

end U2x

namespace U2x

open Port

/-- The states passed through by `N` acquires followed by `N` releases of one
core on one lock domain, starting with the domain free. -/
theorem u2x_lock_trace (fuel c : Nat) (x : Int) (r : Regs) (s : State) (N : Nat)
    (h0 : s.uxLockNesting c (lockBitPosition x) = 0)
    (hfree : s.mev (lockBitPosition x) = false) (h1 : 1 ≤ N) (hN : N < WORD) :
    (∀ k, 1 ≤ k → k ≤ N → ∃ r1,
      lockRun (fuel + 1) c x (List.replicate k LockCall.acquire) (r, s)
        = some (r1, setLockNesting
            { s with mev := fun b => if b = lockBitPosition x then true else s.mev b,
                     calls := s.calls ++ [Event.prvExclusiveLock (lockBitPosition x)] }
            c (lockBitPosition x) k)) ∧
    (∀ j, j < N → ∃ r1,
      lockRun (fuel + 1) c x
          (List.replicate N LockCall.acquire ++ List.replicate j LockCall.release) (r, s)
        = some (r1, setLockNesting
            { s with mev := fun b => if b = lockBitPosition x then true else s.mev b,
                     calls := s.calls ++ [Event.prvExclusiveLock (lockBitPosition x)] }
            c (lockBitPosition x) (N - j))) ∧
    (∃ r1,
      lockRun (fuel + 1) c x
          (List.replicate N LockCall.acquire ++ List.replicate N LockCall.release) (r, s)
        = some (r1, prvExclusiveRelease (lockBitPosition x) (setLockNesting
            { s with mev := fun b => if b = lockBitPosition x then true else s.mev b,
                     calls := s.calls ++ [Event.prvExclusiveLock (lockBitPosition x)] }
            c (lockBitPosition x) 0))) := by
  have henter : ∀ k, 1 ≤ k → k ≤ N → ∃ r1,
      lockRun (fuel + 1) c x (List.replicate k LockCall.acquire) (r, s)
        = some (r1, setLockNesting
            { s with mev := fun b => if b = lockBitPosition x then true else s.mev b,
                     calls := s.calls ++ [Event.prvExclusiveLock (lockBitPosition x)] }
            c (lockBitPosition x) k) := by
    intro k hk1 hkN
    obtain ⟨k1, rfl⟩ : ∃ k1, k = k1 + 1 := ⟨k - 1, by omega⟩
    have hfirst := u2x_acquire_first fuel c x r s h0 hfree
    have hrest := u2x_acquire_run (fuel + 1) c x k1 (maskCycle r) _ 1
      (u2x_setLockNesting_get
        { s with mev := fun b => if b = lockBitPosition x then true else s.mev b,
                 calls := s.calls ++ [Event.prvExclusiveLock (lockBitPosition x)] }
        c (lockBitPosition x) 1) (le_refl 1) (by omega)
    refine ⟨maskCycle^[k1] (maskCycle r), ?_⟩
    simp only [List.replicate_succ, lockRun, lockStep, hfirst, hrest, u2x_setLockNesting_twice,
      Nat.add_comm 1 k1]
  have hexit : ∀ j, j < N → ∃ r1,
      lockRun (fuel + 1) c x
          (List.replicate N LockCall.acquire ++ List.replicate j LockCall.release) (r, s)
        = some (r1, setLockNesting
            { s with mev := fun b => if b = lockBitPosition x then true else s.mev b,
                     calls := s.calls ++ [Event.prvExclusiveLock (lockBitPosition x)] }
            c (lockBitPosition x) (N - j)) := by
    intro j hj
    obtain ⟨r1, hr1⟩ := henter N h1 (le_refl N)
    have hrel := u2x_release_run (fuel + 1) c x j r1 _ N
      (u2x_setLockNesting_get
        { s with mev := fun b => if b = lockBitPosition x then true else s.mev b,
                 calls := s.calls ++ [Event.prvExclusiveLock (lockBitPosition x)] }
        c (lockBitPosition x) N) hj hN
    refine ⟨maskCycle^[j] r1, ?_⟩
    rw [u2x_lockRun_append, hr1, Option.some_bind, hrel, u2x_setLockNesting_twice]
  refine ⟨henter, hexit, ?_⟩
  obtain ⟨M, rfl⟩ : ∃ M, N = M + 1 := ⟨N - 1, by omega⟩
  obtain ⟨r1, hr1⟩ := hexit M (by omega)
  have hsplit : List.replicate (M + 1) LockCall.acquire ++ List.replicate (M + 1) LockCall.release
      = (List.replicate (M + 1) LockCall.acquire ++ List.replicate M LockCall.release)
          ++ [LockCall.release] := by
    rw [List.append_assoc, ← List.replicate_succ']
  have hone : M + 1 - M = 1 := by omega
  rw [hone] at hr1
  have hlast := u2x_release_last c x r1 _ 1
    (u2x_setLockNesting_get
      { s with mev := fun b => if b = lockBitPosition x then true else s.mev b,
               calls := s.calls ++ [Event.prvExclusiveLock (lockBitPosition x)] }
      c (lockBitPosition x) 1) rfl
  refine ⟨maskCycle r1, ?_⟩
  rw [hsplit, u2x_lockRun_append, hr1, Option.some_bind]
  simp only [lockRun, lockStep, hlast, u2x_setLockNesting_twice]

/-- After `2 ^ 32` acquires in a row the 32-bit counter is back at 0 while the
hardware bit is still held. -/
theorem u2x_acquire_wraps (fuel c : Nat) (x : Int) (r : Regs) (s : State)
    (h0 : s.uxLockNesting c (lockBitPosition x) = 0)
    (hfree : s.mev (lockBitPosition x) = false) :
    ∃ r1 s1, lockRun (fuel + 1) c x (List.replicate WORD LockCall.acquire) (r, s)
        = some (r1, s1) ∧
      s1.uxLockNesting c (lockBitPosition x) = 0 ∧ s1.mev (lockBitPosition x) = true ∧
      (∀ c1 d1, (c1 ≠ c ∨ d1 ≠ lockBitPosition x) →
        s1.uxLockNesting c1 d1 = s.uxLockNesting c1 d1) ∧
      (∀ d1, d1 ≠ lockBitPosition x → s1.mev d1 = s.mev d1) := by
  obtain ⟨M, hM⟩ : ∃ M, WORD = M + 1 := ⟨WORD - 1, by rw [WORD_eq]⟩
  have hMpos : 1 ≤ M := by rw [WORD_eq] at hM; omega
  obtain ⟨henter, -, -⟩ := u2x_lock_trace fuel c x r s M h0 hfree hMpos (by omega)
  obtain ⟨r1, hr1⟩ := henter M hMpos (le_refl M)
  have hlast := u2x_acquire_nested (fuel + 1) c x r1 _ M
    (u2x_setLockNesting_get
      { s with mev := fun b => if b = lockBitPosition x then true else s.mev b,
               calls := s.calls ++ [Event.prvExclusiveLock (lockBitPosition x)] }
      c (lockBitPosition x) M) (by omega)
  have hwrap : (M + 1) % WORD = 0 := by rw [← hM]; exact Nat.mod_self _
  rw [hwrap, u2x_setLockNesting_twice] at hlast
  refine ⟨maskCycle r1, setLockNesting
      { s with mev := fun b => if b = lockBitPosition x then true else s.mev b,
               calls := s.calls ++ [Event.prvExclusiveLock (lockBitPosition x)] }
      c (lockBitPosition x) 0, ?_, ?_, ?_, ?_, ?_⟩
  · rw [hM, List.replicate_succ', u2x_lockRun_append, hr1, Option.some_bind]
    simp only [lockRun, lockStep, hlast]
  · exact u2x_setLockNesting_get _ _ _ _
  · simp [setLockNesting]
  · intro c1 d1 hne
    have : ¬ (c1 = c ∧ d1 = lockBitPosition x) := by
      rintro ⟨hc, hd⟩
      rcases hne with hne | hne
      · exact hne hc
      · exact hne hd
    simp [setLockNesting, this]
  · intro d1 hne
    simp [setLockNesting, hne]

end U2x

open Port U2x in
/-- C14, as stated, fails for `N = 2 ^ 32`: `uxLockNesting` is a 32-bit
counter, so after the `2 ^ 32`-th `vPortRecursiveLockAcquire` of core 0 on the
task domain it holds 0 and not `2 ^ 32`. -/
theorem u2x_lock_counter_wraps :
    ∃ r1 s1, lockRun 1 0 0 (List.replicate (2 ^ 32) LockCall.acquire)
        (coreRegs 0, initialState) = some (r1, s1) ∧
      s1.uxLockNesting 0 0 = 0 ∧ s1.mev 0 = true ∧ (0 : Nat) ≠ 2 ^ 32 := by
  obtain ⟨r1, s1, hrun, hcnt, hbit, -, -⟩ :=
    u2x_acquire_wraps 0 0 0 (coreRegs 0) initialState rfl rfl
  exact ⟨r1, s1, hrun, hcnt, hbit, by norm_num⟩

open Port U2x in
/-- C14, amended. U2x recursive lock: for every core id
`c < configNUMBER_OF_CORES`, every domain `d` (`d = 1` when
`xFromIsr == pdTRUE`, else 0) and every `N` with `1 ≤ N < 2 ^ 32`, starting
with `uxLockNesting[c][d] = 0` and hardware bit `d` free, `N` calls of
`vPortRecursiveLockAcquire( c, xFromIsr )` followed by `N` calls of
`vPortRecursiveLockRelease( c, xFromIsr )` all return;
`prvExclusiveLock( d )` is called exactly once, in the first acquire, and
`prvExclusiveRelease( d )` exactly once, in the `N`-th release; the hardware
bit is held after every call in between and free at the end; the counter is
`k` after the `k`-th acquire and `N - j` after the `j`-th release. -/
theorem u2x_recursive_lock_nesting (cfg : U2x.Config) (fuel c : Nat) (xFromIsr : Int)
    (r : U2x.Regs) (s : U2x.State) (N : Nat)
    (hc : c < cfg.configNUMBER_OF_CORES)
    (h0 : s.uxLockNesting c (lockBitPosition xFromIsr) = 0)
    (hfree : s.mev (lockBitPosition xFromIsr) = false) (h1 : 1 ≤ N) (hN : N < 2 ^ 32) :
    (lockBitPosition xFromIsr = if xFromIsr = pdTRUE then 1 else 0) ∧
    (∀ k, 1 ≤ k → k ≤ N → ∃ r1 s1,
      lockRun (fuel + 1) c xFromIsr (List.replicate k LockCall.acquire) (r, s) = some (r1, s1) ∧
      s1.uxLockNesting c (lockBitPosition xFromIsr) = k ∧
      s1.mev (lockBitPosition xFromIsr) = true ∧
      lockCalls s1 (lockBitPosition xFromIsr) = lockCalls s (lockBitPosition xFromIsr) + 1 ∧
      releaseCalls s1 (lockBitPosition xFromIsr) = releaseCalls s (lockBitPosition xFromIsr)) ∧
    (∀ j, 1 ≤ j → j < N → ∃ r1 s1,
      lockRun (fuel + 1) c xFromIsr
        (List.replicate N LockCall.acquire ++ List.replicate j LockCall.release) (r, s)
        = some (r1, s1) ∧
      s1.uxLockNesting c (lockBitPosition xFromIsr) = N - j ∧
      s1.mev (lockBitPosition xFromIsr) = true ∧
      lockCalls s1 (lockBitPosition xFromIsr) = lockCalls s (lockBitPosition xFromIsr) + 1 ∧
      releaseCalls s1 (lockBitPosition xFromIsr) = releaseCalls s (lockBitPosition xFromIsr)) ∧
    (∃ r1 s1,
      lockRun (fuel + 1) c xFromIsr
        (List.replicate N LockCall.acquire ++ List.replicate N LockCall.release) (r, s)
        = some (r1, s1) ∧
      s1.uxLockNesting c (lockBitPosition xFromIsr) = 0 ∧
      s1.mev (lockBitPosition xFromIsr) = false ∧
      lockCalls s1 (lockBitPosition xFromIsr) = lockCalls s (lockBitPosition xFromIsr) + 1 ∧
      releaseCalls s1 (lockBitPosition xFromIsr)
        = releaseCalls s (lockBitPosition xFromIsr) + 1) := by
  have _ := hc
  obtain ⟨t1, t2, t3⟩ := u2x_lock_trace fuel c xFromIsr r s N h0 hfree h1 hN
  refine ⟨rfl, ?_, ?_, ?_⟩
  · intro k hk1 hkN
    obtain ⟨r1, hr1⟩ := t1 k hk1 hkN
    refine ⟨r1, _, hr1, u2x_setLockNesting_get _ _ _ _, ?_, ?_, ?_⟩
    · simp [setLockNesting]
    · simp [lockCalls, setLockNesting, List.count_append]
    · simp [releaseCalls, setLockNesting, List.count_append]
  · intro j _ hj
    obtain ⟨r1, hr1⟩ := t2 j hj
    refine ⟨r1, _, hr1, u2x_setLockNesting_get _ _ _ _, ?_, ?_, ?_⟩
    · simp [setLockNesting]
    · simp [lockCalls, setLockNesting, List.count_append]
    · simp [releaseCalls, setLockNesting, List.count_append]
  · obtain ⟨r1, hr1⟩ := t3
    refine ⟨r1, _, hr1, ?_, ?_, ?_, ?_⟩
    · simp [prvExclusiveRelease, setLockNesting]
    · simp [prvExclusiveRelease]
    · simp [lockCalls, prvExclusiveRelease, setLockNesting, List.count_append]
    · simp [releaseCalls, prvExclusiveRelease, setLockNesting, List.count_append]

open Port U2x in
/-- Core 1 of a two-core system nests the interrupt-domain lock three times,
from the initial state. -/
theorem u2x_recursive_lock_nesting_witness :
    ∃ r1 s1,
      lockRun 1 1 pdTRUE
        (List.replicate 3 LockCall.acquire ++ List.replicate 3 LockCall.release)
        (coreRegs 1, initialState) = some (r1, s1) ∧
      s1.uxLockNesting 1 1 = 0 ∧ s1.mev 1 = false ∧
      lockCalls s1 1 = 1 ∧ releaseCalls s1 1 = 1 := by
  obtain ⟨r1, s1, h, a, b, c, d⟩ :=
    (u2x_recursive_lock_nesting dualCore 0 1 pdTRUE (coreRegs 1) initialState 3
      (by decide) rfl rfl (by decide) (by norm_num)).2.2.2
  exact ⟨r1, s1, h, a, b, c, d⟩

open Port U2x in
/-- C15. U2x `vPortRecursiveLockRelease( c, xFromIsr )` called while
`uxLockNesting[c][d]` is 0 stops in `configASSERT`: at the failed assertion
the shared state is the state of the call, so the counter has not been
decremented (it does not wrap) and no hardware bit has been cleared (a lock
held by another core stays held); only the interrupt mask has been set. -/
theorem u2x_release_unmatched_asserts (c : Nat) (xFromIsr : Int) (r : U2x.Regs)
    (s : U2x.State) (h0 : s.uxLockNesting c (lockBitPosition xFromIsr) = 0) :
    vPortRecursiveLockRelease c xFromIsr r s
      = Outcome.asserted ((xPortSetInterruptMask r).2, s) ∧
    lockStep 1 c xFromIsr LockCall.release (r, s) = none := by
  have h := u2x_release_zero c xFromIsr r s h0
  refine ⟨h, ?_⟩
  simp only [lockStep, h]

open Port U2x in
/-- Core 0 releases the task-domain lock in the initial state, where no lock
is held. -/
theorem u2x_release_unmatched_asserts_witness :
    vPortRecursiveLockRelease 0 pdFALSE (coreRegs 0) initialState
      = Outcome.asserted ((xPortSetInterruptMask (coreRegs 0)).2, initialState) :=
  (u2x_release_unmatched_asserts 0 pdFALSE (coreRegs 0) initialState rfl).1

namespace U2x

open Port

theorem u2x_lockBitPosition_lt (x : Int) : lockBitPosition x < 2 := by
  unfold lockBitPosition
  split_ifs <;> omega

/-- What a returning `vPortRecursiveLockAcquire` has done. -/
theorem u2x_acquire_inv (fuel c : Nat) (x : Int) (r r1 : Regs) (s s1 : State)
    (h : vPortRecursiveLockAcquire fuel c x r s = some (r1, s1)) :
    (s.uxLockNesting c (lockBitPosition x) = 0 ∧ s.mev (lockBitPosition x) = false ∧
      s1 = setLockNesting
        { s with mev := fun b => if b = lockBitPosition x then true else s.mev b,
                 calls := s.calls ++ [Event.prvExclusiveLock (lockBitPosition x)] }
        c (lockBitPosition x) 1) ∨
    (s.uxLockNesting c (lockBitPosition x) ≠ 0 ∧
      s1 = setLockNesting s c (lockBitPosition x)
        ((s.uxLockNesting c (lockBitPosition x) + 1) % WORD)) := by
  by_cases h0 : s.uxLockNesting c (lockBitPosition x) = 0
  · left
    by_cases hheld : s.mev (lockBitPosition x) = true
    · have hnone : vPortRecursiveLockAcquire fuel c x r s = none := by
        have := u2x_set1Loop_held fuel (lockBitPosition x)
          { s with calls := s.calls ++ [Event.prvExclusiveLock (lockBitPosition x)] } hheld
        simp only [vPortRecursiveLockAcquire, h0, if_true, prvExclusiveLock, this]
      rw [hnone] at h
      exact absurd h (by simp)
    · have hfree : s.mev (lockBitPosition x) = false := by
        cases hm : s.mev (lockBitPosition x) with
        | true => exact absurd hm hheld
        | false => rfl
      cases fuel with
      | zero =>
        have hnone : vPortRecursiveLockAcquire 0 c x r s = none := by
          simp only [vPortRecursiveLockAcquire, h0, if_true, prvExclusiveLock, set1Loop]
        rw [hnone] at h
        exact absurd h (by simp)
      | succ f =>
        rw [u2x_acquire_first f c x r s h0 hfree] at h
        simp only [Option.some.injEq, Prod.mk.injEq] at h
        exact ⟨h0, hfree, h.2.symm⟩
  · right
    rw [u2x_acquire_nested fuel c x r s _ rfl h0] at h
    simp only [Option.some.injEq, Prod.mk.injEq] at h
    exact ⟨h0, h.2.symm⟩

/-- What a returning `vPortRecursiveLockRelease` has done. -/
theorem u2x_release_inv (c : Nat) (x : Int) (r r1 : Regs) (s s1 : State)
    (hW : s.uxLockNesting c (lockBitPosition x) < WORD)
    (h : vPortRecursiveLockRelease c x r s = Outcome.returned () (r1, s1)) :
    (s.uxLockNesting c (lockBitPosition x) = 1 ∧
      s1 = prvExclusiveRelease (lockBitPosition x)
        (setLockNesting s c (lockBitPosition x) 0)) ∨
    (2 ≤ s.uxLockNesting c (lockBitPosition x) ∧
      s1 = setLockNesting s c (lockBitPosition x)
        (s.uxLockNesting c (lockBitPosition x) - 1)) := by
  rcases Nat.lt_or_ge (s.uxLockNesting c (lockBitPosition x)) 2 with hlt | hge
  · rcases Nat.lt_or_ge (s.uxLockNesting c (lockBitPosition x)) 1 with hz | ho
    · have h0 : s.uxLockNesting c (lockBitPosition x) = 0 := by omega
      rw [u2x_release_zero c x r s h0] at h
      exact absurd h (by simp)
    · have h1 : s.uxLockNesting c (lockBitPosition x) = 1 := by omega
      left
      rw [u2x_release_last c x r s _ rfl h1] at h
      simp only [Outcome.returned.injEq, Prod.mk.injEq, true_and] at h
      exact ⟨h1, h.2.symm⟩
  · right
    rw [u2x_release_nested c x r s _ rfl hge hW] at h
    simp only [Outcome.returned.injEq, Prod.mk.injEq, true_and] at h
    exact ⟨hge, h.2.symm⟩

end U2x

namespace U2x

open Port

/-- A change of the holder's counter between two non-zero values keeps the
invariant. -/
theorem u2x_inv_keep (s : State) (c d v : Nat)
    (hinv : LockInvariant s ∧ ∀ c1 d1, s.uxLockNesting c1 d1 < WORD)
    (hold : s.uxLockNesting c d > 0) (hv : 0 < v) (hvW : v < WORD) :
    LockInvariant (setLockNesting s c d v) ∧
      ∀ c1 d1, (setLockNesting s c d v).uxLockNesting c1 d1 < WORD := by
  obtain ⟨hI, hB⟩ := hinv
  have hpos : ∀ c1 d1, (setLockNesting s c d v).uxLockNesting c1 d1 > 0 ↔
      s.uxLockNesting c1 d1 > 0 := by
    intro c1 d1
    by_cases h : c1 = c ∧ d1 = d
    · obtain ⟨rfl, rfl⟩ := h
      simp [setLockNesting, hv, hold]
    · simp [setLockNesting, h]
  constructor
  · intro d1 hd1
    obtain ⟨huniq, hbit⟩ := hI d1 hd1
    constructor
    · intro c1 c2 h1 h2
      exact huniq c1 c2 ((hpos c1 d1).mp h1) ((hpos c2 d1).mp h2)
    · have hm : (setLockNesting s c d v).mev d1 = s.mev d1 := rfl
      rw [hm, hbit]
      constructor
      · rintro ⟨c1, hc1⟩; exact ⟨c1, (hpos c1 d1).mpr hc1⟩
      · rintro ⟨c1, hc1⟩; exact ⟨c1, (hpos c1 d1).mp hc1⟩
  · intro c1 d1
    by_cases h : c1 = c ∧ d1 = d
    · simp [setLockNesting, h, hvW]
    · simp only [setLockNesting, h, if_false]
      exact hB c1 d1

/-- Taking a free lock keeps the invariant. -/
theorem u2x_inv_take (s : State) (c d : Nat)
    (hinv : LockInvariant s ∧ ∀ c1 d1, s.uxLockNesting c1 d1 < WORD)
    (hd : d < 2) (hfree : s.mev d = false) :
    LockInvariant (setLockNesting
        { s with mev := fun b => if b = d then true else s.mev b,
                 calls := s.calls ++ [Event.prvExclusiveLock d] } c d 1) ∧
      ∀ c1 d1, (setLockNesting
        { s with mev := fun b => if b = d then true else s.mev b,
                 calls := s.calls ++ [Event.prvExclusiveLock d] } c d 1).uxLockNesting c1 d1
        < WORD := by
  obtain ⟨hI, hB⟩ := hinv
  have hnone : ∀ c1, s.uxLockNesting c1 d = 0 := by
    intro c1
    by_contra hne
    have : s.mev d = true := ((hI d hd).2).mpr ⟨c1, Nat.pos_of_ne_zero hne⟩
    rw [hfree] at this
    exact absurd this (by simp)
  constructor
  · intro d1 hd1
    obtain ⟨huniq, hbit⟩ := hI d1 hd1
    by_cases hdd : d1 = d
    · subst hdd
      constructor
      · intro c1 c2 h1 h2
        have e1 : c1 = c := by
          by_contra hne
          simp [setLockNesting, hne, hnone c1] at h1
        have e2 : c2 = c := by
          by_contra hne
          simp [setLockNesting, hne, hnone c2] at h2
        rw [e1, e2]
      · simp only [setLockNesting, if_true, true_iff]
        exact ⟨c, by simp⟩
    · have hn : ∀ c1, (setLockNesting
          { s with mev := fun b => if b = d then true else s.mev b,
                   calls := s.calls ++ [Event.prvExclusiveLock d] } c d 1).uxLockNesting c1 d1
          = s.uxLockNesting c1 d1 := by
        intro c1
        simp [setLockNesting, hdd]
      constructor
      · intro c1 c2 h1 h2
        rw [hn] at h1 h2
        exact huniq c1 c2 h1 h2
      · simp only [hn]
        simp only [setLockNesting, hdd, if_false]
        exact hbit
  · intro c1 d1
    by_cases h : c1 = c ∧ d1 = d
    · simp only [setLockNesting, h, and_self, if_true]
      rw [WORD_eq]; omega
    · simp only [setLockNesting, h, if_false]
      exact hB c1 d1

/-- Giving the lock back keeps the invariant. -/
theorem u2x_inv_drop (s : State) (c d : Nat)
    (hinv : LockInvariant s ∧ ∀ c1 d1, s.uxLockNesting c1 d1 < WORD)
    (hd : d < 2) (hold : s.uxLockNesting c d > 0) :
    LockInvariant (prvExclusiveRelease d (setLockNesting s c d 0)) ∧
      ∀ c1 d1, (prvExclusiveRelease d (setLockNesting s c d 0)).uxLockNesting c1 d1
        < WORD := by
  obtain ⟨hI, hB⟩ := hinv
  have hother : ∀ c1, c1 ≠ c → s.uxLockNesting c1 d = 0 := by
    intro c1 hne
    by_contra hpos
    exact hne ((hI d hd).1 c1 c (Nat.pos_of_ne_zero hpos) hold)
  have hzero : ∀ c1, (prvExclusiveRelease d (setLockNesting s c d 0)).uxLockNesting c1 d = 0 := by
    intro c1
    by_cases h : c1 = c
    · simp [prvExclusiveRelease, setLockNesting, h]
    · simp [prvExclusiveRelease, setLockNesting, h, hother c1 h]
  constructor
  · intro d1 hd1
    obtain ⟨huniq, hbit⟩ := hI d1 hd1
    by_cases hdd : d1 = d
    · subst hdd
      constructor
      · intro c1 c2 h1 _
        rw [hzero c1] at h1
        exact absurd h1 (by omega)
      · constructor
        · intro h
          simp [prvExclusiveRelease] at h
        · rintro ⟨c1, hc1⟩
          rw [hzero c1] at hc1
          exact absurd hc1 (by omega)
    · have hn : ∀ c1, (prvExclusiveRelease d (setLockNesting s c d 0)).uxLockNesting c1 d1
          = s.uxLockNesting c1 d1 := by
        intro c1
        simp [prvExclusiveRelease, setLockNesting, hdd]
      constructor
      · intro c1 c2 h1 h2
        rw [hn] at h1 h2
        exact huniq c1 c2 h1 h2
      · simp only [hn]
        simp only [prvExclusiveRelease, setLockNesting, hdd, if_false]
        exact hbit
  · intro c1 d1
    by_cases h : c1 = c ∧ d1 = d
    · simp only [prvExclusiveRelease, setLockNesting, h, and_self, if_true]
      rw [WORD_eq]; omega
    · simp only [prvExclusiveRelease, setLockNesting, h, if_false]
      exact hB c1 d1

end U2x

namespace U2x

open Port

/-- Acquires made one after the other by one core are lock steps. -/
theorem u2x_reachable_of_acquires (cfg : Config) (fuel c : Nat) (x : Int)
    (hc : c < cfg.configNUMBER_OF_CORES) (k : Nat) : ∀ (r r1 : Regs) (s s1 : State),
    LockReachable cfg s →
    lockRun fuel c x (List.replicate k LockCall.acquire) (r, s) = some (r1, s1) →
    LockReachable cfg s1 := by
  induction k with
  | zero =>
    intro r r1 s s1 hs h
    simp only [List.replicate_zero, lockRun, Option.some.injEq, Prod.mk.injEq] at h
    rw [← h.2]
    exact hs
  | succ k ih =>
    intro r r1 s s1 hs h
    simp only [List.replicate_succ, lockRun, lockStep] at h
    cases hstep : vPortRecursiveLockAcquire fuel c x r s with
    | none => rw [hstep] at h; exact absurd h (by simp)
    | some rs =>
      obtain ⟨r2, s2⟩ := rs
      rw [hstep] at h
      exact ih r2 r1 s2 s1
        (LockReachable.step s s2 hs (LockTransition.acquire s s2 c x r r2 fuel hc hstep)) h

theorem u2x_initial_invariant :
    LockInvariant initialState ∧ ∀ c1 d1, initialState.uxLockNesting c1 d1 < WORD := by
  constructor
  · intro d _
    constructor
    · intro c1 c2 h1 _
      simp [initialState] at h1
    · simp [initialState]
  · intro c1 d1
    simp only [initialState]
    rw [WORD_eq]; omega

/-- A lock step that keeps the nesting depth below `2 ^ 32` preserves the
invariant. -/
theorem u2x_bounded_step_invariant (cfg : Config) (s s1 : State)
    (hinv : LockInvariant s ∧ ∀ c1 d1, s.uxLockNesting c1 d1 < WORD)
    (hstep : BoundedLockTransition cfg s s1) :
    LockInvariant s1 ∧ ∀ c1 d1, s1.uxLockNesting c1 d1 < WORD := by
  cases hstep with
  | acquire c x r r1 fuel _ hbound hacq =>
    rcases u2x_acquire_inv fuel c x r r1 s s1 hacq with ⟨_, hfree, hs1⟩ | ⟨hne, hs1⟩
    · rw [hs1]
      exact u2x_inv_take s c _ hinv (u2x_lockBitPosition_lt x) hfree
    · rw [hs1, Nat.mod_eq_of_lt hbound]
      exact u2x_inv_keep s c _ _ hinv (Nat.pos_of_ne_zero hne) (by omega) hbound
  | release c x r r1 _ hne hrel =>
    rcases u2x_release_inv c x r r1 s s1 (hinv.2 _ _) hrel with ⟨h1, hs1⟩ | ⟨h2, hs1⟩
    · rw [hs1]
      exact u2x_inv_drop s c _ hinv (u2x_lockBitPosition_lt x) (by omega)
    · rw [hs1]
      exact u2x_inv_keep s c _ _ hinv (by omega) (by omega)
        (lt_of_le_of_lt (Nat.sub_le _ _) (hinv.2 _ _))

end U2x

open Port U2x in
/-- C16, as stated, fails: `2 ^ 32` acquires of the task-domain lock by core 0
are `2 ^ 32` atomic steps of the relation; in the state they reach the
hardware bit 0 is set although no core has a non-zero counter on domain 0. -/
theorem u2x_lock_invariant_broken_by_wrap :
    ∃ s1, LockReachable dualCore s1 ∧ s1.mev 0 = true ∧
      (∀ c, s1.uxLockNesting c 0 = 0) ∧ ¬ LockInvariant s1 := by
  obtain ⟨r1, s1, hrun, hcnt, hbit, hothers, -⟩ :=
    u2x_acquire_wraps 0 0 0 (coreRegs 0) initialState rfl rfl
  have hreach : LockReachable dualCore s1 :=
    u2x_reachable_of_acquires dualCore 1 0 0 (by decide) WORD (coreRegs 0) r1 initialState s1
      LockReachable.init hrun
  have hzero : ∀ c, s1.uxLockNesting c 0 = 0 := by
    intro c
    by_cases hc : c = 0
    · rw [hc]; exact hcnt
    · rw [hothers c 0 (Or.inl hc)]; rfl
  refine ⟨s1, hreach, hbit, hzero, ?_⟩
  intro hinv
  obtain ⟨c, hc⟩ := ((hinv 0 (by decide)).2).mp hbit
  rw [hzero c] at hc
  exact absurd hc (by omega)

open Port U2x in
/-- C16, amended. U2x recursive lock mutual exclusion, as an invariant of the
step relation in which each `vPortRecursiveLockAcquire` /
`vPortRecursiveLockRelease` by a core is one atomic step, an acquire that
needs a hardware bit that is held is not enabled, an acquire is taken only
while the counter it increments is below `2 ^ 32 - 1`, and a release is only
taken with a non-zero counter: in every reachable state, for each domain `d`
in `{0, 1}` at most one core `c` has `uxLockNesting[c][d] > 0`, and hardware
bit `d` is set if and only if such a core exists. -/
theorem u2x_lock_mutual_exclusion (cfg : U2x.Config) (s : U2x.State)
    (h : BoundedLockReachable cfg s) :
    ∀ d, d < 2 →
      (∀ c1 c2, s.uxLockNesting c1 d > 0 → s.uxLockNesting c2 d > 0 → c1 = c2) ∧
      (s.mev d = true ↔ ∃ c, s.uxLockNesting c d > 0) := by
  have hstrong : LockInvariant s ∧ ∀ c1 d1, s.uxLockNesting c1 d1 < WORD := by
    induction h with
    | init => exact u2x_initial_invariant
    | step s0 s1 _ hstep ih => exact u2x_bounded_step_invariant cfg s0 s1 ih hstep
  exact hstrong.1

open Port U2x in
/-- The state after core 0 has taken the task-domain lock once. -/
theorem u2x_lock_mutual_exclusion_witness :
    LockInvariant (setLockNesting
      { initialState with mev := fun b => if b = 0 then true else initialState.mev b,
                          calls := initialState.calls ++ [Event.prvExclusiveLock 0] }
      0 0 1) :=
  u2x_lock_mutual_exclusion dualCore _
    (BoundedLockReachable.step initialState _ BoundedLockReachable.init
      (BoundedLockTransition.acquire initialState _ 0 0 (coreRegs 0) (maskCycle (coreRegs 0)) 1
        (by decide) (by rw [WORD_eq]; decide)
        (u2x_acquire_first 0 0 0 (coreRegs 0) initialState rfl rfl)))

/-! ## AURIX: reclaiming the context save areas of a deleted task -/

namespace AURIX

open Port

theorem aurix_mask_eq_mod (x : Nat) : x &&& portCSA_FCX_MASK = x % 1048576 := by
  have e : portCSA_FCX_MASK = 2 ^ 20 - 1 := by unfold portCSA_FCX_MASK; norm_num
  rw [e, Nat.and_pow_two_sub_one_eq_mod]

/-- A link word names no area exactly when its address bits are 0. -/
theorem aurix_csa_null_iff (x : Nat) :
    pxPortCsaToAddress x = NULL ↔ x &&& portCSA_FCX_MASK = 0 := by
  rw [aurix_mask_eq_mod, aurix_csa_address_eq]
  unfold NULL
  omega

/-- Reducing a link word to its address bits keeps the area it names. -/
theorem aurix_csa_masked (x : Nat) :
    pxPortCsaToAddress (x &&& portCSA_FCX_MASK) = pxPortCsaToAddress x := by
  apply aurix_csa_address_low20
  rw [aurix_mask_eq_mod]
  omega

/-- A chain is determined by the link words of its areas. -/
theorem aurix_chain_congr (m m1 : Mem Nat) (cs : List Nat) : ∀ link,
    (∀ a ∈ cs, m1 a = m a) → Chain m link cs → Chain m1 link cs := by
  induction cs with
  | nil => intro link _ h; exact h
  | cons c cs ih =>
    intro link hagree h
    obtain ⟨h1, h2, h3⟩ := h
    refine ⟨h1, h2, ?_⟩
    rw [hagree c (List.mem_cons_self _ _)]
    exact ih (m c) (fun a ha => hagree a (List.mem_cons_of_mem _ ha)) h3

/-- A chain depends on its starting link word through the area it names. -/
theorem aurix_chain_start (m : Mem Nat) (cs : List Nat) (l1 l2 : Nat)
    (h : pxPortCsaToAddress l1 = pxPortCsaToAddress l2) (hc : Chain m l1 cs) :
    Chain m l2 cs := by
  cases cs with
  | nil => simp only [Chain] at hc ⊢; rw [← h]; exact hc
  | cons c cs => exact ⟨h ▸ hc.1, hc.2.1, hc.2.2⟩

/-- The walk of `vPortReclaimCSA` over a chain of distinct areas that starts
at the area `p`: it stops at the last area, having reduced the link word of
every earlier area to its address bits. -/
theorem aurix_reclaimWalk_chain (rest : List Nat) : ∀ (p : Nat) (m : Mem Nat) (fuel : Nat),
    Chain m (m p) rest → (p :: rest).Nodup → rest.length + 1 ≤ fuel →
    ∃ m1, reclaimWalk fuel m p = some (m1, (p :: rest).getLast (List.cons_ne_nil _ _)) ∧
      ∀ a, m1 a = if a ∈ (p :: rest).dropLast then m a &&& portCSA_FCX_MASK else m a := by
  induction rest with
  | nil =>
    intro p m fuel hchain _ hfuel
    obtain ⟨f, rfl⟩ : ∃ f, fuel = f + 1 := ⟨fuel - 1, by simp at hfuel; omega⟩
    have hz : m p &&& portCSA_FCX_MASK = 0 := (aurix_csa_null_iff _).mp hchain
    refine ⟨m, ?_, ?_⟩
    · simp [reclaimWalk, idx, hz]
    · intro a; simp
  | cons c rest ih =>
    intro p m fuel hchain hnd hfuel
    obtain ⟨f, rfl⟩ : ∃ f, fuel = f + 1 := ⟨fuel - 1, by simp at hfuel; omega⟩
    obtain ⟨hc1, hc2, hc3⟩ := hchain
    have hnz : m p &&& portCSA_FCX_MASK ≠ 0 := by
      intro hz
      have := (aurix_csa_null_iff _).mpr hz
      rw [hc1] at this
      exact hc2 this
    have hnd' : (c :: rest).Nodup := (List.nodup_cons.mp hnd).2
    have hp : p ∉ c :: rest := (List.nodup_cons.mp hnd).1
    have hpc : c ≠ p := fun h => hp (h ▸ List.mem_cons_self _ _)
    have hagree : ∀ a ∈ rest, (m.write p (m p &&& portCSA_FCX_MASK)) a = m a := by
      intro a ha
      exact Mem.write_other _ _ _ _ (fun h => hp (h ▸ List.mem_cons_of_mem _ ha))
    have hmc : (m.write p (m p &&& portCSA_FCX_MASK)) c = m c := Mem.write_other _ _ _ _ hpc
    have hchain1 : Chain (m.write p (m p &&& portCSA_FCX_MASK))
        ((m.write p (m p &&& portCSA_FCX_MASK)) c) rest := by
      rw [hmc]
      exact aurix_chain_congr m _ rest (m c) hagree hc3
    obtain ⟨m1, hwalk, hm1⟩ := ih c (m.write p (m p &&& portCSA_FCX_MASK)) f hchain1 hnd'
      (by simp at hfuel ⊢; omega)
    refine ⟨m1, ?_, ?_⟩
    · have hnext : pxPortCsaToAddress ((m.write p (m p &&& portCSA_FCX_MASK)) p) = c := by
        rw [Mem.write_same, aurix_csa_masked, hc1]
      simp only [reclaimWalk, idx, Nat.mul_zero, Nat.add_zero, ne_eq, hnz, not_false_eq_true,
        if_true, hnext, hwalk, List.getLast_cons (List.cons_ne_nil c rest)]
    · intro a
      rw [hm1 a]
      have hdl : (p :: c :: rest).dropLast = p :: (c :: rest).dropLast := rfl
      rw [hdl]
      by_cases hap : a = p
      · subst hap
        have hnot : a ∉ (c :: rest).dropLast := fun h => hp (List.mem_of_mem_dropLast h)
        simp [hnot, Mem.write_same]
      · have hw : (m.write p (m p &&& portCSA_FCX_MASK)) a = m a :=
          Mem.write_other _ _ _ _ hap
        simp [hap, hw]

end AURIX

namespace AURIX

open Port

/-- Splicing: once the link words of a chain are reduced to their address
bits and its last link word names the chain `F`, the chain continues into
`F`. -/
theorem aurix_chain_splice (m m1 : Mem Nat) (fcx : Nat) (F : List Nat) (cs : List Nat) :
    ∀ h, cs ≠ [] → Chain m h cs →
    (∀ a ∈ cs.dropLast, m1 a = m a &&& portCSA_FCX_MASK) →
    (∀ t, cs.getLast? = some t → m1 t = fcx) →
    Chain m1 fcx F → Chain m1 h (cs ++ F) := by
  induction cs with
  | nil => intro h hne; exact absurd rfl hne
  | cons c rest ih =>
    intro h _ hchain hdrop hlast hF
    obtain ⟨hc1, hc2, hc3⟩ := hchain
    cases rest with
    | nil =>
      refine ⟨hc1, hc2, ?_⟩
      rw [hlast c rfl]
      exact hF
    | cons c1 rest1 =>
      refine ⟨hc1, hc2, ?_⟩
      have hmc : m1 c = m c &&& portCSA_FCX_MASK :=
        hdrop c (by simp [List.dropLast])
      rw [hmc]
      apply aurix_chain_start m1 _ (m c) _ (aurix_csa_masked (m c)).symm
      apply ih (m c) (List.cons_ne_nil _ _) hc3
      · intro a ha
        exact hdrop a (by
          have : (c :: c1 :: rest1).dropLast = c :: (c1 :: rest1).dropLast := rfl
          rw [this]
          exact List.mem_cons_of_mem _ ha)
      · intro t ht
        apply hlast t
        rw [List.getLast?_cons_cons]
        exact ht
      · exact hF

/-- The state after `vPortReclaimCSA` for a task whose areas form a chain of
distinct areas. -/
theorem aurix_reclaim_result (s : State) (tcb : Nat) (cs : List Nat) (fuel : Nat)
    (hne : cs ≠ [])
    (hchain : Chain s.mem (s.mem (s.mem tcb) &&& portCSA_FCX_MASK) cs)
    (hnd : cs.Nodup) (hfuel : cs.length ≤ fuel) :
    ∃ s1, vPortReclaimCSA fuel s tcb = some s1 ∧
      s1.FCX = s.mem (s.mem tcb) &&& portCSA_FCX_MASK ∧ s1.IE = true ∧
      s1.PCXI = s.PCXI ∧ s1.uxCriticalNesting = s.uxCriticalNesting ∧
      s1.pxCurrentTCB = s.pxCurrentTCB ∧ s1.inISR = s.inISR ∧
      ∀ a, s1.mem a =
        if a = cs.getLast hne then s.FCX
        else if a ∈ cs.dropLast then s.mem a &&& portCSA_FCX_MASK
        else s.mem a := by
  cases cs with
  | nil => exact absurd rfl hne
  | cons c rest =>
    obtain ⟨hc1, _, hc3⟩ := hchain
    rw [← hc1] at hc3 hnd
    obtain ⟨m1, hwalk, hm1⟩ := aurix_reclaimWalk_chain rest
      (pxPortCsaToAddress (s.mem (s.mem tcb) &&& portCSA_FCX_MASK)) s.mem fuel hc3 hnd
      (by simpa using hfuel)
    have hrun : vPortReclaimCSA fuel s tcb = some (enable
        { disable { s with mem := m1 } with
          mem := m1.write (idx ((pxPortCsaToAddress
            (s.mem (s.mem tcb) &&& portCSA_FCX_MASK) :: rest).getLast
              (List.cons_ne_nil _ _)) 0) s.FCX
          FCX := s.mem (s.mem tcb) &&& portCSA_FCX_MASK }) := by
      simp only [vPortReclaimCSA, hwalk]
      rfl
    refine ⟨_, hrun, rfl, rfl, rfl, rfl, rfl, rfl, ?_⟩
    intro a
    subst hc1
    simp only [enable, disable, idx, Nat.mul_zero, Nat.add_zero, Mem.write, hm1]

end AURIX

namespace AURIX

open Port

/-- In a list without repetition the last element is not among the earlier
ones. -/
theorem aurix_getLast_not_mem_dropLast (cs : List Nat) (hne : cs ≠ []) (hnd : cs.Nodup) :
    cs.getLast hne ∉ cs.dropLast := by
  have h := List.dropLast_append_getLast hne
  rw [← h] at hnd
  have hd := (List.nodup_append.mp hnd).2.2
  intro hin
  exact hd hin (List.mem_singleton.mpr rfl)

/-- A handle with address bits names an area. -/
theorem aurix_chain_nonempty (m : Mem Nat) (x : Nat) (cs : List Nat)
    (hnz : x &&& portCSA_FCX_MASK ≠ 0) (hchain : Chain m (x &&& portCSA_FCX_MASK) cs) :
    cs ≠ [] := by
  intro hnil
  subst hnil
  have h0 : pxPortCsaToAddress (x &&& portCSA_FCX_MASK) = NULL := hchain
  rw [aurix_csa_masked, aurix_csa_null_iff] at h0
  exact hnz h0

end AURIX

open Port AURIX in
/-- C17. AURIX `vPortReclaimCSA` splice.  Let the handle stored at the deleted
task's top of stack have non-zero address bits `h` (its low 20 bits), and let
the context save areas reached from `h` be the finite chain `cs` of distinct
areas ending in an area whose link word has address bits 0.  Then the call
returns once its loop has examined each area of the chain once (`cs.length`
evaluations of the loop condition suffice), and afterwards: `FCX = h`; the link
word of the former tail holds the previous `FCX` value; every earlier link word
of the chain is reduced to its low 20 bits; no other word is changed.  Hence,
for a previous free list `F` that shares no area with the deleted chain,
following links from the new `FCX` visits the deleted chain in order and then
`F`, whose words are unchanged. -/
theorem aurix_reclaim_splices_chain (s : AURIX.State) (tcb h : Nat) (cs : List Nat)
    (fuel : Nat)
    (hh : h = s.mem (s.mem tcb) &&& portCSA_FCX_MASK) (hnz : h ≠ 0)
    (hchain : Chain s.mem h cs) (hnd : cs.Nodup) (hfuel : cs.length ≤ fuel) :
    ∃ s1, vPortReclaimCSA fuel s tcb = some s1 ∧
      s1.FCX = h ∧
      (∃ t, cs.getLast? = some t ∧ s1.mem t = s.FCX) ∧
      (∀ a ∈ cs.dropLast, s1.mem a = s.mem a &&& portCSA_FCX_MASK) ∧
      (∀ a, a ∉ cs → s1.mem a = s.mem a) ∧
      (∀ F, Chain s.mem s.FCX F → (∀ a ∈ F, a ∉ cs) →
        Chain s1.mem s1.FCX (cs ++ F) ∧ ∀ a ∈ F, s1.mem a = s.mem a) := by
  subst hh
  have hne : cs ≠ [] := aurix_chain_nonempty s.mem _ cs hnz hchain
  obtain ⟨s1, hrun, hfcx, -, -, -, -, -, hmem⟩ :=
    aurix_reclaim_result s tcb cs fuel hne hchain hnd hfuel
  have hlastnot := aurix_getLast_not_mem_dropLast cs hne hnd
  have hlast : s1.mem (cs.getLast hne) = s.FCX := by
    rw [hmem]; simp
  have hdrop : ∀ a ∈ cs.dropLast, s1.mem a = s.mem a &&& portCSA_FCX_MASK := by
    intro a ha
    have hne1 : a ≠ cs.getLast hne := fun e => hlastnot (e ▸ ha)
    rw [hmem]; simp [hne1, ha]
  have hout : ∀ a, a ∉ cs → s1.mem a = s.mem a := by
    intro a ha
    have hne1 : a ≠ cs.getLast hne := fun e => ha (e ▸ List.getLast_mem hne)
    have hnd1 : a ∉ cs.dropLast := fun e => ha (List.dropLast_subset cs e)
    rw [hmem]; simp [hne1, hnd1]
  refine ⟨s1, hrun, hfcx, ⟨cs.getLast hne, List.getLast?_eq_getLast cs hne, hlast⟩,
    hdrop, hout, ?_⟩
  intro F hF hdis
  have hFsame : ∀ a ∈ F, s1.mem a = s.mem a := fun a ha => hout a (hdis a ha)
  refine ⟨?_, hFsame⟩
  rw [hfcx]
  apply aurix_chain_splice s.mem s1.mem s.FCX F cs _ hne hchain hdrop
  · intro t ht
    rw [List.getLast?_eq_getLast cs hne] at ht
    cases ht
    exact hlast
  · exact aurix_chain_congr s.mem s1.mem F s.FCX hFsame hF

open Port AURIX in
/-- Reclaiming the two-area chain `0x40 -> 0x80` of the deleted task in
`reclaimState`: afterwards `FCX = 1`, the tail `0x80` links to the previous
head 3, the link of `0x40` is reduced to 2, and the free list is
`0x40 -> 0x80 -> 0xC0`. -/
theorem aurix_reclaim_splices_chain_witness :
    ∃ s1, vPortReclaimCSA 2 reclaimState 0x2000 = some s1 ∧
      s1.FCX = 1 ∧ s1.mem 0x80 = 3 ∧ s1.mem 0x40 = 2 ∧
      Chain s1.mem s1.FCX [0x40, 0x80, 0xC0] := by
  obtain ⟨s1, hrun, hfcx, ⟨t, ht, hlast⟩, hdrop, -, hF⟩ :=
    aurix_reclaim_splices_chain reclaimState 0x2000 1 [0x40, 0x80] 2
      (by decide) (by decide) (by decide) (by decide) (by decide)
  have ht1 : t = 0x80 := by
    have : some (0x80 : Nat) = some t := ht
    exact (Option.some.inj this).symm
  subst ht1
  refine ⟨s1, hrun, hfcx, hlast, ?_, ?_⟩
  · rw [hdrop 0x40 (by decide)]
    decide
  · exact (hF [0xC0] (by decide) (by decide)).1

/-! ## U2x: inter-processor interrupt and cross-core yield -/

namespace U2x

open Port

/-- The scheduler flags and the flag-clear register after `vPortIPIHander` on
the core with registers `r`, for a kernel whose critical-section functions
keep the port's variables. -/
theorem u2x_ipi_handler_effect (cfg : Config) (K : Kernel) (r : Regs) (s : State)
    (hcores : cfg.configNUMBER_OF_CORES > 1) (hK : K.keepsPort) :
    (∀ d, (vPortIPIHander cfg K r s).2.xPortScheduleStatus d =
      if d = r.PEID then
        (if s.xPortScheduleStatus r.PEID = PORT_SCHEDULER_STARTFIRSTTASK then
          PORT_SCHEDULER_STARTFIRSTTASK else PORT_SCHEDULER_TASKSWITCH)
      else s.xPortScheduleStatus d) ∧
    (vPortIPIHander cfg K r s).2.IPI1FCLRS = s.IPI1FLGS % 256 := by
  obtain ⟨hEnter, hExit, -⟩ := hK
  obtain ⟨hpe, hst, hfl, -, -⟩ := hEnter r s
  unfold vPortIPIHander
  simp only [hcores, if_true]
  refine ⟨?_, ?_⟩
  · intro d
    rw [(hExit _ _ _).2.1]
    simp only [xPortGET_CORE_ID, hcores, if_true, hpe, hst, vPortIPIRClearRequest]
    by_cases h2 : s.xPortScheduleStatus r.PEID = PORT_SCHEDULER_STARTFIRSTTASK
    · have h3 : ¬ (PORT_SCHEDULER_STARTFIRSTTASK ≠ s.xPortScheduleStatus r.PEID) :=
        fun h => h h2.symm
      rw [if_neg h3, hst]
      by_cases hd : d = r.PEID
      · simp only [hd, if_true, h2]
      · simp only [hd, if_false, h2, if_true]
    · have h3 : PORT_SCHEDULER_STARTFIRSTTASK ≠ s.xPortScheduleStatus r.PEID :=
        fun h => h2 h.symm
      simp only [h3, if_true, setScheduleStatus, hst, h2, if_false, ne_eq, not_false_eq_true]
  · rw [(hExit _ _ _).2.2.2.1]
    simp only [xPortGET_CORE_ID, hcores, if_true, hpe, hst, vPortIPIRClearRequest]
    by_cases h2 : s.xPortScheduleStatus r.PEID = PORT_SCHEDULER_STARTFIRSTTASK
    · have h3 : ¬ (PORT_SCHEDULER_STARTFIRSTTASK ≠ s.xPortScheduleStatus r.PEID) :=
        fun h => h h2.symm
      simp only [h3, if_false, hfl]
    · have h3 : PORT_SCHEDULER_STARTFIRSTTASK ≠ s.xPortScheduleStatus r.PEID :=
        fun h => h2 h.symm
      simp only [h3, if_true, setScheduleStatus, hfl, ne_eq, not_false_eq_true]

/-- The simple kernel keeps the port's variables. -/
theorem u2x_simple_keepsPort : Kernel.simple.keepsPort := by
  refine ⟨?_, ?_, ?_⟩
  · intro r s
    exact ⟨rfl, rfl, rfl, rfl, rfl⟩
  · intro x r s
    refine ⟨?_, rfl, rfl, rfl, rfl⟩
    simp only [Kernel.simple, vPortClearInterruptMask]
  · intro r s
    exact ⟨rfl, rfl⟩

end U2x

open Port U2x in
/-- C19. U2x `vPortIPIHander` executed on core `c` (built for more than one
core, with a kernel whose critical-section functions leave the port's
variables alone): if `xPortScheduleStatus[ c ]` is not
`PORT_SCHEDULER_STARTFIRSTTASK` it becomes `PORT_SCHEDULER_TASKSWITCH`, and if
it is `PORT_SCHEDULER_STARTFIRSTTASK` it is left unchanged; in both cases the
flags of all other cores are unchanged and the flag-clear register
`IPI1FCLRS` is written with the low 8 bits of the flag register `IPI1FLGS`. -/
theorem u2x_ipi_handler_requests_switch (cfg : Config) (K : Kernel) (r : Regs)
    (s : U2x.State) (c : Nat)
    (hcores : cfg.configNUMBER_OF_CORES > 1) (hK : K.keepsPort)
    (hc : xPortGET_CORE_ID cfg r = c) :
    (s.xPortScheduleStatus c ≠ PORT_SCHEDULER_STARTFIRSTTASK →
      (vPortIPIHander cfg K r s).2.xPortScheduleStatus c = PORT_SCHEDULER_TASKSWITCH) ∧
    (s.xPortScheduleStatus c = PORT_SCHEDULER_STARTFIRSTTASK →
      (vPortIPIHander cfg K r s).2.xPortScheduleStatus c = PORT_SCHEDULER_STARTFIRSTTASK) ∧
    (∀ d, d ≠ c →
      (vPortIPIHander cfg K r s).2.xPortScheduleStatus d = s.xPortScheduleStatus d) ∧
    (vPortIPIHander cfg K r s).2.IPI1FCLRS = s.IPI1FLGS % 256 := by
  have hpe : r.PEID = c := by
    simpa only [xPortGET_CORE_ID, hcores, if_true] using hc
  subst hpe
  obtain ⟨hflags, hclr⟩ := u2x_ipi_handler_effect cfg K r s hcores hK
  refine ⟨?_, ?_, ?_, hclr⟩
  · intro h
    rw [hflags]
    simp only [if_true, h, if_false]
  · intro h
    rw [hflags]
    simp only [if_true, h]
  · intro d hd
    rw [hflags]
    simp only [hd, if_false]

open Port U2x in
/-- The handler on core 1 of a two-core system: from the initial flags
(`PORT_SCHEDULER_NOREQUEST` everywhere) core 1 gets `PORT_SCHEDULER_TASKSWITCH`,
core 0 keeps its flag, and with `IPI1FLGS = 0x102` the flag-clear register is
written with `0x02`. -/
theorem u2x_ipi_handler_requests_switch_witness :
    (vPortIPIHander dualCore Kernel.simple (coreRegs 1)
        { initialState with IPI1FLGS := 0x102 }).2.xPortScheduleStatus 1
      = PORT_SCHEDULER_TASKSWITCH ∧
    (vPortIPIHander dualCore Kernel.simple (coreRegs 1)
        { initialState with IPI1FLGS := 0x102 }).2.xPortScheduleStatus 0
      = PORT_SCHEDULER_NOREQUEST ∧
    (vPortIPIHander dualCore Kernel.simple (coreRegs 1)
        { initialState with IPI1FLGS := 0x102 }).2.IPI1FCLRS = 0x02 := by
  obtain ⟨h1, -, h3, h4⟩ := u2x_ipi_handler_requests_switch dualCore Kernel.simple
    (coreRegs 1) { initialState with IPI1FLGS := 0x102 } 1 (by decide)
    u2x_simple_keepsPort (by decide)
  exact ⟨h1 (by decide), h3 0 (by decide), h4⟩

namespace U2x

open Port

/-- Setting a bit below 32 in a 32-bit word gives a 32-bit word. -/
theorem u2x_or_bit_word (x t : Nat) (hx : x < WORD) (ht : t < 32) :
    (x ||| (1 <<< t)) % WORD = x ||| (1 <<< t) := by
  rw [WORD_eq] at hx ⊢
  apply Nat.mod_eq_of_lt
  have h1 : (1 <<< t) < 2 ^ 32 := by
    rw [Nat.one_shiftLeft]
    exact Nat.pow_lt_pow_right (by decide) ht
  have h2 : x < 2 ^ 32 := by omega
  have := Nat.or_lt_two_pow h2 h1
  omega

end U2x

open Port U2x in
/-- C20. U2x cross-core yield (built for more than one core, with a kernel
whose critical-section functions leave the port's variables alone, core
identifiers below 32 and a 32-bit `IPI1REQS`).  `vPortYieldCore( t )` called on
core `sc` with `t != sc` sets bit `t` of the request register (`IPI1REQS`
becomes `IPI1REQS | ( 1 << t )`), changes no entry of `xPortScheduleStatus`,
and makes no call (neither `vPortYield` nor `vTaskSwitchContext`); the flag of
core `t` is therefore still its old value after the call, and it becomes
`PORT_SCHEDULER_TASKSWITCH` (unless it is `PORT_SCHEDULER_STARTFIRSTTASK`) when
core `t` later runs `vPortIPIHander` in a state with these flags, which leaves
the flag of core `sc` unchanged.  With `t == sc` the call invokes `vPortYield`
on core `sc` and leaves the request register unchanged. -/
theorem u2x_yield_core_cross_core (cfg : Config) (K : Kernel) (r rt : Regs)
    (s : U2x.State) (sc t : Nat)
    (hcores : cfg.configNUMBER_OF_CORES > 1) (hK : K.keepsPort)
    (hs : xPortGET_CORE_ID cfg r = sc) (ht : xPortGET_CORE_ID cfg rt = t)
    (ht32 : t < 32) (hreq : s.IPI1REQS < WORD) :
    (t ≠ sc →
      (vPortYieldCore cfg t r s).IPI1REQS = s.IPI1REQS ||| (1 <<< t) ∧
      (vPortYieldCore cfg t r s).xPortScheduleStatus = s.xPortScheduleStatus ∧
      (vPortYieldCore cfg t r s).calls = s.calls ∧
      ∀ s2 : U2x.State,
        s2.xPortScheduleStatus = (vPortYieldCore cfg t r s).xPortScheduleStatus →
        (s.xPortScheduleStatus t ≠ PORT_SCHEDULER_STARTFIRSTTASK →
          (vPortIPIHander cfg K rt s2).2.xPortScheduleStatus t
            = PORT_SCHEDULER_TASKSWITCH) ∧
        (vPortIPIHander cfg K rt s2).2.xPortScheduleStatus sc
          = s.xPortScheduleStatus sc) ∧
    (t = sc →
      (vPortYieldCore cfg t r s).calls = s.calls ++ [Event.vPortYield sc] ∧
      (vPortYieldCore cfg t r s).IPI1REQS = s.IPI1REQS ∧
      (vPortYieldCore cfg t r s).xPortScheduleStatus = s.xPortScheduleStatus) := by
  have hpt : rt.PEID = t := by
    simpa only [xPortGET_CORE_ID, hcores, if_true] using ht
  refine ⟨?_, ?_⟩
  · intro hne
    have hne1 : t ≠ xPortGET_CORE_ID cfg r := by rw [hs]; exact hne
    have hy : vPortYieldCore cfg t r s
        = { s with IPI1REQS := (s.IPI1REQS ||| (1 <<< t)) % WORD } := by
      unfold vPortYieldCore
      rw [if_pos hne1]
    rw [hy]
    refine ⟨u2x_or_bit_word _ _ hreq ht32, rfl, rfl, ?_⟩
    intro s2 hs2
    have hs2 : s2.xPortScheduleStatus = s.xPortScheduleStatus := hs2
    obtain ⟨hflags, -⟩ := u2x_ipi_handler_effect cfg K rt s2 hcores hK
    refine ⟨?_, ?_⟩
    · intro h
      rw [hflags, hpt, hs2]
      simp only [if_true, h, if_false]
    · rw [hflags, hpt, hs2]
      have hne2 : sc ≠ t := fun e => hne e.symm
      simp only [hne2, if_false]
  · intro heq
    have hy : vPortYieldCore cfg t r s = vPortYield cfg r s := by
      unfold vPortYieldCore
      rw [if_neg (by rw [hs]; exact fun h => h heq)]
    rw [hy]
    refine ⟨?_, rfl, rfl⟩
    simp only [vPortYield, hs]

open Port U2x in
/-- Core 0 of a two-core system asks core 1 to yield: bit 1 of `IPI1REQS` is
set and nothing is called; the handler on core 1 then requests the switch on
core 1 only.  Asking itself, core 0 calls `vPortYield`. -/
theorem u2x_yield_core_cross_core_witness :
    (vPortYieldCore dualCore 1 (coreRegs 0) initialState).IPI1REQS = 2 ∧
    (vPortYieldCore dualCore 1 (coreRegs 0) initialState).calls = [] ∧
    (vPortIPIHander dualCore Kernel.simple (coreRegs 1)
      (vPortYieldCore dualCore 1 (coreRegs 0) initialState)).2.xPortScheduleStatus 1
      = PORT_SCHEDULER_TASKSWITCH ∧
    (vPortIPIHander dualCore Kernel.simple (coreRegs 1)
      (vPortYieldCore dualCore 1 (coreRegs 0) initialState)).2.xPortScheduleStatus 0
      = PORT_SCHEDULER_NOREQUEST := by
  obtain ⟨h, -⟩ := u2x_yield_core_cross_core dualCore Kernel.simple (coreRegs 0)
    (coreRegs 1) initialState 0 1 (by decide) u2x_simple_keepsPort (by decide)
    (by decide) (by decide) (by decide)
  obtain ⟨h1, -, h3, h4⟩ := h (by decide)
  obtain ⟨h5, h6⟩ := h4 _ rfl
  exact ⟨h1, h3, h5 (by decide), h6⟩

/-! ## AURIX: the segment-chain invariant -/

namespace AURIX

open Port

/-- The areas of a chain are 64-byte aligned. -/
theorem aurix_chain_aligned (m : Mem Nat) (cs : List Nat) :
    ∀ link, Chain m link cs → ∀ c ∈ cs, c % 64 = 0 := by
  induction cs with
  | nil => intro _ _ c hc; cases hc
  | cons c0 rest ih =>
    intro link h c hc
    obtain ⟨h1, -, h3⟩ := h
    rcases List.mem_cons.mp hc with e | e
    · rw [e, ← h1]; exact (aurix_csa_address_aligned link).1
    · exact ih _ h3 c e

/-- The complete chain from a link word is unique. -/
theorem aurix_chain_unique (m : Mem Nat) (cs : List Nat) :
    ∀ link cs1, Chain m link cs → Chain m link cs1 → cs = cs1 := by
  induction cs with
  | nil =>
    intro link cs1 h h1
    cases cs1 with
    | nil => rfl
    | cons c1 r1 =>
      have h0 : pxPortCsaToAddress link = NULL := h
      obtain ⟨ha, hb, -⟩ := h1
      exact absurd (ha.symm.trans h0) hb
  | cons c rest ih =>
    intro link cs1 h h1
    obtain ⟨ha, hb, hc⟩ := h
    cases cs1 with
    | nil =>
      have h0 : pxPortCsaToAddress link = NULL := h1
      exact absurd (ha.symm.trans h0) hb
    | cons c1 r1 =>
      obtain ⟨ha1, -, hc1⟩ := h1
      have e : c = c1 := ha.symm.trans ha1
      subst e
      rw [ih _ _ hc hc1]

/-- From an area of a chain, the rest of the chain is the complete chain of
its link word. -/
theorem aurix_chain_suffix (m : Mem Nat) (cs : List Nat) :
    ∀ link, Chain m link cs → ∀ c ∈ cs,
      ∃ post, post.length < cs.length ∧ Chain m (m c) post := by
  induction cs with
  | nil => intro _ _ c hc; cases hc
  | cons c0 rest ih =>
    intro link h c hc
    obtain ⟨-, -, h3⟩ := h
    rcases List.mem_cons.mp hc with e | e
    · subst e
      exact ⟨rest, by simp, h3⟩
    · obtain ⟨post, hlen, hp⟩ := ih _ h3 c e
      exact ⟨post, by simp only [List.length_cons]; omega, hp⟩

/-- A complete chain visits no area twice. -/
theorem aurix_chain_nodup (m : Mem Nat) (cs : List Nat) :
    ∀ link, Chain m link cs → cs.Nodup := by
  induction cs with
  | nil => intro _ _; exact List.nodup_nil
  | cons c rest ih =>
    intro link h
    obtain ⟨-, -, h3⟩ := h
    refine List.nodup_cons.mpr ⟨?_, ih _ h3⟩
    intro hin
    obtain ⟨post, hlen, hp⟩ := aurix_chain_suffix m rest _ h3 c hin
    have := aurix_chain_unique m rest _ post h3 hp
    rw [this] at hlen
    exact Nat.lt_irrefl _ hlen

/-- An area contains its own first word. -/
theorem aurix_inCsa_self (c : Nat) : inCsa c c := by
  unfold inCsa portNUM_WORDS_IN_CSA
  omega

/-- Distinct aligned areas do not overlap. -/
theorem aurix_inCsa_aligned (c a : Nat) (hc : c % 64 = 0) (ha : a % 64 = 0) (hne : a ≠ c) :
    ¬ inCsa c a := by
  unfold inCsa portNUM_WORDS_IN_CSA
  omega

/-- More fuel does not change the result of the walk. -/
theorem aurix_reclaimWalk_mono (fuel : Nat) :
    ∀ (m : Mem Nat) (p : Nat) (r : Mem Nat × Nat) (k : Nat),
      reclaimWalk fuel m p = some r → reclaimWalk (fuel + k) m p = some r := by
  induction fuel with
  | zero => intro m p r k h; cases h
  | succ n ih =>
    intro m p r k h
    have e : n + 1 + k = (n + k) + 1 := by omega
    rw [e]
    unfold reclaimWalk at h ⊢
    by_cases hc : m (idx p 0) &&& portCSA_FCX_MASK ≠ 0
    · simp only [hc, if_true, ne_eq, not_false_eq_true] at h ⊢
      exact ih _ _ _ _ h
    · simp only [hc, if_false] at h ⊢
      exact h

/-- More fuel does not change the result of `vPortReclaimCSA`. -/
theorem aurix_reclaim_mono (fuel k : Nat) (s s1 : State) (tcb : Nat)
    (h : vPortReclaimCSA fuel s tcb = some s1) :
    vPortReclaimCSA (fuel + k) s tcb = some s1 := by
  unfold vPortReclaimCSA at h ⊢
  cases hw : reclaimWalk fuel s.mem
      (pxPortCsaToAddress (s.mem (s.mem tcb) &&& portCSA_FCX_MASK)) with
  | none => simp only [hw] at h; cases h
  | some r =>
    have hw1 := aurix_reclaimWalk_mono fuel _ _ r k hw
    simp only [hw] at h
    simp only [hw1]
    exact h

end AURIX

namespace AURIX

open Port

/-- What `vPortReclaimCSA` leaves behind when it returns for a task whose
stored handle starts the complete chain `cs`: the free list is `cs` followed
by the previous free list, and no word outside `cs` is changed. -/
theorem aurix_reclaim_spliced (s s1 : State) (tcb fuel : Nat) (cs : List Nat)
    (hne : cs ≠ [])
    (hchain : Chain s.mem (s.mem (s.mem tcb) &&& portCSA_FCX_MASK) cs)
    (hrun : vPortReclaimCSA fuel s tcb = some s1) :
    (∀ a, a ∉ cs → s1.mem a = s.mem a) ∧
    (∀ F, Chain s.mem s.FCX F → (∀ a ∈ F, a ∉ cs) → Chain s1.mem s1.FCX (cs ++ F)) := by
  have hnd := aurix_chain_nodup s.mem cs _ hchain
  obtain ⟨s2, hrun2, hfcx, -, -, -, -, -, hmem⟩ :=
    aurix_reclaim_result s tcb cs (fuel + cs.length) hne hchain hnd (by omega)
  have e : s1 = s2 := by
    have h1 := aurix_reclaim_mono fuel cs.length s s1 tcb hrun
    rw [hrun2] at h1
    exact (Option.some.inj h1).symm
  subst e
  have hlastnot := aurix_getLast_not_mem_dropLast cs hne hnd
  have hlast : s1.mem (cs.getLast hne) = s.FCX := by
    rw [hmem]; simp
  have hdrop : ∀ a ∈ cs.dropLast, s1.mem a = s.mem a &&& portCSA_FCX_MASK := by
    intro a ha
    have hne1 : a ≠ cs.getLast hne := fun e => hlastnot (e ▸ ha)
    rw [hmem]; simp [hne1, ha]
  have hout : ∀ a, a ∉ cs → s1.mem a = s.mem a := by
    intro a ha
    have hne1 : a ≠ cs.getLast hne := fun e => ha (e ▸ List.getLast_mem hne)
    have hnd1 : a ∉ cs.dropLast := fun e => ha (List.dropLast_subset cs e)
    rw [hmem]; simp [hne1, hnd1]
  refine ⟨hout, ?_⟩
  intro F hF hdis
  have hFsame : ∀ a ∈ F, s1.mem a = s.mem a := fun a ha => hout a (hdis a ha)
  rw [hfcx]
  apply aurix_chain_splice s.mem s1.mem s.FCX F cs _ hne hchain hdrop
  · intro t ht
    rw [List.getLast?_eq_getLast cs hne] at ht
    cases ht
    exact hlast
  · exact aurix_chain_congr s.mem s1.mem F s.FCX hFsame hF

/-- What a successful `pxPortInitialiseStack` has done: the
result is the top of stack two words down, `FCX` is the link of the second
area, the stored handle is the previous `FCX`, words outside the two areas and
the two stack words are unchanged, and, when the stack words lie outside the
two distinct areas, the first area links to the second and the second ends
the chain. -/
theorem aurix_init_returned (s s1 : State) (top code param sp : Nat)
    (hL : pxPortCsaToAddress s.FCX ≠ NULL)
    (hU : pxPortCsaToAddress (s.mem (pxPortCsaToAddress s.FCX)) ≠ NULL)
    (h : pxPortInitialiseStack s top code param = Outcome.returned sp s1) :
    sp = ptrDec (ptrDec top) ∧
    s1.FCX = s.mem (pxPortCsaToAddress (s.mem (pxPortCsaToAddress s.FCX))) ∧
    s1.mem sp = s.FCX ∧
    (∀ a, ¬ inCsa (pxPortCsaToAddress s.FCX) a →
      ¬ inCsa (pxPortCsaToAddress (s.mem (pxPortCsaToAddress s.FCX))) a →
      a ≠ ptrDec top → a ≠ sp → s1.mem a = s.mem a) ∧
    (pxPortCsaToAddress s.FCX ≠ pxPortCsaToAddress (s.mem (pxPortCsaToAddress s.FCX)) →
      ¬ inCsa (pxPortCsaToAddress s.FCX) (ptrDec top) →
      ¬ inCsa (pxPortCsaToAddress (s.mem (pxPortCsaToAddress s.FCX))) (ptrDec top) →
      ¬ inCsa (pxPortCsaToAddress s.FCX) sp →
      ¬ inCsa (pxPortCsaToAddress (s.mem (pxPortCsaToAddress s.FCX))) sp →
      pxPortCsaToAddress (s1.mem (pxPortCsaToAddress s.FCX))
        = pxPortCsaToAddress (s.mem (pxPortCsaToAddress s.FCX)) ∧
      pxPortCsaToAddress
        (s1.mem (pxPortCsaToAddress (s.mem (pxPortCsaToAddress s.FCX)))) = NULL) := by
  obtain ⟨t, hret, hfcx, -, -, -, -, -, hmem⟩ := aurix_init_success s top code param hL hU
  rw [hret] at h
  injection h with e1 e2
  subst e1 e2
  refine ⟨rfl, hfcx, ?_, ?_, ?_⟩
  · rw [hmem]; simp
  · intro a h1 h2 h3 h4
    exact aurix_init_frame s top code param _ hmem a h1 h2 h3 h4
  · intro hLU h1L h1U h2L h2U
    obtain ⟨hlo0, hup0, -, -, -⟩ :=
      aurix_init_link_words s top code param _ hmem hLU h1L h1U h2L h2U
    refine ⟨?_, ?_⟩
    · rw [hlo0]; exact aurix_lower_links_upper _
    · rw [hup0]; decide

end AURIX

namespace AURIX

open Port

/-- Initially the free list holds the whole pool and there is no task. -/
theorem aurix_pool_invariant_init (pool : List Nat) (s : State)
    (h : Chain s.mem s.FCX pool) :
    PoolInvariant pool { s := s, tasks := [] } pool (fun _ => []) := by
  refine ⟨h, ?_, List.nodup_nil, ?_, ?_, ?_⟩
  · intro t ht; cases ht
  · intro t ht; cases ht
  · intro t ht; cases ht
  · intro c
    constructor
    · intro hc; exact Or.inl hc
    · intro hc
      rcases hc with hc | ⟨t, ht, -⟩
      · exact hc
      · cases ht

/-- Under the invariant every area of the pool is 64-byte aligned. -/
theorem aurix_pool_aligned (pool : List Nat) (w : World) (F : List Nat)
    (cs : Nat → List Nat) (hinv : PoolInvariant pool w F cs) :
    ∀ c ∈ pool, c % 64 = 0 := by
  obtain ⟨hF, htasks, -, -, -, hpool⟩ := hinv
  intro c hc
  rcases (hpool c).mp hc with h | ⟨t, ht, hct⟩
  · exact aurix_chain_aligned _ _ _ hF c h
  · exact aurix_chain_aligned _ _ _ (htasks t ht).1 c hct

/-- A word outside the pool is not the first word of an area of the pool. -/
theorem aurix_not_inPool_ne (pool : List Nat) (a c : Nat) (ha : ¬ inPool pool a)
    (hc : c ∈ pool) : c ≠ a := by
  intro e
  apply ha
  exact ⟨c, hc, e ▸ aurix_inCsa_self c⟩

/-- A word outside the pool is outside each area of the pool. -/
theorem aurix_not_inPool_inCsa (pool : List Nat) (a c : Nat) (ha : ¬ inPool pool a)
    (hc : c ∈ pool) : ¬ inCsa c a :=
  fun h => ha ⟨c, hc, h⟩

end AURIX

namespace AURIX

open Port

/-- Task creation keeps the invariant: the first two areas of the free list
become the chain of the new task. -/
theorem aurix_create_keeps (pool : List Nat) (w : World) (F : List Nat)
    (cs : Nat → List Nat) (top code param tcb sp : Nat) (s1 : State)
    (hinv : PoolInvariant pool w F cs)
    (hL : pxPortCsaToAddress w.s.FCX ≠ NULL)
    (hU : pxPortCsaToAddress (w.s.mem (pxPortCsaToAddress w.s.FCX)) ≠ NULL)
    (hret : pxPortInitialiseStack w.s top code param = Outcome.returned sp s1)
    (htcb : ¬ inPool pool tcb) (htop1 : ¬ inPool pool (ptrDec top))
    (hsp : ¬ inPool pool sp) (hts : tcb ≠ sp)
    (hfresh : ∀ t ∈ w.tasks, t ≠ tcb ∧ t ≠ sp ∧ t ≠ ptrDec top ∧
      w.s.mem t ≠ tcb ∧ w.s.mem t ≠ sp ∧ w.s.mem t ≠ ptrDec top) :
    ∃ F1 cs1, PoolInvariant pool
      { s := { s1 with mem := s1.mem.write tcb sp }, tasks := tcb :: w.tasks } F1 cs1 := by
  have hal := aurix_pool_aligned pool w F cs hinv
  obtain ⟨hF, htasks, hnd, hdisF, hdisT, hpool⟩ := hinv
  obtain ⟨-, hfcx, hhandle, hframe, hlinks⟩ :=
    aurix_init_returned _ _ _ _ _ _ hL hU hret
  have hFnd := aurix_chain_nodup _ _ _ hF
  cases F with
  | nil => exact absurd hF hL
  | cons l F1 =>
    obtain ⟨hl, hlnz, hF1⟩ := hF
    rw [hl] at hU hfcx hframe hlinks
    cases F1 with
    | nil => exact absurd hF1 hU
    | cons u F2 =>
      obtain ⟨hu, hunz, hF2⟩ := hF1
      rw [hu] at hfcx hframe hlinks
      have hlp : l ∈ pool := (hpool l).mpr (Or.inl (List.mem_cons_self _ _))
      have hup : u ∈ pool :=
        (hpool u).mpr (Or.inl (List.mem_cons_of_mem _ (List.mem_cons_self _ _)))
      have hlu : l ≠ u := by
        intro e
        have := (List.nodup_cons.mp hFnd).1
        exact this (e ▸ List.mem_cons_self _ _)
      have hlF2 : l ∉ F2 := fun h =>
        (List.nodup_cons.mp hFnd).1 (List.mem_cons_of_mem _ h)
      have huF2 : u ∉ F2 := (List.nodup_cons.mp (List.nodup_cons.mp hFnd).2).1
      -- the memory after the kernel has stored the top of stack
      have hm2 : ∀ a, a ≠ tcb → a ≠ sp → a ≠ ptrDec top → ¬ inCsa l a → ¬ inCsa u a →
          (s1.mem.write tcb sp) a = w.s.mem a := by
        intro a h1 h2 h3 h4 h5
        simp only [Mem.write, h1, if_false]
        exact hframe a h4 h5 h3 h2
      have hm2pool : ∀ c ∈ pool, c ≠ l → c ≠ u → (s1.mem.write tcb sp) c = w.s.mem c := by
        intro c hc h1 h2
        apply hm2 c (aurix_not_inPool_ne pool _ _ htcb hc)
          (aurix_not_inPool_ne pool _ _ hsp hc) (aurix_not_inPool_ne pool _ _ htop1 hc)
        · exact aurix_inCsa_aligned l c (hal l hlp) (hal c hc) h1
        · exact aurix_inCsa_aligned u c (hal u hup) (hal c hc) h2
      have hm2out : ∀ a, ¬ inPool pool a → a ≠ tcb → a ≠ sp → a ≠ ptrDec top →
          (s1.mem.write tcb sp) a = w.s.mem a := by
        intro a ha h1 h2 h3
        exact hm2 a h1 h2 h3 (aurix_not_inPool_inCsa pool _ _ ha hlp)
          (aurix_not_inPool_inCsa pool _ _ ha hup)
      have hm2tcb : (s1.mem.write tcb sp) tcb = sp := by
        simp only [Mem.write, if_true]
      have hm2sp : (s1.mem.write tcb sp) sp = w.s.FCX := by
        have : sp ≠ tcb := fun e => hts e.symm
        simp only [Mem.write, this, if_false]
        exact hhandle
      have hm2l : (s1.mem.write tcb sp) l = s1.mem l := by
        have : l ≠ tcb := aurix_not_inPool_ne pool _ _ htcb hlp
        simp only [Mem.write, this, if_false]
      have hm2u : (s1.mem.write tcb sp) u = s1.mem u := by
        have : u ≠ tcb := aurix_not_inPool_ne pool _ _ htcb hup
        simp only [Mem.write, this, if_false]
      obtain ⟨hlink1, hlink2⟩ := hlinks hlu
        (aurix_not_inPool_inCsa pool _ _ htop1 hlp) (aurix_not_inPool_inCsa pool _ _ htop1 hup)
        (aurix_not_inPool_inCsa pool _ _ hsp hlp) (aurix_not_inPool_inCsa pool _ _ hsp hup)
      have htcbnew : tcb ∉ w.tasks := fun h => (hfresh tcb h).1 rfl
      refine ⟨F2, fun t => if t = tcb then [l, u] else cs t, ?_, ?_, ?_, ?_, ?_, ?_⟩
      · -- the free list
        show Chain (s1.mem.write tcb sp) s1.FCX F2
        rw [hfcx]
        apply aurix_chain_congr w.s.mem _ F2 _ _ hF2
        intro a ha
        have hap : a ∈ pool :=
          (hpool a).mpr (Or.inl (List.mem_cons_of_mem _ (List.mem_cons_of_mem _ ha)))
        exact hm2pool a hap (fun e => hlF2 (e ▸ ha)) (fun e => huF2 (e ▸ ha))
      · -- the tasks
        intro t ht
        show Chain (s1.mem.write tcb sp)
            (storedHandle (s1.mem.write tcb sp) t) (if t = tcb then [l, u] else cs t) ∧
          (if t = tcb then [l, u] else cs t) ≠ [] ∧ ¬ inPool pool t ∧
          ¬ inPool pool ((s1.mem.write tcb sp) t)
        rcases List.mem_cons.mp ht with e | e
        · subst e
          rw [if_pos rfl]
          refine ⟨?_, List.cons_ne_nil _ _, htcb, ?_⟩
          · unfold storedHandle
            rw [hm2tcb, hm2sp]
            refine ⟨hl, hlnz, ?_, hunz, ?_⟩
            · rw [hm2l, hlink1]
            · show pxPortCsaToAddress ((s1.mem.write t sp) u) = NULL
              rw [hm2u, hlink2]
          · rw [hm2tcb]; exact hsp
        · have hne : t ≠ tcb := fun h => htcbnew (h ▸ e)
          rw [if_neg hne]
          obtain ⟨hch, hcne, hp1, hp2⟩ := htasks t e
          obtain ⟨f1, f2, f3, f4, f5, f6⟩ := hfresh t e
          have hmt : (s1.mem.write tcb sp) t = w.s.mem t := hm2out t hp1 f1 f2 f3
          have hmmt : (s1.mem.write tcb sp) (w.s.mem t) = w.s.mem (w.s.mem t) :=
            hm2out _ hp2 f4 f5 f6
          refine ⟨?_, hcne, hp1, ?_⟩
          · unfold storedHandle
            rw [hmt, hmmt]
            apply aurix_chain_congr w.s.mem _ (cs t) _ _ hch
            intro a ha
            have hap : a ∈ pool := (hpool a).mpr (Or.inr ⟨t, e, ha⟩)
            have haF := hdisF t e a ha
            exact hm2pool a hap (fun h => haF (h ▸ List.mem_cons_self _ _))
              (fun h => haF (h ▸ List.mem_cons_of_mem _ (List.mem_cons_self _ _)))
          · rw [hmt]; exact hp2
      · exact List.nodup_cons.mpr ⟨htcbnew, hnd⟩
      · -- task chains are off the free list
        intro t ht c hc
        beta_reduce at hc
        show c ∉ F2
        rcases List.mem_cons.mp ht with e | e
        · subst e
          rw [if_pos rfl] at hc
          rcases List.mem_cons.mp hc with h | h
          · rw [h]; exact hlF2
          · rw [List.mem_singleton.mp h]; exact huF2
        · have hne : t ≠ tcb := fun h => htcbnew (h ▸ e)
          rw [if_neg hne] at hc
          exact fun h => hdisF t e c hc (List.mem_cons_of_mem _ (List.mem_cons_of_mem _ h))
      · -- task chains are pairwise apart
        intro t ht t1 ht1 hne c hc
        beta_reduce at hc ⊢
        have hnew : ∀ x, x ∈ [l, u] → x ∈ l :: u :: F2 := by
          intro x hx
          rcases List.mem_cons.mp hx with h | h
          · rw [h]; exact List.mem_cons_self _ _
          · rw [List.mem_singleton.mp h]
            exact List.mem_cons_of_mem _ (List.mem_cons_self _ _)
        rcases List.mem_cons.mp ht with e | e
        · subst e
          rw [if_pos rfl] at hc
          rcases List.mem_cons.mp ht1 with e1 | e1
          · exact absurd e1.symm hne
          · have hne1 : t1 ≠ t := fun h => hne h.symm
            rw [if_neg hne1]
            exact fun h => hdisF t1 e1 c h (hnew c hc)
        · have hnet : t ≠ tcb := fun h => htcbnew (h ▸ e)
          rw [if_neg hnet] at hc
          rcases List.mem_cons.mp ht1 with e1 | e1
          · subst e1
            rw [if_pos rfl]
            exact fun h => hdisF t e c hc (hnew c h)
          · have hne1 : t1 ≠ tcb := fun h => htcbnew (h ▸ e1)
            rw [if_neg hne1]
            exact hdisT t e t1 e1 hne c hc
      · -- together the chains are the pool
        intro c
        rw [hpool c]
        beta_reduce
        constructor
        · intro h
          rcases h with h | ⟨t, ht, hct⟩
          · rcases List.mem_cons.mp h with h1 | h1
            · refine Or.inr ⟨tcb, List.mem_cons_self _ _, ?_⟩
              rw [if_pos rfl, h1]; exact List.mem_cons_self _ _
            · rcases List.mem_cons.mp h1 with h2 | h2
              · refine Or.inr ⟨tcb, List.mem_cons_self _ _, ?_⟩
                rw [if_pos rfl, h2]
                exact List.mem_cons_of_mem _ (List.mem_cons_self _ _)
              · exact Or.inl h2
          · have hne : t ≠ tcb := fun h => htcbnew (h ▸ ht)
            refine Or.inr ⟨t, List.mem_cons_of_mem _ ht, ?_⟩
            rw [if_neg hne]; exact hct
        · intro h
          rcases h with h | ⟨t, ht, hct⟩
          · exact Or.inl (List.mem_cons_of_mem _ (List.mem_cons_of_mem _ h))
          · rcases List.mem_cons.mp ht with e | e
            · subst e
              rw [if_pos rfl] at hct
              rcases List.mem_cons.mp hct with h1 | h1
              · rw [h1]; exact Or.inl (List.mem_cons_self _ _)
              · rw [List.mem_singleton.mp h1]
                exact Or.inl (List.mem_cons_of_mem _ (List.mem_cons_self _ _))
            · have hne : t ≠ tcb := fun h => htcbnew (h ▸ e)
              rw [if_neg hne] at hct
              exact Or.inr ⟨t, e, hct⟩

end AURIX

namespace AURIX

open Port

/-- Reclamation keeps the invariant: the chain of the removed task goes to the
front of the free list. -/
theorem aurix_reclaim_keeps (pool : List Nat) (w : World) (F : List Nat)
    (cs : Nat → List Nat) (tcb fuel : Nat) (s1 : State)
    (hinv : PoolInvariant pool w F cs) (hin : tcb ∈ w.tasks)
    (hrun : vPortReclaimCSA fuel w.s tcb = some s1) :
    ∃ F1 cs1, PoolInvariant pool { s := s1, tasks := w.tasks.erase tcb } F1 cs1 := by
  obtain ⟨hF, htasks, hnd, hdisF, hdisT, hpool⟩ := hinv
  obtain ⟨hch, hcne, -, -⟩ := htasks tcb hin
  have hchm : Chain w.s.mem (w.s.mem (w.s.mem tcb) &&& portCSA_FCX_MASK) (cs tcb) :=
    aurix_chain_start _ _ (w.s.mem (w.s.mem tcb)) _ (aurix_csa_masked _).symm hch
  obtain ⟨hout, hsplice⟩ := aurix_reclaim_spliced w.s s1 tcb fuel (cs tcb) hcne hchm hrun
  have hmem_erase : ∀ t, t ∈ w.tasks.erase tcb ↔ t ≠ tcb ∧ t ∈ w.tasks :=
    fun t => hnd.mem_erase_iff
  have hinpool : ∀ a, a ∈ cs tcb → a ∈ pool := fun a h => (hpool a).mpr (Or.inr ⟨tcb, hin, h⟩)
  refine ⟨cs tcb ++ F, cs, ?_, ?_, ?_, ?_, ?_, ?_⟩
  · exact hsplice F hF (fun a ha hc => hdisF tcb hin a hc ha)
  · intro t ht
    obtain ⟨hne, ht0⟩ := (hmem_erase t).mp ht
    obtain ⟨hch1, hcne1, hp1, hp2⟩ := htasks t ht0
    have hmt : s1.mem t = w.s.mem t :=
      hout t (fun h => hp1 ⟨t, hinpool t h, aurix_inCsa_self t⟩)
    have hmmt : s1.mem (w.s.mem t) = w.s.mem (w.s.mem t) :=
      hout _ (fun h => hp2 ⟨_, hinpool _ h, aurix_inCsa_self _⟩)
    refine ⟨?_, hcne1, hp1, ?_⟩
    · show Chain s1.mem (storedHandle s1.mem t) (cs t)
      unfold storedHandle
      rw [hmt, hmmt]
      apply aurix_chain_congr w.s.mem _ (cs t) _ _ hch1
      intro a ha
      exact hout a (fun h => hdisT t ht0 tcb hin hne a ha h)
    · show ¬ inPool pool (s1.mem t)
      rw [hmt]; exact hp2
  · exact hnd.erase tcb
  · intro t ht c hc hcF
    obtain ⟨hne, ht0⟩ := (hmem_erase t).mp ht
    rcases List.mem_append.mp hcF with h | h
    · exact hdisT t ht0 tcb hin hne c hc h
    · exact hdisF t ht0 c hc h
  · intro t ht t1 ht1 hne c hc
    exact hdisT t ((hmem_erase t).mp ht).2 t1 ((hmem_erase t1).mp ht1).2 hne c hc
  · intro c
    rw [hpool c]
    constructor
    · rintro (h | ⟨t, ht, hct⟩)
      · exact Or.inl (List.mem_append_right _ h)
      · by_cases e : t = tcb
        · subst e; exact Or.inl (List.mem_append_left _ hct)
        · exact Or.inr ⟨t, (hmem_erase t).mpr ⟨e, ht⟩, hct⟩
    · rintro (h | ⟨t, ht, hct⟩)
      · rcases List.mem_append.mp h with h1 | h1
        · exact Or.inr ⟨tcb, hin, h1⟩
        · exact Or.inl h1
      · exact Or.inr ⟨t, ((hmem_erase t).mp ht).2, hct⟩

/-- Every reachable world satisfies the invariant for some free list and task
chains. -/
theorem aurix_pool_invariant_reachable (pool : List Nat) (w : World)
    (h : PoolReachable pool w) : ∃ F cs, PoolInvariant pool w F cs := by
  induction h with
  | init s hs => exact ⟨pool, fun _ => [], aurix_pool_invariant_init pool s hs⟩
  | step w w1 _ hstep ih =>
    obtain ⟨F, cs, hinv⟩ := ih
    cases hstep with
    | create top code param tcb sp s1 hL hU hret h1 h2 h3 h4 h5 =>
      exact aurix_create_keeps pool w F cs top code param tcb sp s1 hinv hL hU hret
        h1 h2 h3 h4 h5
    | reclaim tcb fuel s1 hin _ hrun =>
      exact aurix_reclaim_keeps pool w F cs tcb fuel s1 hinv hin hrun

/-- Under the invariant every live task can be reclaimed: with enough fuel
`vPortReclaimCSA` returns. -/
theorem aurix_reclaim_returns (pool : List Nat) (w : World) (F : List Nat)
    (cs : Nat → List Nat) (tcb : Nat)
    (hinv : PoolInvariant pool w F cs) (hin : tcb ∈ w.tasks) :
    ∃ s1, vPortReclaimCSA (cs tcb).length w.s tcb = some s1 := by
  obtain ⟨-, htasks, -, -, -, -⟩ := hinv
  obtain ⟨hch, hcne, -, -⟩ := htasks tcb hin
  have hchm : Chain w.s.mem (w.s.mem (w.s.mem tcb) &&& portCSA_FCX_MASK) (cs tcb) :=
    aurix_chain_start _ _ (w.s.mem (w.s.mem tcb)) _ (aurix_csa_masked _).symm hch
  obtain ⟨s1, hrun, -⟩ := aurix_reclaim_result w.s tcb (cs tcb) (cs tcb).length hcne hchm
    (aurix_chain_nodup _ _ _ hchm) (Nat.le_refl _)
  exact ⟨s1, hrun⟩

end AURIX

open Port AURIX in
/-- C18. AURIX segment-chain invariant over the state (context save area
memory, `FCX`, the live tasks with their stored handles), for the operations
successful `pxPortInitialiseStack` (adds a task) and `vPortReclaimCSA` on a
live, non-running task (removes it): if initially every context save area is
on the free list and there are no tasks, then after any sequence of these
operations every area is reachable from exactly one of the free list or one
live task's chain: never from both, never from two tasks, never from
neither. -/
theorem aurix_segment_chain_invariant (pool : List Nat) (w : World)
    (h : PoolReachable pool w) : SegmentChainInvariant pool w := by
  obtain ⟨F, cs, hF, htasks, -, hdisF, hdisT, hpool⟩ :=
    aurix_pool_invariant_reachable pool w h
  refine ⟨F, cs, hF, fun t ht => (htasks t ht).1, ?_⟩
  intro c hc
  rcases (hpool c).mp hc with hcF | ⟨t, ht, hct⟩
  · exact Or.inl ⟨hcF, fun t ht hct => hdisF t ht c hct hcF⟩
  · refine Or.inr ⟨hdisF t ht c hct, t, ht, hct, ?_⟩
    intro t1 ht1 hct1
    by_contra hne
    exact hdisT t1 ht1 t ht hne c hct1 hct

open Port AURIX in
/-- On the pool of three areas `0x40`, `0x80`, `0xC0`: a task with control
block `0x3000` is created and then reclaimed; the invariant holds in the
world with the task and in the world after its reclamation. -/
theorem aurix_segment_chain_invariant_witness :
    ∃ w w1, PoolReachable [0x40, 0x80, 0xC0] w ∧ w.tasks = [0x3000] ∧
      PoolStep [0x40, 0x80, 0xC0] w w1 ∧ w1.tasks = [] ∧
      SegmentChainInvariant [0x40, 0x80, 0xC0] w ∧
      SegmentChainInvariant [0x40, 0x80, 0xC0] w1 := by
  obtain ⟨t, hret, -, -, -, -, -, hcur, -⟩ :=
    aurix_init_success poolState 0x1000 0x8000 0x77 (by decide) (by decide)
  have h0 : PoolReachable [0x40, 0x80, 0xC0] { s := poolState, tasks := [] } :=
    PoolReachable.init poolState (by decide)
  have hstep1 := @PoolStep.create [0x40, 0x80, 0xC0] { s := poolState, tasks := [] }
    0x1000 0x8000 0x77 0x3000 (ptrDec (ptrDec 0x1000)) t (by decide) (by decide) hret
    (by decide) (by decide) (by decide) (by decide) (by intro t ht; cases ht)
  have h1 := PoolReachable.step _ _ h0 hstep1
  obtain ⟨F, cs, hinv⟩ := aurix_pool_invariant_reachable _ _ h1
  obtain ⟨s2, hrun⟩ := aurix_reclaim_returns _ _ F cs 0x3000 hinv (List.mem_cons_self _ _)
  have hstep2 := @PoolStep.reclaim [0x40, 0x80, 0xC0] _ 0x3000 (cs 0x3000).length s2
    (List.mem_cons_self _ _)
    (by show (0x3000 : Nat) ≠ t.pxCurrentTCB; rw [hcur]; decide) hrun
  have h2 := PoolReachable.step _ _ h1 hstep2
  exact ⟨_, _, h1, rfl, hstep2, by simp, aurix_segment_chain_invariant _ _ h1,
    aurix_segment_chain_invariant _ _ h2⟩

/-! ## The boot value of the nesting counter -/

namespace AURIX

open Port

/-- An enter at a counter of at least 1 disables the interrupts and
increments. -/
theorem aurix_enter_above (s : State) (h1 : 1 ≤ s.uxCriticalNesting)
    (hn : s.uxCriticalNesting + 1 < WORD) :
    vPortEnterCritical s = Outcome.returned ()
      { s with IE := false, uxCriticalNesting := s.uxCriticalNesting + 1 } := by
  have hmod : (s.uxCriticalNesting + 1) % WORD = s.uxCriticalNesting + 1 :=
    Nat.mod_eq_of_lt hn
  have hne : s.uxCriticalNesting + 1 ≠ 1 := by omega
  simp [vPortEnterCritical, portDISABLE_INTERRUPTS, disable, hmod, hne]

/-- An exit at a counter of at least 2 only decrements. -/
theorem aurix_exit_above (s : State) (h2 : 2 ≤ s.uxCriticalNesting)
    (hn : s.uxCriticalNesting < WORD) :
    vPortExitCritical s = Outcome.returned ()
      { s with uxCriticalNesting := s.uxCriticalNesting - 1 } := by
  have hmod : (s.uxCriticalNesting + WORD - 1) % WORD = s.uxCriticalNesting - 1 := by
    have : s.uxCriticalNesting + WORD - 1 = (s.uxCriticalNesting - 1) + WORD := by omega
    rw [this, Nat.add_mod_right]
    exact Nat.mod_eq_of_lt (by omega)
  have hne : s.uxCriticalNesting - 1 ≠ 0 := by omega
  have hn0 : s.uxCriticalNesting ≠ 0 := by omega
  simp [vPortExitCritical, configASSERT, Outcome.bind, hmod, hne, hn0]

end AURIX

namespace Port

/-- The prefix one call longer is the prefix followed by one call. -/
theorem crit_take_succ (cs : List CritCall) (k : Nat) (hk : k < cs.length) :
    ∃ c, cs.take (k + 1) = cs.take k ++ [c] := by
  refine ⟨cs[k], ?_⟩
  rw [List.take_succ, List.getElem?_eq_getElem hk]
  rfl

/-- A prefix with an enter in it is not the empty prefix. -/
theorem crit_take_pos (cs : List CritCall) (k : Nat)
    (h : 1 ≤ (cs.take k).count CritCall.enter) : 0 < k := by
  have h1 := List.count_le_length CritCall.enter (cs.take k)
  have h2 := List.length_take_le k cs
  omega

end Port

namespace AURIX

open Port

/-- From a counter `b ≥ 1`, along a sequence that stays on top of its starting
depth: every call returns, the counter is `b` plus the current depth, and the
interrupts are disabled after every non-empty prefix. -/
theorem aurix_sentinel_run (s0 : State) (cs : List CritCall) (b : Nat)
    (hb : 1 ≤ b) (h0 : s0.uxCriticalNesting = b) (hcs : NestedBelow (WORD - b) cs) :
    ∀ k, k ≤ cs.length → ∃ t, critRun (cs.take k) s0 = Outcome.returned () t ∧
      t.uxCriticalNesting
        = b + ((cs.take k).count CritCall.enter - (cs.take k).count CritCall.exit) ∧
      (0 < k → t.IE = false) := by
  intro k
  induction k with
  | zero =>
    intro _
    exact ⟨s0, rfl, by simp [h0], fun h => absurd h (Nat.lt_irrefl 0)⟩
  | succ k ih =>
    intro hk
    obtain ⟨t, hrun, hcnt, hie⟩ := ih (by omega)
    obtain ⟨c, hc⟩ := crit_take_succ cs k (by omega)
    obtain ⟨hle, hlt⟩ := hcs k (by omega)
    obtain ⟨hle1, hlt1⟩ := hcs (k + 1) hk
    rw [hc] at hle1 hlt1 ⊢
    rw [aurix_critRun_append, hrun, Outcome.bind_returned]
    simp only [List.count_append] at hle1 hlt1 ⊢
    cases c with
    | enter =>
      have e1 : List.count CritCall.enter [CritCall.enter] = 1 := rfl
      have e2 : List.count CritCall.exit [CritCall.enter] = 0 := rfl
      rw [e1, e2] at hle1 hlt1 ⊢
      have hstep := aurix_enter_above t (by omega) (by omega)
      refine ⟨{ t with IE := false, uxCriticalNesting := t.uxCriticalNesting + 1 },
        ?_, ?_, ?_⟩
      · simp only [critRun, critStep, hstep, Outcome.bind_returned]
      · show t.uxCriticalNesting + 1 = _
        omega
      · intro _; rfl
    | exit =>
      have e1 : List.count CritCall.enter [CritCall.exit] = 0 := rfl
      have e2 : List.count CritCall.exit [CritCall.exit] = 1 := rfl
      rw [e1, e2] at hle1 hlt1 ⊢
      have hstep := aurix_exit_above t (by omega) (by omega)
      refine ⟨{ t with uxCriticalNesting := t.uxCriticalNesting - 1 }, ?_, ?_, ?_⟩
      · simp only [critRun, critStep, hstep, Outcome.bind_returned]
      · show t.uxCriticalNesting - 1 = _
        omega
      · intro _
        exact hie (crit_take_pos cs k (by omega))

end AURIX

namespace C29x

open Port

/-- From a counter `b ≥ 1`, along a sequence that stays on top of its starting
depth: every call returns, the counter is `b` plus the current depth, and the
interrupts are disabled after every non-empty prefix. -/
theorem c29x_sentinel_run (s0 : State) (cs : List CritCall) (b : Nat)
    (hb : 1 ≤ b) (h0 : s0.ulCriticalNesting = b) (hcs : NestedBelow (WORD - b) cs) :
    ∀ k, k ≤ cs.length → ∃ t, critRun (cs.take k) s0 = Outcome.returned () t ∧
      t.ulCriticalNesting
        = b + ((cs.take k).count CritCall.enter - (cs.take k).count CritCall.exit) ∧
      (0 < k → intEnableBit t.DSTS = 0) := by
  intro k
  induction k with
  | zero =>
    intro _
    exact ⟨s0, rfl, by simp [h0], fun h => absurd h (Nat.lt_irrefl 0)⟩
  | succ k ih =>
    intro hk
    obtain ⟨t, hrun, hcnt, hie⟩ := ih (by omega)
    obtain ⟨c, hc⟩ := crit_take_succ cs k (by omega)
    obtain ⟨hle, hlt⟩ := hcs k (by omega)
    obtain ⟨hle1, hlt1⟩ := hcs (k + 1) hk
    rw [hc] at hle1 hlt1 ⊢
    rw [c29x_critRun_append, hrun, Outcome.bind_returned]
    simp only [List.count_append] at hle1 hlt1 ⊢
    cases c with
    | enter =>
      have e1 : List.count CritCall.enter [CritCall.enter] = 1 := rfl
      have e2 : List.count CritCall.exit [CritCall.enter] = 0 := rfl
      rw [e1, e2] at hle1 hlt1 ⊢
      have hstep : vPortEnterCritical t = _ :=
        c29x_enter_step t.DSTS t.ulCriticalNesting (by omega)
      refine ⟨
        { DSTS := t.DSTS - intEnableBit t.DSTS * portFLAGS_INT_ENABLED,
          ulCriticalNesting := t.ulCriticalNesting + 1 }, ?_, ?_, ?_⟩
      · simp only [critRun, critStep, hstep, Outcome.bind_returned]
      · show t.ulCriticalNesting + 1 = _
        omega
      · intro _
        exact c29x_DISINT_bit t.DSTS
    | exit =>
      have e1 : List.count CritCall.enter [CritCall.exit] = 0 := rfl
      have e2 : List.count CritCall.exit [CritCall.exit] = 1 := rfl
      rw [e1, e2] at hle1 hlt1 ⊢
      have hstep : vPortExitCritical t = _ :=
        c29x_exit_nested t.DSTS t.ulCriticalNesting (by omega) (by omega)
      refine ⟨{ DSTS := t.DSTS, ulCriticalNesting := t.ulCriticalNesting - 1 }, ?_, ?_, ?_⟩
      · simp only [critRun, critStep, hstep, Outcome.bind_returned]
      · show t.ulCriticalNesting - 1 = _
        omega
      · intro _
        exact hie (crit_take_pos cs k (by omega))

end C29x

namespace C29x

open Port

/-- A cleared enable bit means that the interrupts are disabled. -/
theorem c29x_bit_zero_disabled (s : State) (h : intEnableBit s.DSTS = 0) :
    s.intEnabled = false := by
  simp [State.intEnabled, h]

end C29x

open Port in
/-- C21. The boot value of the nesting counter keeps the interrupts masked.
Start from the initial counter value (`0xaaaaaaaa` in the AURIX port, 10 in the
C29x port) and take any sequence of `vPortEnterCritical` / `vPortExitCritical`
calls in which no prefix contains more exits than enters and whose nesting
depth stays below `2 ^ 32` minus the boot value.  Then every call returns, and
after every prefix the counter is the boot value plus the depth, so it never
equals 0; the interrupts are disabled after every non-empty prefix, and in
particular before and after every `vPortExitCritical` call, so no exit
enables them.  And C29x `xPortStartScheduler` ends with the three statements
`ulCriticalNesting = 0`, `portENABLE_INTERRUPTS()`,
`portRESTORE_FIRST_CONTEXT()`, in this order: the counter is 0 when the
interrupts are enabled and when the first context is restored, and no earlier
statement of the function is one of these two. -/
theorem boot_sentinel_keeps_interrupts_masked (sA : AURIX.State) (sC : C29x.State)
    (D : C29x.Setup)
    (hA : sA.uxCriticalNesting = AURIX.uxCriticalNestingInitial)
    (hC : sC.ulCriticalNesting = C29x.portINITIAL_CRITICAL_NESTING) :
    (∀ cs, NestedBelow (WORD - AURIX.uxCriticalNestingInitial) cs →
      (∀ k, k ≤ cs.length → ∃ t, AURIX.critRun (cs.take k) sA = Outcome.returned () t ∧
        t.uxCriticalNesting = AURIX.uxCriticalNestingInitial +
          ((cs.take k).count CritCall.enter - (cs.take k).count CritCall.exit) ∧
        t.uxCriticalNesting ≠ 0 ∧ (0 < k → t.IE = false)) ∧
      (∀ k, k < cs.length → cs.take (k + 1) = cs.take k ++ [CritCall.exit] →
        ∃ t t1, AURIX.critRun (cs.take k) sA = Outcome.returned () t ∧
          AURIX.vPortExitCritical t = Outcome.returned () t1 ∧
          t.IE = false ∧ t1.IE = false)) ∧
    (∀ cs, NestedBelow (WORD - C29x.portINITIAL_CRITICAL_NESTING) cs →
      (∀ k, k ≤ cs.length → ∃ t, C29x.critRun (cs.take k) sC = Outcome.returned () t ∧
        t.ulCriticalNesting = C29x.portINITIAL_CRITICAL_NESTING +
          ((cs.take k).count CritCall.enter - (cs.take k).count CritCall.exit) ∧
        t.ulCriticalNesting ≠ 0 ∧ (0 < k → t.intEnabled = false)) ∧
      (∀ k, k < cs.length → cs.take (k + 1) = cs.take k ++ [CritCall.exit] →
        ∃ t t1, C29x.critRun (cs.take k) sC = Outcome.returned () t ∧
          C29x.vPortExitCritical t = Outcome.returned () t1 ∧
          t.intEnabled = false ∧ t1.intEnabled = false)) ∧
    (∃ pre t0 t1, C29x.xPortStartScheduler D sC =
        pre ++ [(C29x.StartStep.resetCriticalNesting, t0),
          (C29x.StartStep.portENABLE_INTERRUPTS, t1),
          (C29x.StartStep.portRESTORE_FIRST_CONTEXT, t1)] ∧
      t0.ulCriticalNesting = 0 ∧ t1.ulCriticalNesting = 0 ∧ t1.intEnabled = true ∧
      ∀ e ∈ pre, e.1 ≠ C29x.StartStep.portENABLE_INTERRUPTS ∧
        e.1 ≠ C29x.StartStep.portRESTORE_FIRST_CONTEXT) := by
  have hbA : 1 ≤ AURIX.uxCriticalNestingInitial := by decide
  have hbC : 1 ≤ C29x.portINITIAL_CRITICAL_NESTING := by decide
  refine ⟨?_, ?_, ?_⟩
  · intro cs hcs
    have hrun := AURIX.aurix_sentinel_run sA cs _ hbA hA hcs
    refine ⟨?_, ?_⟩
    · intro k hk
      obtain ⟨t, h1, h2, h3⟩ := hrun k hk
      exact ⟨t, h1, h2, by omega, h3⟩
    · intro k hk hexit
      obtain ⟨t, h1, h2, h3⟩ := hrun k (by omega)
      obtain ⟨t1, g1, -, g3⟩ := hrun (k + 1) (by omega)
      obtain ⟨hle1, -⟩ := hcs (k + 1) (by omega)
      rw [hexit, List.count_append, List.count_append] at hle1
      have e1 : List.count CritCall.enter [CritCall.exit] = 0 := rfl
      have e2 : List.count CritCall.exit [CritCall.exit] = 1 := rfl
      rw [e1, e2] at hle1
      have hpos : 0 < k := crit_take_pos cs k (by omega)
      rw [hexit, AURIX.aurix_critRun_append, h1, Outcome.bind_returned] at g1
      have hstep : AURIX.vPortExitCritical t = Outcome.returned () t1 := by
        simp only [AURIX.critRun, AURIX.critStep] at g1
        cases hx : AURIX.vPortExitCritical t with
        | returned v u =>
          rw [hx] at g1
          simpa [Outcome.bind] using g1
        | asserted u => rw [hx] at g1; cases g1
        | trapped u => rw [hx] at g1; cases g1
      exact ⟨t, t1, h1, hstep, h3 hpos, g3 (by omega)⟩
  · intro cs hcs
    have hrun := C29x.c29x_sentinel_run sC cs _ hbC hC hcs
    refine ⟨?_, ?_⟩
    · intro k hk
      obtain ⟨t, h1, h2, h3⟩ := hrun k hk
      exact ⟨t, h1, h2, by omega, fun h => C29x.c29x_bit_zero_disabled t (h3 h)⟩
    · intro k hk hexit
      obtain ⟨t, h1, h2, h3⟩ := hrun k (by omega)
      obtain ⟨t1, g1, -, g3⟩ := hrun (k + 1) (by omega)
      obtain ⟨hle1, -⟩ := hcs (k + 1) (by omega)
      rw [hexit, List.count_append, List.count_append] at hle1
      have e1 : List.count CritCall.enter [CritCall.exit] = 0 := rfl
      have e2 : List.count CritCall.exit [CritCall.exit] = 1 := rfl
      rw [e1, e2] at hle1
      have hpos : 0 < k := crit_take_pos cs k (by omega)
      rw [hexit, C29x.c29x_critRun_append, h1, Outcome.bind_returned] at g1
      have hstep : C29x.vPortExitCritical t = Outcome.returned () t1 := by
        simp only [C29x.critRun, C29x.critStep] at g1
        cases hx : C29x.vPortExitCritical t with
        | returned v u =>
          rw [hx] at g1
          simpa [Outcome.bind] using g1
        | asserted u => rw [hx] at g1; cases g1
        | trapped u => rw [hx] at g1; cases g1
      exact ⟨t, t1, h1, hstep, C29x.c29x_bit_zero_disabled t (h3 hpos),
        C29x.c29x_bit_zero_disabled t1 (g3 (by omega))⟩
  · refine ⟨[(C29x.StartStep.vPortSetupSWInterrupt, D.vPortSetupSWInterrupt sC),
      (C29x.StartStep.vPortSetupTimerInterrupt,
        D.vPortSetupTimerInterrupt (D.vPortSetupSWInterrupt sC))], _, _, rfl, rfl, rfl, ?_, ?_⟩
    · exact C29x.c29x_ENINT_intEnabled _
    · intro e he
      rcases List.mem_cons.mp he with h | h
      · rw [h]; exact ⟨by simp, by simp⟩
      · rw [List.mem_singleton.mp h]; exact ⟨by simp, by simp⟩

open Port in
/-- Two nested critical sections opened during boot, and the first of them
closed again: on AURIX from the pool state (counter `0xaaaaaaaa`) the counter
is `0xaaaaaaab`, on C29x from counter 10 with interrupts enabled it is 11, and
in both the interrupts are disabled. -/
theorem boot_sentinel_keeps_interrupts_masked_witness :
    (∃ t, AURIX.critRun [CritCall.enter, CritCall.enter, CritCall.exit] AURIX.poolState
        = Outcome.returned () t ∧ t.uxCriticalNesting = 0xaaaaaaab ∧ t.IE = false) ∧
    (∃ t, C29x.critRun [CritCall.enter, CritCall.enter, CritCall.exit]
        { DSTS := 0x010000, ulCriticalNesting := 10 }
        = Outcome.returned () t ∧ t.ulCriticalNesting = 11 ∧ t.intEnabled = false) := by
  have h := boot_sentinel_keeps_interrupts_masked AURIX.poolState
    { DSTS := 0x010000, ulCriticalNesting := 10 }
    { vPortSetupSWInterrupt := id, vPortSetupTimerInterrupt := id } rfl rfl
  obtain ⟨hA, hC, -⟩ := h
  obtain ⟨t, a1, a2, -, a4⟩ :=
    (hA [CritCall.enter, CritCall.enter, CritCall.exit] (by decide)).1 3 (by decide)
  obtain ⟨u, c1, c2, -, c4⟩ :=
    (hC [CritCall.enter, CritCall.enter, CritCall.exit] (by decide)).1 3 (by decide)
  exact ⟨⟨t, a1, by rw [a2]; decide, a4 (by decide)⟩,
    ⟨u, c1, by rw [c2]; decide, c4 (by decide)⟩⟩

/-! ## U2x: writers of the scheduler request flag -/

namespace U2x

open Port

/-- The scheduler flags after `vPortSetSwitch`. -/
theorem u2x_setswitch_effect (cfg : Config) (x : Int) (r : Regs) (s : State) (d : Nat) :
    (vPortSetSwitch cfg x r s).xPortScheduleStatus d =
      if x ≠ pdFALSE ∧ d = xPortGET_CORE_ID cfg r then PORT_SCHEDULER_TASKSWITCH
      else s.xPortScheduleStatus d := by
  unfold vPortSetSwitch
  by_cases hx : x ≠ pdFALSE
  · simp only [hx, if_true, setScheduleStatus, true_and, ne_eq, not_false_eq_true]
  · simp only [hx, if_false, false_and]

/-- The scheduler flags after `vPortTickISR`, for a kernel whose
critical-section functions keep the port's variables and whose tick keeps the
calling core's identity and the flags. -/
theorem u2x_tick_effect (cfg : Config) (K : Kernel) (r : Regs) (s : State) (d : Nat)
    (hK : K.keepsPort) :
    (vPortTickISR cfg K r s).2.xPortScheduleStatus d =
      if tickResult cfg K r s ≠ pdFALSE ∧ d = xPortGET_CORE_ID cfg r then
        PORT_SCHEDULER_TASKSWITCH
      else s.xPortScheduleStatus d := by
  obtain ⟨hEnter, hExit, hTick⟩ := hK
  unfold vPortTickISR tickResult
  by_cases hcores : cfg.configNUMBER_OF_CORES > 1
  · obtain ⟨hpe, hst, -, -, -⟩ := hEnter r s
    simp only [hcores, if_true]
    rw [(hExit _ _ _).2.1]
    generalize hs1c : ({ (K.vTaskEnterCriticalFromISR r s).2.2 with
      calls := (K.vTaskEnterCriticalFromISR r s).2.2.calls ++
        [Event.xTaskIncrementTick (xPortGET_CORE_ID cfg (K.vTaskEnterCriticalFromISR r s).2.1)] }
      : State) = s1c
    have hs1c_st : s1c.xPortScheduleStatus = s.xPortScheduleStatus := by
      rw [← hs1c]; exact hst
    obtain ⟨hpe2, hst2⟩ := hTick (K.vTaskEnterCriticalFromISR r s).2.1 s1c
    have hcore : xPortGET_CORE_ID cfg (K.xTaskIncrementTick
        (K.vTaskEnterCriticalFromISR r s).2.1 s1c).2.1 = xPortGET_CORE_ID cfg r := by
      simp only [xPortGET_CORE_ID, hcores, if_true, hpe2, hpe]
    by_cases ht : (K.xTaskIncrementTick (K.vTaskEnterCriticalFromISR r s).2.1 s1c).1 ≠ pdFALSE
    · simp only [ht, if_true, setScheduleStatus, hcore, hst2, hs1c_st, true_and, ne_eq,
        not_false_eq_true]
    · simp only [ht, if_false, hst2, hs1c_st, false_and]
  · simp only [hcores, if_false]
    generalize hs1c : ({ s with
      calls := s.calls ++ [Event.xTaskIncrementTick (xPortGET_CORE_ID cfg r)] } : State) = s1c
    have hs1c_st : s1c.xPortScheduleStatus = s.xPortScheduleStatus := by
      rw [← hs1c]
    obtain ⟨-, hst2⟩ := hTick r s1c
    have hcore : xPortGET_CORE_ID cfg (K.xTaskIncrementTick r s1c).2.1
        = xPortGET_CORE_ID cfg r := by
      simp only [xPortGET_CORE_ID, hcores, if_false]
    by_cases ht : (K.xTaskIncrementTick r s1c).1 ≠ pdFALSE
    · simp only [ht, if_true, setScheduleStatus, hcore, hst2, hs1c_st, true_and, ne_eq,
        not_false_eq_true]
    · simp only [ht, if_false, hst2, hs1c_st, false_and]

end U2x

namespace U2x

open Port

/-- The ticking kernel keeps the port's variables. -/
theorem u2x_ticking_keepsPort : Kernel.ticking.keepsPort := by
  refine ⟨?_, ?_, ?_⟩
  · intro r s
    exact ⟨rfl, rfl, rfl, rfl, rfl⟩
  · intro x r s
    refine ⟨?_, rfl, rfl, rfl, rfl⟩
    simp only [Kernel.ticking, Kernel.simple, vPortClearInterruptMask]
  · intro r s
    exact ⟨rfl, rfl⟩

/-- The ticking kernel records no call of `xTaskIncrementTick` itself. -/
theorem u2x_ticking_keepsTickCalls : Kernel.ticking.keepsTickCalls :=
  ⟨fun _ _ => rfl, fun _ _ _ => rfl, fun _ _ => rfl⟩

/-- The kernel whose tick asks core 0 to yield keeps the calling core's
identity and the scheduler request flags, although its tick writes
`IPI1REQS`. -/
theorem u2x_yielding_keepsPort (cfg : Config) : (Kernel.yielding cfg).keepsPort := by
  refine ⟨?_, ?_, ?_⟩
  · intro r s
    exact ⟨rfl, rfl, rfl, rfl, rfl⟩
  · intro x r s
    refine ⟨?_, rfl, rfl, rfl, rfl⟩
    simp only [Kernel.yielding, Kernel.simple, vPortClearInterruptMask]
  · intro r s
    refine ⟨rfl, ?_⟩
    simp only [Kernel.yielding, vPortYieldCore]
    split <;> rfl

end U2x

open Port U2x in
/-- On core 1 of a two-core system whose flag is
`PORT_SCHEDULER_STARTFIRSTTASK`, `vPortSetSwitch( pdTRUE )` and `vPortTickISR`
with a tick that asks for a switch both leave the flag at
`PORT_SCHEDULER_TASKSWITCH`. -/
theorem u2x_start_first_task_overwritten :
    (setScheduleStatus initialState 1 PORT_SCHEDULER_STARTFIRSTTASK).xPortScheduleStatus 1
      = PORT_SCHEDULER_STARTFIRSTTASK ∧
    (vPortSetSwitch dualCore pdTRUE (coreRegs 1)
      (setScheduleStatus initialState 1 PORT_SCHEDULER_STARTFIRSTTASK)).xPortScheduleStatus 1
      = PORT_SCHEDULER_TASKSWITCH ∧
    tickResult dualCore Kernel.ticking (coreRegs 1)
      (setScheduleStatus initialState 1 PORT_SCHEDULER_STARTFIRSTTASK) = pdTRUE ∧
    (vPortTickISR dualCore Kernel.ticking (coreRegs 1)
      (setScheduleStatus initialState 1 PORT_SCHEDULER_STARTFIRSTTASK)).2.xPortScheduleStatus 1
      = PORT_SCHEDULER_TASKSWITCH := by
  refine ⟨by decide, by decide, by decide, by decide⟩

open Port U2x in
/-- C22, as the code has it.  On core `c` of a system built for more than one
core, with `xPortScheduleStatus[ c ]` equal to `PORT_SCHEDULER_STARTFIRSTTASK`:
`vPortIPIHander` leaves the flag unchanged; `vPortTickISR` whose
`xTaskIncrementTick` returns non-zero, and `vPortSetSwitch` with a non-zero
argument, store `PORT_SCHEDULER_TASKSWITCH` (they test only whether a switch
is due).  The kernel's critical-section functions are taken to leave the
port's variables alone, and its `xTaskIncrementTick` to leave the calling
core's identity and the flags alone; it may ask other cores to yield, which
writes `IPI1REQS`. -/
theorem u2x_start_first_task_guard (cfg : Config) (K : Kernel) (r : Regs)
    (s : U2x.State) (c : Nat)
    (hcores : cfg.configNUMBER_OF_CORES > 1) (hK : K.keepsPort)
    (hc : xPortGET_CORE_ID cfg r = c)
    (hflag : s.xPortScheduleStatus c = PORT_SCHEDULER_STARTFIRSTTASK) :
    (vPortIPIHander cfg K r s).2.xPortScheduleStatus c = PORT_SCHEDULER_STARTFIRSTTASK ∧
    (tickResult cfg K r s ≠ pdFALSE →
      (vPortTickISR cfg K r s).2.xPortScheduleStatus c = PORT_SCHEDULER_TASKSWITCH) ∧
    (∀ x, x ≠ pdFALSE →
      (vPortSetSwitch cfg x r s).xPortScheduleStatus c = PORT_SCHEDULER_TASKSWITCH) := by
  have hpe : r.PEID = c := by
    simpa only [xPortGET_CORE_ID, hcores, if_true] using hc
  refine ⟨?_, ?_, ?_⟩
  · rw [(u2x_ipi_handler_effect cfg K r s hcores hK).1, hpe]
    simp only [if_true, hflag]
  · intro ht
    rw [u2x_tick_effect cfg K r s c hK, hc]
    simp only [ht, ne_eq, not_false_eq_true, true_and, if_true]
  · intro x hx
    rw [u2x_setswitch_effect, hc]
    simp only [hx, ne_eq, not_false_eq_true, true_and, if_true]

open Port U2x in
/-- Core 1 of a two-core system with its flag at
`PORT_SCHEDULER_STARTFIRSTTASK`, with a kernel whose tick asks core 0 to yield
(it writes `IPI1REQS`): the handler keeps the flag, the tick routine and
`vPortSetSwitch( pdTRUE )` replace it. -/
theorem u2x_start_first_task_guard_witness :
    (vPortIPIHander dualCore (Kernel.yielding dualCore) (coreRegs 1)
      (setScheduleStatus initialState 1 PORT_SCHEDULER_STARTFIRSTTASK)).2.xPortScheduleStatus 1
      = PORT_SCHEDULER_STARTFIRSTTASK ∧
    (vPortTickISR dualCore (Kernel.yielding dualCore) (coreRegs 1)
      (setScheduleStatus initialState 1 PORT_SCHEDULER_STARTFIRSTTASK)).2.xPortScheduleStatus 1
      = PORT_SCHEDULER_TASKSWITCH ∧
    (vPortTickISR dualCore (Kernel.yielding dualCore) (coreRegs 1)
      (setScheduleStatus initialState 1 PORT_SCHEDULER_STARTFIRSTTASK)).2.IPI1REQS = 1 ∧
    (vPortSetSwitch dualCore pdTRUE (coreRegs 1)
      (setScheduleStatus initialState 1 PORT_SCHEDULER_STARTFIRSTTASK)).xPortScheduleStatus 1
      = PORT_SCHEDULER_TASKSWITCH := by
  obtain ⟨h1, h2, h3⟩ := u2x_start_first_task_guard dualCore (Kernel.yielding dualCore)
    (coreRegs 1) (setScheduleStatus initialState 1 PORT_SCHEDULER_STARTFIRSTTASK) 1
    (by decide) (u2x_yielding_keepsPort dualCore) (by decide) (by decide)
  exact ⟨h1, h2 (by decide), by decide, h3 pdTRUE (by decide)⟩

namespace AURIX

open Port

/-- The loop of `vPortSaveContext` and `vPortLoadContext` continues the walk
along the call stack. -/
theorem aurix_followLinks_csaAt (m : Mem Nat) (pcxi : Nat) (n : Nat) :
    ∀ k, followLinks m n (csaAt m pcxi k) = csaAt m pcxi (k + n) := by
  induction n with
  | zero => intro k; rfl
  | succ n ih =>
    intro k
    have h := ih (k + 1)
    have e : k + 1 + n = k + (n + 1) := by omega
    rw [e] at h
    exact h

/-- The walk depends only on the link words of the areas it passes. -/
theorem aurix_csaAt_congr (m m1 : Mem Nat) (pcxi : Nat) (n : Nat)
    (h : ∀ k, k < n → m1 (idx (csaAt m pcxi k) 0) = m (idx (csaAt m pcxi k) 0)) :
    ∀ k, k ≤ n → csaAt m1 pcxi k = csaAt m pcxi k := by
  intro k
  induction k with
  | zero => intro _; rfl
  | succ k ih =>
    intro hk
    show pxPortCsaToAddress (m1 (idx (csaAt m1 pcxi k) 0))
      = pxPortCsaToAddress (m (idx (csaAt m pcxi k) 0))
    rw [ih (by omega), h k (by omega)]

/-- At a call depth other than 0 `vPortSaveContext` stores what it would
store at depth 0 with `PCXI` replaced by the link word found after the walk. -/
theorem aurix_save_depth (s : State) (d : Nat) (hd : d ≠ 0) :
    (vPortSaveContext s d).mem =
      (vPortSaveContext
        { s with PCXI := s.mem (idx (csaAt s.mem s.PCXI (d - 1)) 0) } 0).mem := by
  have hw := aurix_followLinks_csaAt s.mem s.PCXI (d - 1) 0
  rw [Nat.zero_add] at hw
  have hw0 : followLinks s.mem (d - 1) (pxPortCsaToAddress s.PCXI)
      = csaAt s.mem s.PCXI (d - 1) := hw
  simp only [vPortSaveContext, hd, hw0, ne_eq, not_false_eq_true, not_true_eq_false, if_true,
    if_false]

/-- The registers are not written by `vPortSaveContext`. -/
theorem aurix_save_regs (s : State) (d : Nat) :
    (vPortSaveContext s d).PCXI = s.PCXI ∧ (vPortSaveContext s d).FCX = s.FCX ∧
    (vPortSaveContext s d).pxCurrentTCB = s.pxCurrentTCB :=
  ⟨rfl, rfl, rfl⟩

/-- The memory and `PCXI` after `vPortLoadContext( 0 )`. -/
theorem aurix_load_zero (s : State) :
    (vPortLoadContext s 0).PCXI = s.mem (s.mem s.pxCurrentTCB) ∧
    ∀ a, a ≠ s.pxCurrentTCB → (vPortLoadContext s 0).mem a = s.mem a := by
  refine ⟨?_, ?_⟩
  · simp only [vPortLoadContext, if_true]
  · intro a ha
    simp only [vPortLoadContext, if_true, Mem.write, ha, if_false]

/-- The memory and `PCXI` after `vPortLoadContext( d )` for `d` other than 0,
when the task control block is none of the areas passed. -/
theorem aurix_load_depth (s : State) (d : Nat) (hd : d ≠ 0)
    (hout : ∀ k, k < d → idx (csaAt s.mem s.PCXI k) 0 ≠ s.pxCurrentTCB) :
    (vPortLoadContext s d).PCXI = s.PCXI ∧
    (vPortLoadContext s d).mem (idx (csaAt s.mem s.PCXI (d - 1)) 0)
      = s.mem (s.mem s.pxCurrentTCB) ∧
    ∀ a, a ≠ s.pxCurrentTCB → a ≠ idx (csaAt s.mem s.PCXI (d - 1)) 0 →
      (vPortLoadContext s d).mem a = s.mem a := by
  -- the memory after the two increments of the stored top of stack
  have hm3 : ∀ (v w : Nat) (k : Nat), k ≤ d - 1 →
      csaAt ((s.mem.write s.pxCurrentTCB v).write s.pxCurrentTCB w) s.PCXI k
        = csaAt s.mem s.PCXI k := by
    intro v w
    apply aurix_csaAt_congr
    intro k hk
    have := hout k (by omega)
    simp only [Mem.write, this, if_false]
  have hwalk : ∀ (v w : Nat),
      followLinks ((s.mem.write s.pxCurrentTCB v).write s.pxCurrentTCB w) (d - 1)
        (pxPortCsaToAddress s.PCXI) = csaAt s.mem s.PCXI (d - 1) := by
    intro v w
    have h := aurix_followLinks_csaAt
      ((s.mem.write s.pxCurrentTCB v).write s.pxCurrentTCB w) s.PCXI (d - 1) 0
    rw [Nat.zero_add] at h
    exact h.trans (hm3 v w (d - 1) (Nat.le_refl _))
  refine ⟨?_, ?_, ?_⟩
  · simp only [vPortLoadContext, hd, if_false]
  · simp only [vPortLoadContext, hd, if_false, hwalk]
    simp only [Mem.write, if_true]
  · intro a ha1 ha2
    simp only [vPortLoadContext, hd, if_false, hwalk]
    simp only [Mem.write, ha1, ha2, if_false]

end AURIX

open Port AURIX in
/-- C23. AURIX call-depth splice.  Let `c 0` be the context save area
addressed by `PCXI` and `c (k + 1)` the area addressed by word 0 of `c k`
(`csaAt`).  For a call depth `d` other than 0 (so for `1 ≤ d ≤ 255`),
`vPortSaveContext( d )` walks `d - 1` links and takes the handle it saves from
word 0 of `c (d - 1)`, and `vPortLoadContext( d )` writes the restored handle
(the word at the task's stored top of stack) into word 0 of that same area
`c (d - 1)`, leaves `PCXI` unchanged and writes no other word than the task's
stored top of stack.  For `d = 0`, `vPortSaveContext` saves `PCXI` itself and
`vPortLoadContext` writes the handle to `PCXI` and to no area.  The saved
handle `H` is the word at the new stored top of stack `S - 2`, where `S` is
word 2 of the upper area linked from the area of `H`; the task control block
is taken not to be one of the two stack words written nor a link word of the
areas walked.  `vPortSyscallYield` passes the same depth to its save and its
load. -/
theorem aurix_call_depth_splice (s : AURIX.State) (d : Nat) :
    (∀ H S, H = (if d = 0 then s.PCXI else s.mem (idx (csaAt s.mem s.PCXI (d - 1)) 0)) →
      S = s.mem (idx (pxPortCsaToAddress (s.mem (idx (pxPortCsaToAddress H) 0))) 2) →
      s.pxCurrentTCB ≠ ptrDec S → s.pxCurrentTCB ≠ ptrDec (ptrDec S) →
      (vPortSaveContext s d).mem s.pxCurrentTCB = ptrDec (ptrDec S) ∧
      (vPortSaveContext s d).mem (ptrDec (ptrDec S)) = H ∧
      (vPortSaveContext s d).PCXI = s.PCXI) ∧
    (d ≠ 0 →
      followLinks s.mem (d - 1) (pxPortCsaToAddress s.PCXI) = csaAt s.mem s.PCXI (d - 1)) ∧
    (d ≠ 0 → (∀ k, k < d → idx (csaAt s.mem s.PCXI k) 0 ≠ s.pxCurrentTCB) →
      (vPortLoadContext s d).mem (idx (csaAt s.mem s.PCXI (d - 1)) 0)
        = s.mem (s.mem s.pxCurrentTCB) ∧
      (vPortLoadContext s d).PCXI = s.PCXI ∧
      ∀ a, a ≠ s.pxCurrentTCB → a ≠ idx (csaAt s.mem s.PCXI (d - 1)) 0 →
        (vPortLoadContext s d).mem a = s.mem a) ∧
    (d = 0 →
      (vPortLoadContext s d).PCXI = s.mem (s.mem s.pxCurrentTCB) ∧
      ∀ a, a ≠ s.pxCurrentTCB → (vPortLoadContext s d).mem a = s.mem a) ∧
    (∀ (depth : Nat) (vTaskSwitchContext : AURIX.State → AURIX.State),
      vPortSyscallYield depth vTaskSwitchContext s
        = vPortLoadContext (vTaskSwitchContext (vPortSaveContext s depth)) depth) := by
  refine ⟨?_, ?_, ?_, ?_, ?_⟩
  · intro H S hH hS h1 h2
    by_cases hd : d = 0
    · subst hd
      rw [if_pos rfl] at hH
      subst hH
      have hmem := aurix_save_mem s S hS h1 h2
      refine ⟨?_, ?_, rfl⟩
      · rw [hmem]; simp only [h2, if_false, if_true]
      · rw [hmem]; simp only [if_true]
    · rw [if_neg hd] at hH
      have hmem := aurix_save_mem { s with PCXI := H } S hS h1 h2
      have hdep := aurix_save_depth s d hd
      rw [← hH] at hdep
      refine ⟨?_, ?_, rfl⟩
      · rw [hdep, hmem]; simp only [h2, if_false, if_true]
      · rw [hdep, hmem]; simp only [if_true]
  · intro _
    have h := aurix_followLinks_csaAt s.mem s.PCXI (d - 1) 0
    rw [Nat.zero_add] at h
    exact h
  · intro hd hout
    obtain ⟨h1, h2, h3⟩ := aurix_load_depth s d hd hout
    exact ⟨h2, h1, h3⟩
  · intro hd
    subst hd
    exact aurix_load_zero s
  · intro depth sw
    rfl

open Port AURIX in
/-- At call depth 2 in the pool state with `PCXI = 1` (so `c 0 = 0x40` and
`c 1 = 0x80`): the walk ends at `0x80`, and `vPortLoadContext( 2 )` writes the
handle found at the stored top of stack (0) into word 0 of `0x80` and leaves
`PCXI` at 1. -/
theorem aurix_call_depth_splice_witness :
    csaAt poolState.mem 1 1 = 0x80 ∧
    followLinks poolState.mem 1 (pxPortCsaToAddress 1) = 0x80 ∧
    (vPortLoadContext { poolState with PCXI := 1 } 2).mem 0x80 = 0 ∧
    (vPortLoadContext { poolState with PCXI := 1 } 2).PCXI = 1 := by
  obtain ⟨-, hwalk, hload, -, -⟩ := aurix_call_depth_splice { poolState with PCXI := 1 } 2
  have hc : csaAt poolState.mem 1 1 = 0x80 := by decide
  have hout : ∀ k, k < 2 → idx (csaAt poolState.mem 1 k) 0 ≠ poolState.pxCurrentTCB := by
    intro k hk
    interval_cases k <;> decide
  obtain ⟨h1, h2, -⟩ := hload (by decide) hout
  have hw := hwalk (by decide)
  exact ⟨hc, hw, h1, h2⟩

/-! ## AURIX: reclamation and the running context -/

namespace AURIX

open Port

/-- `vPortReclaimCSA` neither reads nor writes `PCXI`. -/
theorem aurix_reclaim_pcxi (s : State) (tcb fuel p : Nat) :
    vPortReclaimCSA fuel { s with PCXI := p } tcb
      = (vPortReclaimCSA fuel s tcb).map fun t => { t with PCXI := p } := by
  cases hw : reclaimWalk fuel s.mem
      (pxPortCsaToAddress (s.mem (s.mem tcb) &&& portCSA_FCX_MASK)) with
  | none =>
    simp only [vPortReclaimCSA, hw, Option.map]
  | some r =>
    simp only [vPortReclaimCSA, hw, Option.map, enable, disable]

end AURIX

open Port AURIX in
/-- In `reclaimState` with `PCXI = 1` the register references the area `0x40`,
which is on the chain `0x40 -> 0x80` named by the task's stored handle; the
call returns all the same, with `PCXI` still 1 and the free list
`0x40 -> 0x80 -> 0xC0`: the chain referenced by `PCXI` is on the free list. -/
theorem aurix_reclaim_running_chain_freed :
    pxPortCsaToAddress ({ reclaimState with PCXI := 1 } : AURIX.State).PCXI = 0x40 ∧
    Chain reclaimState.mem (storedHandle reclaimState.mem 0x2000) [0x40, 0x80] ∧
    ∃ s1, vPortReclaimCSA 2 { reclaimState with PCXI := 1 } 0x2000 = some s1 ∧
      s1.PCXI = 1 ∧ s1.FCX = 1 ∧ Chain s1.mem s1.FCX [0x40, 0x80, 0xC0] := by
  refine ⟨by decide, by decide, ?_⟩
  obtain ⟨s1, hrun, hfcx, -, hpcxi, -, -, -, -⟩ :=
    aurix_reclaim_result { reclaimState with PCXI := 1 } 0x2000 [0x40, 0x80] 2
      (by decide) (by decide) (by decide) (by decide)
  have hsp := (aurix_reclaim_spliced { reclaimState with PCXI := 1 } s1 0x2000 2
    [0x40, 0x80] (by decide) (by decide) hrun).2 [0xC0] (by decide) (by decide)
  exact ⟨s1, hrun, hpcxi, hfcx, hsp⟩

open Port AURIX in
/-- C24, as the code has it.  `vPortReclaimCSA` makes no test of the running
context: it neither reads nor writes `PCXI`, so its result is the same for
every value of `PCXI`; and for a stored handle with non-zero address bits `h`
whose areas form the complete chain `cs`, it returns with `FCX = h` and the
free list `cs` followed by the previous free list (when the two share no
area), also when `cs` contains the area referenced by `PCXI`.  Keeping the
call away from the running context is left to the caller. -/
theorem aurix_reclaim_no_running_check (s : AURIX.State) (tcb h fuel : Nat)
    (cs : List Nat)
    (hh : h = s.mem (s.mem tcb) &&& portCSA_FCX_MASK) (hnz : h ≠ 0)
    (hchain : Chain s.mem h cs) (hfuel : cs.length ≤ fuel)
    (hrunning : pxPortCsaToAddress s.PCXI ∈ cs) :
    (∀ p, vPortReclaimCSA fuel { s with PCXI := p } tcb
      = (vPortReclaimCSA fuel s tcb).map fun t => { t with PCXI := p }) ∧
    ∃ s1, vPortReclaimCSA fuel s tcb = some s1 ∧ s1.FCX = h ∧ s1.PCXI = s.PCXI ∧
      pxPortCsaToAddress s1.PCXI ∈ cs ∧
      ∀ F, Chain s.mem s.FCX F → (∀ a ∈ F, a ∉ cs) → Chain s1.mem s1.FCX (cs ++ F) := by
  subst hh
  have hne : cs ≠ [] := aurix_chain_nonempty s.mem _ cs hnz hchain
  obtain ⟨s1, hrun, hfcx, -, hpcxi, -, -, -, -⟩ :=
    aurix_reclaim_result s tcb cs fuel hne hchain (aurix_chain_nodup _ _ _ hchain) hfuel
  refine ⟨fun p => aurix_reclaim_pcxi s tcb fuel p, s1, hrun, hfcx, hpcxi, ?_, ?_⟩
  · rw [hpcxi]; exact hrunning
  · exact (aurix_reclaim_spliced s s1 tcb fuel cs hne hchain hrun).2

open Port AURIX in
/-- The deleted task of `reclaimState` with `PCXI = 1`, which references the
first area of the task's chain: the call returns with `FCX = 1`, `PCXI = 1` and
the free list `0x40 -> 0x80 -> 0xC0`. -/
theorem aurix_reclaim_no_running_check_witness :
    ∃ s1, vPortReclaimCSA 2 { reclaimState with PCXI := 1 } 0x2000 = some s1 ∧
      s1.FCX = 1 ∧ s1.PCXI = 1 ∧ Chain s1.mem s1.FCX [0x40, 0x80, 0xC0] := by
  obtain ⟨-, s1, hrun, hfcx, hpcxi, -, hF⟩ :=
    aurix_reclaim_no_running_check { reclaimState with PCXI := 1 } 0x2000 1 2 [0x40, 0x80]
      (by decide) (by decide) (by decide) (by decide) (by decide)
  exact ⟨s1, hrun, hfcx, hpcxi, hF [0xC0] (by decide) (by decide)⟩

/-! ## AURIX: the tick timer -/

namespace AURIX

open Port

/-- An assertion leaves the state as it finds it. -/
theorem configASSERT_state (cond : Bool) (t : Stm) : (configASSERT cond t).state = t := by
  cases cond <;> rfl

/-- One firing adds the tick count to the compare value, whether or not it
stops in the assertion. -/
theorem aurix_tick_cmp0 (cfg : TickConfig) (tim0 : Nat) (t : Stm) :
    (vPortSystemTickHandler cfg tim0 t).state.CMP0 = (t.CMP0 + portTICK_COUNT cfg) % WORD := by
  unfold vPortSystemTickHandler
  by_cases hd : cfg.configCPU_STM_DEBUG ≠ 0
  · simp only [if_pos hd, configASSERT_state]
  · simp only [if_neg hd]
    rfl

/-- Without the tick-drop check a firing returns. -/
theorem aurix_tick_returns (cfg : TickConfig) (tim0 : Nat) (t : Stm)
    (hd : cfg.configCPU_STM_DEBUG = 0) :
    vPortSystemTickHandler cfg tim0 t
      = Outcome.returned () (vPortSystemTickHandler cfg tim0 t).state := by
  simp only [vPortSystemTickHandler, hd, ne_eq, not_true_eq_false, if_false]
  rfl

/-- A run of firings that returns has added the tick count once per firing. -/
theorem aurix_tickRun_cmp0 (cfg : TickConfig) (tims : List Nat) :
    ∀ (t t1 : Stm), t.CMP0 < WORD → tickRun cfg tims t = Outcome.returned () t1 →
      t1.CMP0 = (t.CMP0 + tims.length * portTICK_COUNT cfg) % WORD := by
  induction tims with
  | nil =>
    intro t t1 h32 h
    have e : t = t1 := by
      simp only [tickRun] at h
      injection h
    subst e
    simp only [List.length_nil, Nat.zero_mul, Nat.add_zero]
    exact (Nat.mod_eq_of_lt h32).symm
  | cons tim rest ih =>
    intro t t1 _ h
    have hc := aurix_tick_cmp0 cfg tim t
    simp only [tickRun] at h
    cases hx : vPortSystemTickHandler cfg tim t with
    | returned v u =>
      rw [hx] at h hc
      have hu : u.CMP0 = (t.CMP0 + portTICK_COUNT cfg) % WORD := hc
      have hu32 : u.CMP0 < WORD := by
        rw [hu]
        exact Nat.mod_lt _ (by unfold WORD; exact Nat.pos_pow_of_pos 32 (by decide))
      have h1 := ih u t1 hu32 h
      rw [h1, hu, Nat.mod_add_mod, List.length_cons, Nat.succ_mul]
      congr 1
      omega
    | asserted u => rw [hx] at h; cases h
    | trapped u => rw [hx] at h; cases h

/-- Without the tick-drop check every run of firings returns. -/
theorem aurix_tickRun_returns (cfg : TickConfig) (hd : cfg.configCPU_STM_DEBUG = 0)
    (tims : List Nat) : ∀ t : Stm, ∃ t1, tickRun cfg tims t = Outcome.returned () t1 := by
  induction tims with
  | nil => intro t; exact ⟨t, rfl⟩
  | cons tim rest ih =>
    intro t
    obtain ⟨t1, h1⟩ := ih (vPortSystemTickHandler cfg tim t).state
    refine ⟨t1, ?_⟩
    simp only [tickRun]
    rw [aurix_tick_returns cfg tim t hd, Outcome.bind_returned]
    exact h1

/-- The compare value programmed by `vPortInitTickTimer`. -/
theorem aurix_init_tick_cmp0 (cfg : TickConfig) (tim0a tim0b : Nat) (t : Stm) :
    (vPortInitTickTimer cfg tim0a tim0b t).CMP0 = (tim0b + portTICK_COUNT cfg) % WORD := by
  simp only [vPortInitTickTimer]
  split <;> rfl

end AURIX

open Port AURIX in
/-- C26. AURIX tick re-arm is drift-free.  Each execution of
`vPortSystemTickHandler` sets the compare register `CMP0` to
`( CMP0 + portTICK_COUNT ) mod 2 ^ 32`, where `portTICK_COUNT` is
`configSTM_CLOCK_HZ / configTICK_RATE_HZ` (integer division), whatever the
value read from `TIM0` (and whether or not the tick-drop assertion stops the
handler afterwards).  `vPortInitTickTimer` programs
`C = ( TIM0 + portTICK_COUNT ) mod 2 ^ 32` (its second reading of `TIM0`); and
after `k` firings that return, for every sequence of `TIM0` readings, `CMP0`
is `( C + k * portTICK_COUNT ) mod 2 ^ 32`.  Without the tick-drop check
(`configCPU_STM_DEBUG == 0`) every firing returns. -/
theorem aurix_tick_rearm_drift_free (cfg : TickConfig) (tim0a tim0b : Nat) (t0 : Stm) :
    portTICK_COUNT cfg = cfg.configSTM_CLOCK_HZ / cfg.configTICK_RATE_HZ ∧
    (∀ (tim0 : Nat) (t : Stm),
      (vPortSystemTickHandler cfg tim0 t).state.CMP0
        = (t.CMP0 + portTICK_COUNT cfg) % 2 ^ 32) ∧
    (vPortInitTickTimer cfg tim0a tim0b t0).CMP0 = (tim0b + portTICK_COUNT cfg) % 2 ^ 32 ∧
    (∀ (tims : List Nat) (t1 : Stm),
      tickRun cfg tims (vPortInitTickTimer cfg tim0a tim0b t0) = Outcome.returned () t1 →
      t1.CMP0 = ((vPortInitTickTimer cfg tim0a tim0b t0).CMP0
        + tims.length * portTICK_COUNT cfg) % 2 ^ 32) ∧
    (cfg.configCPU_STM_DEBUG = 0 → ∀ tims : List Nat, ∃ t1,
      tickRun cfg tims (vPortInitTickTimer cfg tim0a tim0b t0) = Outcome.returned () t1) := by
  have hW : (2 : Nat) ^ 32 = WORD := rfl
  rw [hW]
  refine ⟨rfl, fun tim0 t => aurix_tick_cmp0 cfg tim0 t,
    aurix_init_tick_cmp0 cfg tim0a tim0b t0, ?_, ?_⟩
  · intro tims t1 h
    apply aurix_tickRun_cmp0 cfg tims _ t1 _ h
    rw [aurix_init_tick_cmp0]
    exact Nat.mod_lt _ (by unfold WORD; exact Nat.pos_pow_of_pos 32 (by decide))
  · intro hd tims
    exact aurix_tickRun_returns cfg hd tims _

open Port AURIX in
/-- With a tick count of 100000: the timer is started at a `TIM0` reading of
1000, so `CMP0 = 101000`; two firings, entered at `TIM0` readings 101005 and
201003, return and leave `CMP0 = 301000`. -/
theorem aurix_tick_rearm_drift_free_witness :
    ∃ t1, tickRun tickConfig [101005, 201003] (vPortInitTickTimer tickConfig 990 1000 stmZero)
        = Outcome.returned () t1 ∧ t1.CMP0 = 301000 := by
  obtain ⟨-, -, hC, hrun, -⟩ := aurix_tick_rearm_drift_free tickConfig 990 1000 stmZero
  refine ⟨_, rfl, ?_⟩
  rw [hrun [101005, 201003] _ rfl, hC]
  decide

open Port AURIX in
/-- C27. AURIX tick-drop detection.  With `configCPU_STM_DEBUG != 0`, for
32-bit values of the newly programmed compare value `CMP0'` and of the `TIM0`
reading: the assertion of `vPortSystemTickHandler` holds (the handler
returns) exactly when `( CMP0' - TIM0 ) mod 2 ^ 32 <= portTICK_COUNT`, and
otherwise the handler stops in the assertion; in particular it stops whenever
the new compare value is already in the past, that is, whenever
`0 < ( TIM0 - CMP0' ) mod 2 ^ 32 < 2 ^ 32 - portTICK_COUNT`. -/
theorem aurix_tick_drop_detection (cfg : TickConfig) (tim0 c1 : Nat) (t : Stm)
    (hdebug : cfg.configCPU_STM_DEBUG ≠ 0) (htim : tim0 < WORD)
    (hc1 : c1 = (t.CMP0 + portTICK_COUNT cfg) % WORD) :
    ((vPortSystemTickHandler cfg tim0 t).isReturned = true
      ↔ sub32 c1 tim0 ≤ portTICK_COUNT cfg) ∧
    (¬ sub32 c1 tim0 ≤ portTICK_COUNT cfg →
      ∃ u, vPortSystemTickHandler cfg tim0 t = Outcome.asserted u ∧ u.CMP0 = c1) ∧
    (0 < sub32 tim0 c1 → sub32 tim0 c1 < WORD - portTICK_COUNT cfg →
      ∃ u, vPortSystemTickHandler cfg tim0 t = Outcome.asserted u ∧ u.CMP0 = c1) := by
  have hfail : ¬ sub32 c1 tim0 ≤ portTICK_COUNT cfg →
      ∃ u, vPortSystemTickHandler cfg tim0 t = Outcome.asserted u ∧ u.CMP0 = c1 := by
    intro h
    rw [hc1] at h
    refine ⟨(vPortSystemTickHandler cfg tim0 t).state, ?_, ?_⟩
    · simp only [vPortSystemTickHandler, if_pos hdebug, configASSERT, h, decide_False,
        Bool.false_eq_true, if_false, Outcome.state]
    · rw [aurix_tick_cmp0, hc1]
  refine ⟨?_, hfail, ?_⟩
  · by_cases h : sub32 c1 tim0 ≤ portTICK_COUNT cfg
    · have h1 := h
      rw [hc1] at h1
      simp only [vPortSystemTickHandler, if_pos hdebug, configASSERT, h1, decide_True, if_true,
        Outcome.isReturned, h]
    · obtain ⟨u, hu, -⟩ := hfail h
      simp only [hu, Outcome.isReturned, h, Bool.false_eq_true]
  · intro hpos hlt
    apply hfail
    have hc1lt : c1 < WORD := by
      rw [hc1]
      exact Nat.mod_lt _ (by unfold WORD; exact Nat.pos_pow_of_pos 32 (by decide))
    unfold sub32 at hpos hlt ⊢
    rw [WORD_eq] at hpos hlt htim hc1lt ⊢
    omega

open Port AURIX in
/-- With a tick count of 100000 and `CMP0 = 101000` before the firing, so
that the new compare value is 201000: at a `TIM0` reading of 201050 the
compare value is 50 counts in the past and the handler stops in the
assertion; at a reading of 101005 it returns. -/
theorem aurix_tick_drop_detection_witness :
    (∃ u, vPortSystemTickHandler tickConfig 201050 { stmZero with CMP0 := 101000 }
        = Outcome.asserted u ∧ u.CMP0 = 201000) ∧
    (vPortSystemTickHandler tickConfig 101005 { stmZero with CMP0 := 101000 }).isReturned
      = true := by
  obtain ⟨h1, -, h3⟩ := aurix_tick_drop_detection tickConfig 201050 201000
    { stmZero with CMP0 := 101000 } (by decide) (by decide) (by decide)
  obtain ⟨g1, -, -⟩ := aurix_tick_drop_detection tickConfig 101005 201000
    { stmZero with CMP0 := 101000 } (by decide) (by decide) (by decide)
  exact ⟨h3 (by decide) (by decide), g1.mpr (by decide)⟩

/-! ## C29x: the ready-priority bitmap -/

namespace C29x

open Port

/-- When one of the bits below `i` is set, the count of leading zeros finds
the highest of them. -/
theorem c29x_clzFrom_spec (x : Nat) : ∀ i, (∃ j, j < i ∧ x.testBit j = true) →
    clzFrom i x < i ∧ x.testBit (i - 1 - clzFrom i x) = true ∧
    ∀ q, q < i → x.testBit q = true → q ≤ i - 1 - clzFrom i x := by
  intro i
  induction i with
  | zero =>
    rintro ⟨j, hj, -⟩
    exact absurd hj (Nat.not_lt_zero j)
  | succ i ih =>
    rintro ⟨j, hj, hjb⟩
    by_cases hi : x.testBit i = true
    · have hc : clzFrom (i + 1) x = 0 := by simp only [clzFrom, hi, if_true]
      rw [hc]
      refine ⟨Nat.succ_pos i, ?_, ?_⟩
      · simpa using hi
      · intro q hq _
        omega
    · have hc : clzFrom (i + 1) x = clzFrom i x + 1 := by
        simp only [clzFrom, hi, if_false]
        rfl
      have hji : j < i := by
        have : j ≠ i := fun e => hi (e ▸ hjb)
        omega
      obtain ⟨h1, h2, h3⟩ := ih ⟨j, hji, hjb⟩
      rw [hc]
      have e : i + 1 - 1 - (clzFrom i x + 1) = i - 1 - clzFrom i x := by omega
      rw [e]
      refine ⟨by omega, h2, ?_⟩
      intro q hq hqb
      have hqi : q < i := by
        have : q ≠ i := fun e => hi (e ▸ hqb)
        omega
      exact h3 q hqi hqb

/-- A non-zero 32-bit word has a set bit below 32. -/
theorem c29x_set_bit_below (b : Nat) (hb : b ≠ 0) (h32 : b < 2 ^ 32) :
    ∃ j, j < 32 ∧ b.testBit j = true := by
  obtain ⟨j, hj⟩ := Nat.ne_zero_implies_bit_true hb
  refine ⟨j, ?_, hj⟩
  by_contra hge
  have hlt : b < 2 ^ j :=
    lt_of_lt_of_le h32 (Nat.pow_le_pow_right (by decide) (by omega))
  rw [Nat.testBit_lt_two_pow hlt] at hj
  cases hj

/-- The highest priority reported for a non-zero bitmap. -/
theorem c29x_highest_priority (b : Nat) (hb : b ≠ 0) (h32 : b < 2 ^ 32) :
    __builtin_c29_i32_clzeros_d b ≤ 31 ∧
    portGET_HIGHEST_PRIORITY b = 31 - __builtin_c29_i32_clzeros_d b ∧
    b.testBit (portGET_HIGHEST_PRIORITY b) = true ∧
    ∀ q, q ≤ 31 → b.testBit q = true → q ≤ portGET_HIGHEST_PRIORITY b := by
  obtain ⟨h1, h2, h3⟩ := c29x_clzFrom_spec b 32 (c29x_set_bit_below b hb h32)
  have hc : __builtin_c29_i32_clzeros_d b ≤ 31 := by
    unfold __builtin_c29_i32_clzeros_d; omega
  have hg : portGET_HIGHEST_PRIORITY b = 31 - __builtin_c29_i32_clzeros_d b := by
    unfold portGET_HIGHEST_PRIORITY
    rw [WORD_eq]
    omega
  refine ⟨hc, hg, ?_, ?_⟩
  · rw [hg]; exact h2
  · intro q hq hqb
    rw [hg]
    exact h3 q (by omega) hqb

/-- Recording a priority below 32 in a 32-bit bitmap sets its bit and keeps
the bitmap a 32-bit word. -/
theorem c29x_record_bit (p b : Nat) (hp : p ≤ 31) (h32 : b < 2 ^ 32) :
    portRECORD_READY_PRIORITY p b = b ||| 2 ^ p ∧
    portRECORD_READY_PRIORITY p b < 2 ^ 32 ∧
    (portRECORD_READY_PRIORITY p b).testBit p = true := by
  have h1 : (2 : Nat) ^ p < 2 ^ 32 := Nat.pow_lt_pow_right (by decide) (by omega)
  have h2 : b ||| 2 ^ p < 2 ^ 32 := Nat.or_lt_two_pow h32 h1
  have e : portRECORD_READY_PRIORITY p b = b ||| 2 ^ p := by
    unfold portRECORD_READY_PRIORITY
    rw [Nat.one_shiftLeft, WORD_eq]
    exact Nat.mod_eq_of_lt (by omega)
  refine ⟨e, by rw [e]; exact h2, ?_⟩
  rw [e, Nat.testBit_or, Nat.testBit_two_pow_self, Bool.or_true]

/-- Resetting a priority that was recorded on a clear bit restores the
bitmap. -/
theorem c29x_reset_record (p b : Nat) (hp : p ≤ 31) (h32 : b < 2 ^ 32)
    (hclear : b.testBit p = false) :
    portRESET_READY_PRIORITY p (portRECORD_READY_PRIORITY p b) = b := by
  have h1 : (2 : Nat) ^ p < 2 ^ 32 := Nat.pow_lt_pow_right (by decide) (by omega)
  rw [(c29x_record_bit p b hp h32).1]
  unfold portRESET_READY_PRIORITY
  have e1 : (1 <<< p) % WORD = 2 ^ p := by
    rw [Nat.one_shiftLeft, WORD_eq]
    exact Nat.mod_eq_of_lt (by omega)
  have e2 : (0xFFFFFFFF : Nat) = 2 ^ 32 - 1 := by norm_num
  rw [e1, e2]
  apply Nat.eq_of_testBit_eq
  intro i
  simp only [Nat.testBit_and, Nat.testBit_or, Nat.testBit_xor, Nat.testBit_two_pow_sub_one,
    Nat.testBit_two_pow]
  by_cases hip : p = i
  · subst hip
    simp [hclear]
    omega
  · by_cases hi : i < 32
    · simp [hip, hi]
    · have hbi : b.testBit i = false :=
        Nat.testBit_lt_two_pow
          (lt_of_lt_of_le h32 (Nat.pow_le_pow_right (by decide) (by omega)))
      simp [hip, hi, hbi]

end C29x

open Port C29x in
/-- C28. C29x ready-priority bitmap.  For every non-zero 32-bit bitmap `b`,
`portGET_HIGHEST_PRIORITY` yields 31 minus the number of leading zeros of `b`,
which is the largest `p` in `0..31` whose bit is set in `b`.  Consequently,
for every 32-bit bitmap `b` and every `p <= 31`, after
`portRECORD_READY_PRIORITY( p, b )` the reported top priority is at least `p`,
and `portRESET_READY_PRIORITY( p, b )` after `portRECORD_READY_PRIORITY( p, b )`
restores `b` when bit `p` was clear beforehand. -/
theorem c29x_ready_priority_bitmap (b : Nat) (h32 : b < 2 ^ 32) :
    (b ≠ 0 →
      portGET_HIGHEST_PRIORITY b = 31 - __builtin_c29_i32_clzeros_d b ∧
      portGET_HIGHEST_PRIORITY b ≤ 31 ∧
      b.testBit (portGET_HIGHEST_PRIORITY b) = true ∧
      ∀ q, q ≤ 31 → b.testBit q = true → q ≤ portGET_HIGHEST_PRIORITY b) ∧
    (∀ p, p ≤ 31 → p ≤ portGET_HIGHEST_PRIORITY (portRECORD_READY_PRIORITY p b)) ∧
    (∀ p, p ≤ 31 → b.testBit p = false →
      portRESET_READY_PRIORITY p (portRECORD_READY_PRIORITY p b) = b) := by
  refine ⟨?_, ?_, ?_⟩
  · intro hb
    obtain ⟨-, hg, ht, hmax⟩ := c29x_highest_priority b hb h32
    refine ⟨hg, ?_, ht, hmax⟩
    rw [hg]
    omega
  · intro p hp
    obtain ⟨-, hlt, hbit⟩ := c29x_record_bit p b hp h32
    have hne : portRECORD_READY_PRIORITY p b ≠ 0 := by
      intro h0
      rw [h0] at hbit
      simp at hbit
    exact (c29x_highest_priority _ hne hlt).2.2.2 p hp hbit
  · intro p hp hclear
    exact c29x_reset_record p b hp h32 hclear

open Port C29x in
/-- The bitmap `0x00000114` (priorities 2, 4 and 8 ready): the top priority is
8; after recording priority 20 it is 20, and resetting priority 20 again
restores the bitmap. -/
theorem c29x_ready_priority_bitmap_witness :
    portGET_HIGHEST_PRIORITY 0x00000114 = 8 ∧
    portGET_HIGHEST_PRIORITY (portRECORD_READY_PRIORITY 20 0x00000114) = 20 ∧
    portRESET_READY_PRIORITY 20 (portRECORD_READY_PRIORITY 20 0x00000114) = 0x00000114 := by
  obtain ⟨h1, -, h3⟩ := c29x_ready_priority_bitmap 0x00000114 (by norm_num)
  obtain ⟨hg, -, -, -⟩ := h1 (by decide)
  refine ⟨?_, by decide, h3 20 (by decide) (by decide)⟩
  rw [hg]
  decide

/-! ## U2x: indexing and frame of the recursive lock -/

namespace U2x

open Port

/-- The mask cycle of the lock routines leaves the interrupt-disable bit as it
was. -/
theorem u2x_maskCycle_id_bit (r : Regs) :
    (maskCycle r).PSW &&& portPSW_ID_MASK = r.PSW &&& portPSW_ID_MASK := by
  simp only [maskCycle, vPortClearInterruptMask, xPortSetInterruptMask, portDISABLE_INTERRUPTS,
    __DI, portPSW_ID_MASK]
  exact u2x_clear_sets_id_bit _ _

/-- An assignment to one entry of `uxLockNesting` leaves the others. -/
theorem u2x_setLockNesting_other (s : State) (c d v c1 d1 : Nat)
    (h : ¬ (c1 = c ∧ d1 = d)) :
    (setLockNesting s c d v).uxLockNesting c1 d1 = s.uxLockNesting c1 d1 := by
  simp only [setLockNesting, h, if_false]

/-- Registers and frame of a returning `vPortRecursiveLockAcquire`. -/
theorem u2x_acquire_frame (fuel c : Nat) (x : Int) (r r1 : Regs) (s s1 : State)
    (h : vPortRecursiveLockAcquire fuel c x r s = some (r1, s1)) :
    r1 = maskCycle r ∧
    ∀ c1 d1, ¬ (c1 = c ∧ d1 = lockBitPosition x) →
      s1.uxLockNesting c1 d1 = s.uxLockNesting c1 d1 := by
  have hr : r1 = maskCycle r := by
    simp only [vPortRecursiveLockAcquire] at h
    split at h
    · cases h
    · injection h with h
      injection h with h1 h2
      rw [← h1]
      rfl
  refine ⟨hr, ?_⟩
  intro c1 d1 hne
  rcases u2x_acquire_inv fuel c x r r1 s s1 h with ⟨-, -, hs⟩ | ⟨-, hs⟩
  · rw [hs, u2x_setLockNesting_other _ _ _ _ _ _ hne]
  · rw [hs, u2x_setLockNesting_other _ _ _ _ _ _ hne]

/-- Registers and frame of a returning `vPortRecursiveLockRelease`. -/
theorem u2x_release_frame (c : Nat) (x : Int) (r r1 : Regs) (s s1 : State)
    (h : vPortRecursiveLockRelease c x r s = Outcome.returned () (r1, s1)) :
    r1 = maskCycle r ∧
    ∀ c1 d1, ¬ (c1 = c ∧ d1 = lockBitPosition x) →
      s1.uxLockNesting c1 d1 = s.uxLockNesting c1 d1 := by
  by_cases hpos : s.uxLockNesting c (lockBitPosition x) > 0
  · simp only [vPortRecursiveLockRelease, configASSERT, hpos, decide_True, if_true,
      Outcome.bind] at h
    injection h with _ h
    injection h with h1 h2
    refine ⟨h1.symm, ?_⟩
    intro c1 d1 hne
    rw [← h2]
    split
    · show (setLockNesting s c (lockBitPosition x) _).uxLockNesting c1 d1 = _
      exact u2x_setLockNesting_other _ _ _ _ _ _ hne
    · exact u2x_setLockNesting_other _ _ _ _ _ _ hne
  · have h0 : s.uxLockNesting c (lockBitPosition x) = 0 := by omega
    rw [u2x_release_zero c x r s h0] at h
    cases h

/-- With a non-zero counter `vPortRecursiveLockRelease` returns. -/
theorem u2x_release_returns (c : Nat) (x : Int) (r : Regs) (s : State)
    (hpos : s.uxLockNesting c (lockBitPosition x) ≠ 0) :
    ∃ r1 s1, vPortRecursiveLockRelease c x r s = Outcome.returned () (r1, s1) := by
  have hp : s.uxLockNesting c (lockBitPosition x) > 0 := Nat.pos_of_ne_zero hpos
  simp only [vPortRecursiveLockRelease, configASSERT, hp, decide_True, if_true, Outcome.bind]
  exact ⟨_, _, rfl⟩

/-- With a non-zero counter or a free hardware bit `vPortRecursiveLockAcquire`
returns at the first try. -/
theorem u2x_acquire_returns (fuel c : Nat) (x : Int) (r : Regs) (s : State)
    (h : s.uxLockNesting c (lockBitPosition x) ≠ 0 ∨ s.mev (lockBitPosition x) = false) :
    ∃ r1 s1, vPortRecursiveLockAcquire (fuel + 1) c x r s = some (r1, s1) := by
  by_cases h0 : s.uxLockNesting c (lockBitPosition x) = 0
  · rcases h with h | h
    · exact absurd h0 h
    · exact ⟨_, _, u2x_acquire_first fuel c x r s h0 h⟩
  · exact ⟨_, _, u2x_acquire_nested (fuel + 1) c x r s _ rfl h0⟩

end U2x

open Port U2x in
/-- C29. U2x lock-table indexing and frame.  In `vPortRecursiveLockAcquire`
and `vPortRecursiveLockRelease` the domain index computed from `xFromIsr` is 1
exactly when `xFromIsr == pdTRUE` and 0 for every other value, so it is always
below the bound 2 of the second index of `uxLockNesting`.  A call for
`( c, d )` with `c < configNUMBER_OF_CORES` that returns changes no entry of
`uxLockNesting` other than `[ c ][ d ]`, and on return the interrupt-disable
bit of `PSW` has its value on entry.  The acquire returns (at the first try)
when the counter is non-zero or the hardware bit is free, the release when the
counter is non-zero. -/
theorem u2x_lock_index_and_frame (cfg : Config) (c : Nat) (x : Int) (r : Regs)
    (s : U2x.State) (fuel : Nat) (hc : c < cfg.configNUMBER_OF_CORES) :
    (lockBitPosition x = 1 ↔ x = pdTRUE) ∧
    (lockBitPosition x = 0 ↔ x ≠ pdTRUE) ∧
    lockBitPosition x < 2 ∧
    (∀ r1 s1, vPortRecursiveLockAcquire fuel c x r s = some (r1, s1) →
      (∀ c1 d1, ¬ (c1 = c ∧ d1 = lockBitPosition x) →
        s1.uxLockNesting c1 d1 = s.uxLockNesting c1 d1) ∧
      r1.PSW &&& portPSW_ID_MASK = r.PSW &&& portPSW_ID_MASK) ∧
    (∀ r1 s1, vPortRecursiveLockRelease c x r s = Outcome.returned () (r1, s1) →
      (∀ c1 d1, ¬ (c1 = c ∧ d1 = lockBitPosition x) →
        s1.uxLockNesting c1 d1 = s.uxLockNesting c1 d1) ∧
      r1.PSW &&& portPSW_ID_MASK = r.PSW &&& portPSW_ID_MASK) ∧
    ((s.uxLockNesting c (lockBitPosition x) ≠ 0 ∨ s.mev (lockBitPosition x) = false) →
      ∃ r1 s1, vPortRecursiveLockAcquire (fuel + 1) c x r s = some (r1, s1)) ∧
    (s.uxLockNesting c (lockBitPosition x) ≠ 0 →
      ∃ r1 s1, vPortRecursiveLockRelease c x r s = Outcome.returned () (r1, s1)) := by
  have _ := hc
  refine ⟨?_, ?_, u2x_lockBitPosition_lt x, ?_, ?_, ?_, ?_⟩
  · unfold lockBitPosition
    by_cases hx : x = pdTRUE
    · simp only [hx, if_true]
    · simp only [hx, if_false]
      exact ⟨fun h => absurd h (by decide), fun h => absurd h (fun h1 => h1.elim)⟩
  · unfold lockBitPosition
    by_cases hx : x = pdTRUE
    · simp only [hx, if_true]
      exact ⟨fun h => absurd h (by decide), fun h => absurd rfl h⟩
    · simp only [hx, if_false, ne_eq, not_false_eq_true]
  · intro r1 s1 h
    obtain ⟨hr, hframe⟩ := u2x_acquire_frame fuel c x r r1 s s1 h
    exact ⟨hframe, by rw [hr]; exact u2x_maskCycle_id_bit r⟩
  · intro r1 s1 h
    obtain ⟨hr, hframe⟩ := u2x_release_frame c x r r1 s s1 h
    exact ⟨hframe, by rw [hr]; exact u2x_maskCycle_id_bit r⟩
  · exact u2x_acquire_returns fuel c x r s
  · exact u2x_release_returns c x r s

open Port U2x in
/-- Core 1 of a two-core system acquires the lock with `xFromIsr = 5` from the
initial state: the index is 0 (5 is not `pdTRUE`), the call returns, the
entries `[ 1 ][ 1 ]` and `[ 0 ][ 0 ]` of `uxLockNesting` are still 0, and the
interrupt-disable bit is clear as on entry. -/
theorem u2x_lock_index_and_frame_witness :
    lockBitPosition 5 = 0 ∧
    ∃ r1 s1, vPortRecursiveLockAcquire 1 1 5 (coreRegs 1) initialState = some (r1, s1) ∧
      s1.uxLockNesting 1 1 = 0 ∧ s1.uxLockNesting 0 0 = 0 ∧
      r1.PSW &&& portPSW_ID_MASK = 0 := by
  obtain ⟨-, h2, -, -, -, hret, -⟩ :=
    u2x_lock_index_and_frame dualCore 1 5 (coreRegs 1) initialState 0 (by decide)
  obtain ⟨-, -, -, hacq, -, -, -⟩ :=
    u2x_lock_index_and_frame dualCore 1 5 (coreRegs 1) initialState 1 (by decide)
  obtain ⟨r1, s1, hrun⟩ := hret (Or.inr (by decide))
  obtain ⟨hframe, hbit⟩ := hacq r1 s1 hrun
  refine ⟨h2.mpr (by decide), r1, s1, hrun, ?_, ?_, ?_⟩
  · rw [hframe 1 1 (by decide)]; rfl
  · rw [hframe 0 0 (by decide)]; rfl
  · rw [hbit]; decide

open Port AURIX in
/-- C30. AURIX `pxPortCsaToAddress`: for every handle `x` the result equals
`( ( ( x >> 16 ) & 0xF ) << 28 ) | ( ( x & 0xFFFF ) << 6 )`; it therefore
depends only on the low 20 bits of `x` (`x & portCSA_FCX_MASK`), is a 32-bit
value that is always 64-byte aligned (low 6 bits zero) with bits 22 to 27
zero, is `NULL` if and only if the low 20 bits of `x` are all zero, and is
injective on those low 20 bits. -/
theorem aurix_csa_to_address_formula (x : Nat) :
    pxPortCsaToAddress x = (((x >>> 16) &&& 0xF) <<< 28) ||| ((x &&& 0xFFFF) <<< 6) ∧
    pxPortCsaToAddress x = pxPortCsaToAddress (x &&& portCSA_FCX_MASK) ∧
    (∀ y, x &&& portCSA_FCX_MASK = y &&& portCSA_FCX_MASK →
      pxPortCsaToAddress x = pxPortCsaToAddress y) ∧
    pxPortCsaToAddress x < 2 ^ 32 ∧
    pxPortCsaToAddress x &&& 0x3F = 0 ∧
    (pxPortCsaToAddress x >>> 22) &&& 0x3F = 0 ∧
    (pxPortCsaToAddress x = NULL ↔ x &&& portCSA_FCX_MASK = 0) ∧
    (∀ y, pxPortCsaToAddress x = pxPortCsaToAddress y →
      x &&& portCSA_FCX_MASK = y &&& portCSA_FCX_MASK) := by
  have h6 : ∀ a : Nat, a &&& 0x3F = a % 64 := by
    intro a
    have e : (0x3F : Nat) = 2 ^ 6 - 1 := by norm_num
    rw [e, Nat.and_pow_two_sub_one_eq_mod]
  refine ⟨?_, (aurix_csa_masked x).symm, ?_, ?_, ?_, ?_, aurix_csa_null_iff x, ?_⟩
  · have he : (x >>> 16) &&& 0xF = x / 65536 % 16 := by
      have e : (0xF : Nat) = 2 ^ 4 - 1 := by norm_num
      rw [e, Nat.and_pow_two_sub_one_eq_mod, Nat.shiftRight_eq_div_pow]
    have hl : x &&& 0xFFFF = x % 65536 := by
      have e : (0xFFFF : Nat) = 2 ^ 16 - 1 := by norm_num
      rw [e, Nat.and_pow_two_sub_one_eq_mod]
    have hlbound : x % 65536 < 65536 := Nat.mod_lt _ (by norm_num)
    rw [aurix_csa_address_eq, he, hl, Nat.shiftLeft_eq, Nat.shiftLeft_eq]
    have e1 : x / 65536 % 16 * 2 ^ 28 = 2 ^ 28 * (x / 65536 % 16) := Nat.mul_comm _ _
    have e2 : x % 65536 * 2 ^ 6 = 64 * (x % 65536) := by
      rw [Nat.mul_comm]
      rfl
    rw [e1, e2, ← Nat.mul_add_lt_is_or (by omega)]
  · intro y hy
    apply aurix_csa_address_low20
    rw [← aurix_mask_eq_mod, ← aurix_mask_eq_mod]
    exact hy
  · rw [aurix_csa_address_eq]
    omega
  · rw [h6, aurix_csa_address_eq]
    omega
  · rw [h6, Nat.shiftRight_eq_div_pow, aurix_csa_address_eq]
    omega
  · intro y hy
    rw [aurix_mask_eq_mod, aurix_mask_eq_mod]
    rw [aurix_csa_address_eq, aurix_csa_address_eq] at hy
    omega
